import Mathlib

/-!
The fixed-grid finite-element mesh of `src/Mesh.cpp`.

A shallow embedding of `lsm::Mesh` (constructor, `initialiseNodes`,
`initialiseNeighbours`, `initialiseElements`) and theorems about the mesh it builds.

* `unsigned int` values are natural numbers; every `+`, `-`, `*` of the source is
  taken modulo `2^32` (`uadd`, `usub`, `umul`).
* `double` values are elements of an arbitrary field `K`; the value of `sqrt(3.0)` is a
  parameter of the constructor.  Every coordinate the theorems below talk about is an
  integer or a half-integer below `2^33`, which binary64 represents exactly.
* `std::vector`s and the fixed-size arrays are lists.  A write through an index that is
  out of range (undefined behaviour in the source) leaves the list unchanged
  (`List.modify`, `List.set`).
-/

namespace lsm

/-! ## Machine arithmetic -/

/-- Number of values of the 32-bit `unsigned int` type. -/
def uintSize : Nat := 4294967296

/-- Addition of two `unsigned int`s. -/
def uadd (a b : Nat) : Nat := (a + b) % uintSize

/-- Subtraction of two `unsigned int`s (both below `uintSize`). -/
def usub (a b : Nat) : Nat := (a + uintSize - b) % uintSize

/-- Multiplication of two `unsigned int`s. -/
def umul (a b : Nat) : Nat := (a * b) % uintSize

/-- The loop `for (unsigned int i = 0; i < n; i++) body(i)` run on the state `s`. -/
def forLoop {σ : Type} (body : Nat → σ → σ) (s : σ) : Nat → σ
  | 0 => s
  | k + 1 => body k (forLoop body s k)

/-! ## Data model -/

/-- Modelled from the spec: the `Coord` aggregate declared in Mesh.h (two `double`s,
`x` and `y`). -/
structure Coord (K : Type) where
  x : K
  y : K
deriving DecidableEq

/-- Modelled from the spec: the `Node` aggregate declared in Mesh.h, with the members
Mesh.cpp writes: `coord`, `neighbours[4]`, `elements[4]`, `nElements`, `isDomain`. -/
structure Node (K : Type) where
  coord : Coord K
  neighbours : List Nat
  elements : List Nat
  nElements : Nat
  isDomain : Bool

/-- Modelled from the spec: the `Element` aggregate declared in Mesh.h, with the members
Mesh.cpp writes: `coord`, `gaussPoints[4]`, `nodes[4]`. -/
structure Element (K : Type) where
  coord : Coord K
  gaussPoints : List (Coord K)
  nodes : List Nat

/-- Modelled from the spec: the data members of class `Mesh` declared in Mesh.h. -/
structure Mesh (K : Type) where
  width : Nat
  height : Nat
  nElements : Nat
  nNodes : Nat
  isPeriodic : Bool
  elements : List (Element K)
  nodes : List (Node K)
  xyToIndex : List (List Nat)

variable {K : Type}

/-- A value-initialised `Coord`, as `std::vector::resize` creates it. -/
def Coord.zero [Field K] : Coord K := ⟨0, 0⟩

/-- A value-initialised `Node`, as `nodes.resize(nNodes)` creates it. -/
def Node.zero [Field K] : Node K :=
  { coord := Coord.zero, neighbours := [0, 0, 0, 0], elements := [0, 0, 0, 0],
    nElements := 0, isDomain := false }

/-- A value-initialised `Element`, as `elements.resize(nElements)` creates it. -/
def Element.zero [Field K] : Element K :=
  { coord := Coord.zero, gaussPoints := [Coord.zero, Coord.zero, Coord.zero, Coord.zero],
    nodes := [0, 0, 0, 0] }

/-- The update `nodes[i].… = …`: applies `f` to node `i`. -/
def Mesh.modifyNode (m : Mesh K) (i : Nat) (f : Node K → Node K) : Mesh K :=
  { m with nodes := m.nodes.modify f i }

/-- The update `elements[i].… = …`: applies `f` to element `i`. -/
def Mesh.modifyElement (m : Mesh K) (i : Nat) (f : Element K → Element K) : Mesh K :=
  { m with elements := m.elements.modify f i }

/-- The assignment `nodes[node].neighbours[d] = v`. -/
def Mesh.setNeighbour (m : Mesh K) (node d v : Nat) : Mesh K :=
  m.modifyNode node (fun nd => { nd with neighbours := nd.neighbours.set d v })

/-- The assignment `xyToIndex[x][y] = i`. -/
def Mesh.setXyToIndex (m : Mesh K) (x y i : Nat) : Mesh K :=
  { m with xyToIndex := m.xyToIndex.modify (fun col => col.set y i) x }

/-- The read `elements[i].nodes[j]`. -/
def Mesh.elementNode (m : Mesh K) (i j : Nat) : Nat :=
  match m.elements[i]? with
  | some e => e.nodes.getD j 0
  | none => 0

/-- The read `nodes[n].neighbours[d]`; `none` when an index is out of range. -/
def Mesh.neighbour (m : Mesh K) (n d : Nat) : Option Nat :=
  (m.nodes[n]?).bind (fun nd => nd.neighbours[d]?)

/-- The read `xyToIndex[x][y]`: the index of the node at grid coordinate `(x, y)`; `none`
when an index is out of range. -/
def Mesh.nodeAt (m : Mesh K) (x y : Nat) : Option Nat :=
  (m.xyToIndex[x]?).bind (fun col => col[y]?)

/-- The read `elements[i].coord`: the centre of element `i`; `none` when the index is out
of range. -/
def Mesh.centre (m : Mesh K) (i : Nat) : Option (Coord K) :=
  (m.elements[i]?).map (fun e => e.coord)

/-- The read `nodes[elements[i].nodes[j]].coord`: the stored coordinates of corner `j` of
element `i`; `none` when an index is out of range. -/
def Mesh.cornerCoord (m : Mesh K) (i j : Nat) : Option (Coord K) :=
  (m.elements[i]?).bind (fun e => (e.nodes[j]?).bind (fun c =>
    (m.nodes[c]?).map (fun nd => nd.coord)))

/-- The element list of node `n`: the first `nodes[n].nElements` entries of
`nodes[n].elements`; `none` when the index is out of range. -/
def Mesh.nodeElements (m : Mesh K) (n : Nat) : Option (List Nat) :=
  (m.nodes[n]?).map (fun nd => nd.elements.take nd.nElements)

/-- The read `nodes[n].isDomain`; `none` when the index is out of range. -/
def Mesh.nodeIsDomain (m : Mesh K) (n : Nat) : Option Bool :=
  (m.nodes[n]?).map (fun nd => nd.isDomain)

/-- The read `nodes[n].nElements`; `none` when the index is out of range. -/
def Mesh.nodeElementCount (m : Mesh K) (n : Nat) : Option Nat :=
  (m.nodes[n]?).map (fun nd => nd.nElements)

/-- The read `elements[i].nodes[j]` of a query; `none` when an index is out of range. -/
def Mesh.cornerNode (m : Mesh K) (i j : Nat) : Option Nat :=
  (m.elements[i]?).bind (fun e => e.nodes[j]?)

/-- The value of `sqrt(3.0)` to 17 significant digits, for evaluating the constructor on
rational coordinates. -/
def sqrtThreeQ : ℚ := 1.7320508075688772

/-! ## `Mesh::initialiseNeighbours` -/

/-- The function `Mesh::initialiseNeighbours(node, x, y)`. -/
def Mesh.initialiseNeighbours (m : Mesh K) (node x y : Nat) : Mesh K :=
  -- Number of nodes along width of mesh (number of elements plus one)
  let w := uadd m.width 1
  -- Neighbours to left and right.
  let m := m.setNeighbour node 0 (uadd (uadd (usub x 1) w % w) (umul y w))
  let m := m.setNeighbour node 1 (uadd (uadd (uadd x 1) w % w) (umul y w))
  -- Neighbours below and above.
  let m := m.setNeighbour node 2 (uadd x (umul w (uadd (usub y 1) w % w)))
  let m := m.setNeighbour node 3 (uadd x (umul w (uadd (uadd y 1) w % w)))
  -- The mesh isn't periodic, flag out of bounds neighbours.
  if m.isPeriodic = false then
    let m :=
      if x = 0 then m.setNeighbour node 0 m.nNodes
      else if x = m.width then m.setNeighbour node 1 m.nNodes
      else m
    if y = 0 then m.setNeighbour node 2 m.nNodes
    else if y = m.height then m.setNeighbour node 3 m.nNodes
    else m
  else m

/-! ## `Mesh::initialiseNodes` -/

/-- One iteration of the loop of `Mesh::initialiseNodes`, for node `i`. -/
def Mesh.initialiseNodesBody [Field K] (i : Nat) (m : Mesh K) : Mesh K :=
  -- Mark node as in bulk.
  let m := m.modifyNode i (fun nd => { nd with isDomain := false })
  -- Zero number of connected elements.
  let m := m.modifyNode i (fun nd => { nd with nElements := 0 })
  -- Work out node coordinates.
  let x := i % uadd m.width 1
  let y := i / uadd m.width 1
  -- Node lies on the domain boundary.
  let m :=
    if x = 0 ∨ x = m.width ∨ y = 0 ∨ y = m.height then
      m.modifyNode i (fun nd => { nd with isDomain := true })
    else m
  -- Set node coordinates.
  let m := m.modifyNode i (fun nd => { nd with coord := { nd.coord with x := (x : K) } })
  let m := m.modifyNode i (fun nd => { nd with coord := { nd.coord with y := (y : K) } })
  -- Add to 2D mapping vector.
  let m := m.setXyToIndex x y i
  -- Determine nearest neighbours.
  m.initialiseNeighbours i x y

/-- The function `Mesh::initialiseNodes`. -/
def Mesh.initialiseNodes [Field K] (m : Mesh K) : Mesh K :=
  forLoop Mesh.initialiseNodesBody m m.nNodes

/-! ## `Mesh::initialiseElements` -/

/-- The table `nodeCoords` of `Mesh::initialiseElements`: relative node coordinates. -/
def nodeCoords [Field K] : List (Coord K) := [⟨-1, -1⟩, ⟨1, -1⟩, ⟨1, 1⟩, ⟨-1, 1⟩]

/-- The read `nodeCoords[j]`. -/
def nodeCoord [Field K] (j : Nat) : Coord K := (nodeCoords (K := K)).getD j Coord.zero

/-- One iteration of the Gauss point loop: stores `gaussPoints[j]` of element `i`. -/
def Mesh.gaussBody [Field K] (invSqrtThree : K) (i j : Nat) (m : Mesh K) : Mesh K :=
  let m := m.modifyElement i (fun e =>
    let gx := e.coord.x + invSqrtThree * 0.5 * (nodeCoord j).x
    { e with gaussPoints := List.modify (fun g => { g with x := gx }) j e.gaussPoints })
  m.modifyElement i (fun e =>
    let gy := e.coord.y + invSqrtThree * 0.5 * (nodeCoord j).y
    { e with gaussPoints := List.modify (fun g => { g with y := gy }) j e.gaussPoints })

/-- One iteration of the reverse connectivity loop: appends element `i` to the element
list of its corner `j`. -/
def Mesh.connectBody (i j : Nat) (m : Mesh K) : Mesh K :=
  let node := m.elementNode i j
  let m := m.modifyNode node (fun nd => { nd with elements := nd.elements.set nd.nElements i })
  m.modifyNode node (fun nd => { nd with nElements := uadd nd.nElements 1 })

/-- One iteration of the loop of `Mesh::initialiseElements`, for element `i`. -/
def Mesh.initialiseElementsBody [Field K] (invSqrtThree : K) (i : Nat) (m : Mesh K) : Mesh K :=
  -- Number of nodes along width of mesh (number of elements plus one)
  let w := uadd m.width 1
  -- Work out element coordinates.
  let x := i % m.width
  let y := i / m.width
  -- Store coordinates of element centre.
  let m := m.modifyElement i (fun e => { e with coord := { e.coord with x := (x : K) + 0.5 } })
  let m := m.modifyElement i (fun e => { e with coord := { e.coord with y := (y : K) + 0.5 } })
  -- Store Gauss point coordinates.
  let m := forLoop (Mesh.gaussBody invSqrtThree i) m 4
  -- Store connectivity (element --> node)
  let m := m.modifyElement i (fun e => { e with nodes := e.nodes.set 0 (uadd x (umul y w)) })
  let m := m.modifyElement i (fun e =>
    { e with nodes := e.nodes.set 1 (uadd (uadd x 1) (umul y w)) })
  let m := m.modifyElement i (fun e =>
    { e with nodes := e.nodes.set 2 (uadd (uadd x 1) (umul (uadd y 1) w)) })
  let m := m.modifyElement i (fun e =>
    { e with nodes := e.nodes.set 3 (uadd x (umul (uadd y 1) w)) })
  -- Fill reverse connectivity arrays (node --> element)
  forLoop (Mesh.connectBody i) m 4

/-- The function `Mesh::initialiseElements`; `sqrtThree` is the value of `sqrt(3.0)`. -/
def Mesh.initialiseElements [Field K] (sqrtThree : K) (m : Mesh K) : Mesh K :=
  let invSqrtThree := 1 / sqrtThree
  forLoop (Mesh.initialiseElementsBody invSqrtThree) m m.nElements

/-! ## The constructor -/

/-- The constructor `Mesh::Mesh(width_, height_, isPeriodic_)`; `sqrtThree` is the value of
`sqrt(3.0)` used for the Gauss points. -/
def Mesh.construct [Field K] (sqrtThree : K) (width_ height_ : Nat) (isPeriodic_ : Bool) : Mesh K :=
  let nElements := umul width_ height_
  let nNodes := umul (uadd 1 width_) (uadd 1 height_)
  let m : Mesh K :=
    { width := width_, height := height_, nElements := nElements, nNodes := nNodes,
      isPeriodic := isPeriodic_,
      -- Resize element and node data structures.
      elements := List.replicate nElements Element.zero,
      nodes := List.replicate nNodes Node.zero,
      -- Resize 2D to 1D mapping vector.
      xyToIndex := [] }
  let m := { m with xyToIndex := List.replicate (uadd m.width 1) [] }
  let m := forLoop (fun i (m : Mesh K) =>
    { m with xyToIndex := m.xyToIndex.set i (List.replicate (uadd m.height 1) 0) })
    m (uadd m.width 1)
  -- Calculate node nearest neighbours.
  let m := m.initialiseNodes
  -- Initialise elements (and node to element connectivity).
  m.initialiseElements sqrtThree

/-! ## Spatial queries: `Mesh::getElement` and `Mesh::getClosestNode`

Coordinates are exact elements of an ordered field with a floor function. -/

/-- The initialisation `unsigned int e = std::floor(r)`: the conversion of the floored
value to `unsigned int`, `none` when the value is negative or does not fit (the conversion
is then undefined). -/
def floorToUnsigned [LinearOrderedField K] [FloorRing K] (r : K) : Option Nat :=
  if 0 ≤ Int.floor r ∧ Int.floor r < 4294967296 then some (Int.floor r).toNat else none

/-- The function `Mesh::getElement(double x, double y)`. -/
def Mesh.getElement [LinearOrderedField K] [FloorRing K] (m : Mesh K) (x y : K) :
    Option Nat :=
  -- Work out x and y element indices (cells are unit width).
  match floorToUnsigned x, floorToUnsigned y with
  | some elementX, some elementY =>
    -- Return global element index.
    some (uadd (umul elementY m.width) elementX)
  | _, _ => none

/-- The function `Mesh::getElement(const Coord& point)`. -/
def Mesh.getElementPoint [LinearOrderedField K] [FloorRing K] (m : Mesh K)
    (point : Coord K) : Option Nat :=
  match floorToUnsigned point.x, floorToUnsigned point.y with
  | some elementX, some elementY => some (uadd (umul elementY m.width) elementX)
  | _, _ => none

/-- The function `Mesh::getClosestNode(double x, double y)`. -/
def Mesh.getClosestNode [LinearOrderedField K] [FloorRing K] (m : Mesh K) (x y : K) :
    Option Nat :=
  -- Get element index.
  match m.getElement x y with
  | none => none
  | some element =>
    -- Work out x and y position within the element (remainder).
    let dx := x - (Int.floor x : K)
    let dy := y - (Int.floor y : K)
    -- Point lies in left half.
    if dx < 0.5 then
      -- Lower left quadrant, else upper left quadrant.
      if dy < 0.5 then m.cornerNode element 0 else m.cornerNode element 3
    -- Point lies in right half.
    else
      -- Lower right quadrant, else upper right quadrant.
      if dy < 0.5 then m.cornerNode element 1 else m.cornerNode element 2

/-- The function `Mesh::getClosestNode(const Coord& point)`. -/
def Mesh.getClosestNodePoint [LinearOrderedField K] [FloorRing K] (m : Mesh K)
    (point : Coord K) : Option Nat :=
  match m.getElementPoint point with
  | none => none
  | some element =>
    let dx := point.x - (Int.floor point.x : K)
    let dy := point.y - (Int.floor point.y : K)
    if dx < 0.5 then
      if dy < 0.5 then m.cornerNode element 0 else m.cornerNode element 3
    else
      if dy < 0.5 then m.cornerNode element 1 else m.cornerNode element 2

/-! ## Auxiliary definitions

Closed forms of what the loops do to single records, used to state the lemmas below. -/

/-- What `initialiseNeighbours` does to the `neighbours` array of the node it is called
for. -/
def neighbourUpdate (width height nNodes : Nat) (isPeriodic : Bool) (x y : Nat)
    (nb : List Nat) : List Nat :=
  let w := uadd width 1
  let nb := nb.set 0 (uadd (uadd (usub x 1) w % w) (umul y w))
  let nb := nb.set 1 (uadd (uadd (uadd x 1) w % w) (umul y w))
  let nb := nb.set 2 (uadd x (umul w (uadd (usub y 1) w % w)))
  let nb := nb.set 3 (uadd x (umul w (uadd (uadd y 1) w % w)))
  if isPeriodic = false then
    let nb :=
      if x = 0 then nb.set 0 nNodes
      else if x = width then nb.set 1 nNodes
      else nb
    if y = 0 then nb.set 2 nNodes
    else if y = height then nb.set 3 nNodes
    else nb
  else nb

/-- The node record `initialiseNodes` leaves at index `i`, given the record `nd` found
there. -/
def nodeStep [Field K] (width height nNodes : Nat) (isPeriodic : Bool) (i : Nat)
    (nd : Node K) : Node K :=
  let x := i % uadd width 1
  let y := i / uadd width 1
  { coord := ⟨(x : K), (y : K)⟩,
    neighbours := neighbourUpdate width height nNodes isPeriodic x y nd.neighbours,
    elements := nd.elements,
    nElements := 0,
    isDomain := decide (x = 0 ∨ x = width ∨ y = 0 ∨ y = height) }

/-- The mesh as the constructor leaves it after `initialiseNodes()`, before
`initialiseElements()`. -/
def Mesh.afterNodes [Field K] (width_ height_ : Nat) (isPeriodic_ : Bool) : Mesh K :=
  forLoop Mesh.initialiseNodesBody
    (forLoop (fun i (m : Mesh K) =>
      { m with xyToIndex := m.xyToIndex.set i (List.replicate (uadd m.height 1) 0) })
      { width := width_, height := height_, nElements := umul width_ height_,
        nNodes := umul (uadd 1 width_) (uadd 1 height_), isPeriodic := isPeriodic_,
        elements := List.replicate (umul width_ height_) Element.zero,
        nodes := List.replicate (umul (uadd 1 width_) (uadd 1 height_)) Node.zero,
        xyToIndex := List.replicate (uadd width_ 1) [] }
      (uadd width_ 1))
    (umul (uadd 1 width_) (uadd 1 height_))

/-- The members of a node that `initialiseElements` never writes. -/
def Node.geometry (nd : Node K) : Coord K × List Nat × Bool :=
  (nd.coord, nd.neighbours, nd.isDomain)

/-- The corner node indices `initialiseElements` stores for element `i`. -/
def corners (width i : Nat) : List Nat :=
  let w := uadd width 1
  let x := i % width
  let y := i / width
  [uadd x (umul y w), uadd (uadd x 1) (umul y w), uadd (uadd x 1) (umul (uadd y 1) w),
    uadd x (umul (uadd y 1) w)]

/-- One iteration of the Gauss point loop on the `gaussPoints` array of an element with
centre `c`. -/
def gaussStep [Field K] (inv : K) (c : Coord K) (j : Nat) (gp : List (Coord K)) :
    List (Coord K) :=
  List.modify
    (fun _ => ⟨c.x + inv * 0.5 * (nodeCoord j).x, c.y + inv * 0.5 * (nodeCoord j).y⟩) j gp

/-- The element record `initialiseElements` leaves at index `i`, given the record `e` found
there. -/
def elementStep [Field K] (inv : K) (width i : Nat) (e : Element K) : Element K :=
  let c : Coord K := ⟨((i % width : Nat) : K) + 0.5, ((i / width : Nat) : K) + 0.5⟩
  { coord := c,
    gaussPoints := gaussStep inv c 3 (gaussStep inv c 2 (gaussStep inv c 1
      (gaussStep inv c 0 e.gaussPoints))),
    nodes := (((e.nodes.set 0 (uadd (i % width) (umul (i / width) (uadd width 1)))).set 1
      (uadd (uadd (i % width) 1) (umul (i / width) (uadd width 1)))).set 2
      (uadd (uadd (i % width) 1) (umul (uadd (i / width) 1) (uadd width 1)))).set 3
      (uadd (i % width) (umul (uadd (i / width) 1) (uadd width 1))) }

/-- The statement pair `nodes[c].elements[nodes[c].nElements] = i; nodes[c].nElements++`
on the node vector. -/
def connect (i c : Nat) (ns : List (Node K)) : List (Node K) :=
  ns.modify (fun nd =>
    { nd with elements := nd.elements.set nd.nElements i, nElements := uadd nd.nElements 1 }) c

/-- The reverse connectivity loop of element `i` on the node vector, for the corner list
`cs`. -/
def connectAll (i : Nat) (cs : List Nat) (ns : List (Node K)) : List (Node K) :=
  connect i (cs.getD 3 0) (connect i (cs.getD 2 0) (connect i (cs.getD 1 0)
    (connect i (cs.getD 0 0) ns)))

/-- The element writes of one iteration of `initialiseElements`, before its reverse
connectivity loop. -/
def Mesh.elementWrites [Field K] (invSqrtThree : K) (i : Nat) (m : Mesh K) : Mesh K :=
  let w := uadd m.width 1
  let x := i % m.width
  let y := i / m.width
  let m := m.modifyElement i (fun e => { e with coord := { e.coord with x := (x : K) + 0.5 } })
  let m := m.modifyElement i (fun e => { e with coord := { e.coord with y := (y : K) + 0.5 } })
  let m := forLoop (Mesh.gaussBody invSqrtThree i) m 4
  let m := m.modifyElement i (fun e => { e with nodes := e.nodes.set 0 (uadd x (umul y w)) })
  let m := m.modifyElement i (fun e =>
    { e with nodes := e.nodes.set 1 (uadd (uadd x 1) (umul y w)) })
  let m := m.modifyElement i (fun e =>
    { e with nodes := e.nodes.set 2 (uadd (uadd x 1) (umul (uadd y 1) w)) })
  m.modifyElement i (fun e =>
    { e with nodes := e.nodes.set 3 (uadd x (umul (uadd y 1) w)) })

/-- The node vector after the first `k` iterations of `initialiseElements`, started on
`ns`. -/
def connectLoop (width : Nat) (ns : List (Node K)) : Nat → List (Node K)
  | 0 => ns
  | k + 1 => connectAll k (corners width k) (connectLoop width ns k)

/-- The list `corners width e` with every sum and product taken in the natural numbers,
without wraparound: `[x + y*w, x+1 + y*w, x+1 + (y+1)*w, x + (y+1)*w]` with
`(x, y) = (e mod width, e div width)` and `w = width + 1`. -/
def cornerIndices (width e : Nat) : List Nat :=
  [e % width + e / width * (width + 1), e % width + 1 + e / width * (width + 1),
    e % width + 1 + (e / width + 1) * (width + 1), e % width + (e / width + 1) * (width + 1)]

/-- Whether node `n` is a corner of element `e`. -/
def touches (width e n : Nat) : Bool := decide (n ∈ cornerIndices width e)

/-- The elements below `k` that have node `n` as a corner, in increasing order. -/
def touching (width n k : Nat) : List Nat := (List.range k).filter (fun e => touches width e n)

/-- The statement pair `elements[nElements] = i; nElements++` on one node record. -/
def attach (i : Nat) (nd : Node K) : Node K :=
  { nd with elements := nd.elements.set nd.nElements i, nElements := uadd nd.nElements 1 }

/-- The mesh just before iteration `j` of the reverse connectivity loop of element `e`:
the state after `e` full iterations of `initialiseElements`, the element writes of
iteration `e` and `j` iterations of its reverse connectivity loop. -/
def Mesh.beforeConnect [Field K] (sqrtThree : K) (width_ height_ : Nat)
    (isPeriodic_ : Bool) (e j : Nat) : Mesh K :=
  forLoop (Mesh.connectBody e)
    (Mesh.elementWrites (1 / sqrtThree) e
      (forLoop (Mesh.initialiseElementsBody (1 / sqrtThree))
        (Mesh.afterNodes width_ height_ isPeriodic_) e)) j

/-- The index `nodes[node].nElements` through which iteration `j` of the reverse
connectivity loop of element `i` writes `nodes[node].elements`, read in the state `m`;
`none` when `node` is out of range. -/
def Mesh.writeIndex (m : Mesh K) (i j : Nat) : Option Nat :=
  (m.nodes[m.elementNode i j]?).map (fun nd => nd.nElements)

/-! ## Machine arithmetic without overflow -/

theorem uadd_of_lt {a b : Nat} (h : a + b < 4294967296) : uadd a b = a + b := by
  unfold uadd uintSize; exact Nat.mod_eq_of_lt h

theorem umul_of_lt {a b : Nat} (h : a * b < 4294967296) : umul a b = a * b := by
  unfold umul uintSize; exact Nat.mod_eq_of_lt h

theorem usub_of_le {a b : Nat} (hb : b ≤ a) (ha : a < 4294967296) : usub a b = a - b := by
  unfold usub uintSize
  have : a + 4294967296 - b = (a - b) + 4294967296 := by omega
  rw [this, Nat.add_mod_right]
  exact Nat.mod_eq_of_lt (by omega)

theorem usub_zero_one : usub 0 1 = 4294967295 := by
  unfold usub uintSize; rfl

/-! ## Frame lemmas for the elementary updates -/

section frame

variable (m : Mesh K)

@[simp] theorem modifyNode_nodes (i : Nat) (f : Node K → Node K) :
    (m.modifyNode i f).nodes = m.nodes.modify f i := rfl
@[simp] theorem modifyNode_elements (i : Nat) (f : Node K → Node K) :
    (m.modifyNode i f).elements = m.elements := rfl
@[simp] theorem modifyNode_width (i : Nat) (f : Node K → Node K) :
    (m.modifyNode i f).width = m.width := rfl
@[simp] theorem modifyNode_height (i : Nat) (f : Node K → Node K) :
    (m.modifyNode i f).height = m.height := rfl
@[simp] theorem modifyNode_nNodes (i : Nat) (f : Node K → Node K) :
    (m.modifyNode i f).nNodes = m.nNodes := rfl
@[simp] theorem modifyNode_nElements (i : Nat) (f : Node K → Node K) :
    (m.modifyNode i f).nElements = m.nElements := rfl
@[simp] theorem modifyNode_isPeriodic (i : Nat) (f : Node K → Node K) :
    (m.modifyNode i f).isPeriodic = m.isPeriodic := rfl
@[simp] theorem modifyNode_xyToIndex (i : Nat) (f : Node K → Node K) :
    (m.modifyNode i f).xyToIndex = m.xyToIndex := rfl

@[simp] theorem modifyElement_nodes (i : Nat) (f : Element K → Element K) :
    (m.modifyElement i f).nodes = m.nodes := rfl
@[simp] theorem modifyElement_elements (i : Nat) (f : Element K → Element K) :
    (m.modifyElement i f).elements = m.elements.modify f i := rfl
@[simp] theorem modifyElement_width (i : Nat) (f : Element K → Element K) :
    (m.modifyElement i f).width = m.width := rfl
@[simp] theorem modifyElement_height (i : Nat) (f : Element K → Element K) :
    (m.modifyElement i f).height = m.height := rfl
@[simp] theorem modifyElement_nNodes (i : Nat) (f : Element K → Element K) :
    (m.modifyElement i f).nNodes = m.nNodes := rfl
@[simp] theorem modifyElement_nElements (i : Nat) (f : Element K → Element K) :
    (m.modifyElement i f).nElements = m.nElements := rfl
@[simp] theorem modifyElement_isPeriodic (i : Nat) (f : Element K → Element K) :
    (m.modifyElement i f).isPeriodic = m.isPeriodic := rfl
@[simp] theorem modifyElement_xyToIndex (i : Nat) (f : Element K → Element K) :
    (m.modifyElement i f).xyToIndex = m.xyToIndex := rfl

@[simp] theorem setXyToIndex_nodes (x y i : Nat) : (m.setXyToIndex x y i).nodes = m.nodes := rfl
@[simp] theorem setXyToIndex_elements (x y i : Nat) :
    (m.setXyToIndex x y i).elements = m.elements := rfl
@[simp] theorem setXyToIndex_width (x y i : Nat) : (m.setXyToIndex x y i).width = m.width := rfl
@[simp] theorem setXyToIndex_height (x y i : Nat) :
    (m.setXyToIndex x y i).height = m.height := rfl
@[simp] theorem setXyToIndex_nNodes (x y i : Nat) :
    (m.setXyToIndex x y i).nNodes = m.nNodes := rfl
@[simp] theorem setXyToIndex_nElements (x y i : Nat) :
    (m.setXyToIndex x y i).nElements = m.nElements := rfl
@[simp] theorem setXyToIndex_isPeriodic (x y i : Nat) :
    (m.setXyToIndex x y i).isPeriodic = m.isPeriodic := rfl

end frame

theorem initialiseNeighbours_eq (m : Mesh K) (node x y : Nat) :
    m.initialiseNeighbours node x y =
      m.modifyNode node (fun nd =>
        let nb := neighbourUpdate m.width m.height m.nNodes m.isPeriodic x y nd.neighbours
        { nd with neighbours := nb }) := by
  unfold Mesh.initialiseNeighbours neighbourUpdate Mesh.setNeighbour Mesh.modifyNode
  simp only [List.modify_modify_eq]
  split_ifs <;> simp [List.modify_modify_eq, Function.comp_def]

theorem initialiseNodesBody_nodes [Field K] (i : Nat) (m : Mesh K) :
    (Mesh.initialiseNodesBody i m).nodes =
      m.nodes.modify (nodeStep m.width m.height m.nNodes m.isPeriodic i) i := by
  unfold Mesh.initialiseNodesBody
  simp only [initialiseNeighbours_eq]
  split_ifs with h <;> simp only [modifyNode_width, modifyNode_height] at h <;>
    simp only [modifyNode_nodes, setXyToIndex_nodes, modifyNode_width, modifyNode_height,
      modifyNode_nNodes, modifyNode_isPeriodic, setXyToIndex_width, setXyToIndex_height,
      setXyToIndex_nNodes, setXyToIndex_isPeriodic, List.modify_modify_eq,
      Function.comp_def] <;>
    unfold nodeStep <;> simp [h]

theorem initialiseNodesBody_frame [Field K] (i : Nat) (m : Mesh K) :
    (Mesh.initialiseNodesBody i m).width = m.width ∧
    (Mesh.initialiseNodesBody i m).height = m.height ∧
    (Mesh.initialiseNodesBody i m).nNodes = m.nNodes ∧
    (Mesh.initialiseNodesBody i m).nElements = m.nElements ∧
    (Mesh.initialiseNodesBody i m).isPeriodic = m.isPeriodic ∧
    (Mesh.initialiseNodesBody i m).elements = m.elements := by
  unfold Mesh.initialiseNodesBody
  simp only [initialiseNeighbours_eq]
  split_ifs <;> simp

theorem initialiseNodes_loop_frame [Field K] (m : Mesh K) (k : Nat) :
    (forLoop Mesh.initialiseNodesBody m k).width = m.width ∧
    (forLoop Mesh.initialiseNodesBody m k).height = m.height ∧
    (forLoop Mesh.initialiseNodesBody m k).nNodes = m.nNodes ∧
    (forLoop Mesh.initialiseNodesBody m k).nElements = m.nElements ∧
    (forLoop Mesh.initialiseNodesBody m k).isPeriodic = m.isPeriodic ∧
    (forLoop Mesh.initialiseNodesBody m k).elements = m.elements := by
  induction k with
  | zero => simp [forLoop]
  | succ k ih =>
    obtain ⟨h1, h2, h3, h4, h5, h6⟩ := ih
    obtain ⟨g1, g2, g3, g4, g5, g6⟩ :=
      initialiseNodesBody_frame k (forLoop Mesh.initialiseNodesBody m k)
    simp only [forLoop]
    exact ⟨g1.trans h1, g2.trans h2, g3.trans h3, g4.trans h4, g5.trans h5, g6.trans h6⟩

/-- After `k` iterations of the loop of `initialiseNodes`, the first `k` nodes hold their
final records and the others are untouched. -/
theorem initialiseNodes_loop_nodes [Field K] (m : Mesh K) (k j : Nat) :
    (forLoop Mesh.initialiseNodesBody m k).nodes[j]? =
      if j < k then
        (m.nodes[j]?).map (nodeStep m.width m.height m.nNodes m.isPeriodic j)
      else m.nodes[j]? := by
  induction k with
  | zero => simp [forLoop]
  | succ k ih =>
    obtain ⟨h1, h2, h3, -, h5, -⟩ := initialiseNodes_loop_frame m k
    simp only [forLoop, initialiseNodesBody_nodes, List.getElem?_modify, ih, h1, h2, h3, h5]
    by_cases hjk : j < k
    · have : k ≠ j := by omega
      have h' : j < k + 1 := by omega
      simp [hjk, this, h']
    · by_cases hj : k = j
      · subst hj
        cases m.nodes[k]? <;> simp
      · have h' : ¬ j < k + 1 := by omega
        cases m.nodes[j]? <;> simp [hjk, hj, h']

/-! ## What `initialiseElements` leaves unchanged -/

theorem map_modify_of_eq {α β : Type} (g : α → β) (f : α → α) (h : ∀ a, g (f a) = g a)
    (l : List α) (n : Nat) : (l.modify f n).map g = l.map g := by
  apply List.ext_getElem?
  intro j
  simp only [List.getElem?_map, List.getElem?_modify]
  cases l[j]? with
  | none => rfl
  | some a => by_cases hj : n = j <;> simp [hj, h]

@[simp] theorem gaussBody_nodes [Field K] (inv : K) (i j : Nat) (m : Mesh K) :
    (Mesh.gaussBody inv i j m).nodes = m.nodes := rfl

theorem gaussBody_frame [Field K] (inv : K) (i j : Nat) (m : Mesh K) :
    (Mesh.gaussBody inv i j m).width = m.width ∧
    (Mesh.gaussBody inv i j m).height = m.height ∧
    (Mesh.gaussBody inv i j m).nNodes = m.nNodes ∧
    (Mesh.gaussBody inv i j m).nElements = m.nElements ∧
    (Mesh.gaussBody inv i j m).isPeriodic = m.isPeriodic := ⟨rfl, rfl, rfl, rfl, rfl⟩

theorem forLoop_preserves {σ β : Type} (body : Nat → σ → σ) (proj : σ → β)
    (h : ∀ i s, proj (body i s) = proj s) (s : σ) (k : Nat) :
    proj (forLoop body s k) = proj s := by
  induction k with
  | zero => rfl
  | succ k ih => simp only [forLoop, h, ih]

theorem connectBody_nodes (i j : Nat) (m : Mesh K) :
    (Mesh.connectBody i j m).nodes =
      m.nodes.modify (fun nd =>
        { nd with elements := nd.elements.set nd.nElements i, nElements := uadd nd.nElements 1 })
        (m.elementNode i j) := by
  unfold Mesh.connectBody
  simp [List.modify_modify_eq, Function.comp_def]

@[simp] theorem connectBody_elements (i j : Nat) (m : Mesh K) :
    (Mesh.connectBody i j m).elements = m.elements := rfl

theorem connectBody_frame (i j : Nat) (m : Mesh K) :
    (Mesh.connectBody i j m).width = m.width ∧
    (Mesh.connectBody i j m).height = m.height ∧
    (Mesh.connectBody i j m).nNodes = m.nNodes ∧
    (Mesh.connectBody i j m).nElements = m.nElements ∧
    (Mesh.connectBody i j m).isPeriodic = m.isPeriodic := ⟨rfl, rfl, rfl, rfl, rfl⟩

theorem connectBody_nodes_map {β : Type} (g : Node K → β)
    (hg : ∀ (nd : Node K) es k, g { nd with elements := es, nElements := k } = g nd)
    (i j : Nat) (m : Mesh K) :
    (Mesh.connectBody i j m).nodes.map g = m.nodes.map g := by
  rw [connectBody_nodes]
  exact map_modify_of_eq g _ (fun a => hg a _ _) _ _

theorem initialiseElementsBody_nodes_map [Field K] {β : Type} (g : Node K → β)
    (hg : ∀ (nd : Node K) es k, g { nd with elements := es, nElements := k } = g nd)
    (inv : K) (i : Nat) (m : Mesh K) :
    (Mesh.initialiseElementsBody inv i m).nodes.map g = m.nodes.map g := by
  unfold Mesh.initialiseElementsBody
  simp only [forLoop, connectBody_nodes_map g hg, modifyElement_nodes, gaussBody_nodes]

theorem initialiseElementsBody_frame [Field K] (inv : K) (i : Nat) (m : Mesh K) :
    (Mesh.initialiseElementsBody inv i m).width = m.width ∧
    (Mesh.initialiseElementsBody inv i m).height = m.height ∧
    (Mesh.initialiseElementsBody inv i m).nNodes = m.nNodes ∧
    (Mesh.initialiseElementsBody inv i m).nElements = m.nElements ∧
    (Mesh.initialiseElementsBody inv i m).isPeriodic = m.isPeriodic := by
  unfold Mesh.initialiseElementsBody
  refine ⟨?_, ?_, ?_, ?_, ?_⟩
  · rw [forLoop_preserves _ Mesh.width (fun j s => (connectBody_frame i j s).1)]
    simp only [modifyElement_width]
    rw [forLoop_preserves _ Mesh.width (fun j s => (gaussBody_frame inv i j s).1)]
    rfl
  · rw [forLoop_preserves _ Mesh.height (fun j s => (connectBody_frame i j s).2.1)]
    simp only [modifyElement_height]
    rw [forLoop_preserves _ Mesh.height (fun j s => (gaussBody_frame inv i j s).2.1)]
    rfl
  · rw [forLoop_preserves _ Mesh.nNodes (fun j s => (connectBody_frame i j s).2.2.1)]
    simp only [modifyElement_nNodes]
    rw [forLoop_preserves _ Mesh.nNodes (fun j s => (gaussBody_frame inv i j s).2.2.1)]
    rfl
  · rw [forLoop_preserves _ Mesh.nElements (fun j s => (connectBody_frame i j s).2.2.2.1)]
    simp only [modifyElement_nElements]
    rw [forLoop_preserves _ Mesh.nElements (fun j s => (gaussBody_frame inv i j s).2.2.2.1)]
    rfl
  · rw [forLoop_preserves _ Mesh.isPeriodic (fun j s => (connectBody_frame i j s).2.2.2.2)]
    simp only [modifyElement_isPeriodic]
    rw [forLoop_preserves _ Mesh.isPeriodic (fun j s => (gaussBody_frame inv i j s).2.2.2.2)]
    rfl

theorem initialiseElements_loop_frame [Field K] (inv : K) (m : Mesh K) (k : Nat) :
    (forLoop (Mesh.initialiseElementsBody inv) m k).width = m.width ∧
    (forLoop (Mesh.initialiseElementsBody inv) m k).height = m.height ∧
    (forLoop (Mesh.initialiseElementsBody inv) m k).nNodes = m.nNodes ∧
    (forLoop (Mesh.initialiseElementsBody inv) m k).nElements = m.nElements ∧
    (forLoop (Mesh.initialiseElementsBody inv) m k).isPeriodic = m.isPeriodic := by
  induction k with
  | zero => simp [forLoop]
  | succ k ih =>
    obtain ⟨h1, h2, h3, h4, h5⟩ := ih
    obtain ⟨g1, g2, g3, g4, g5⟩ :=
      initialiseElementsBody_frame inv k (forLoop (Mesh.initialiseElementsBody inv) m k)
    simp only [forLoop]
    exact ⟨g1.trans h1, g2.trans h2, g3.trans h3, g4.trans h4, g5.trans h5⟩

theorem initialiseElements_loop_nodes_map [Field K] {β : Type} (g : Node K → β)
    (hg : ∀ (nd : Node K) es k, g { nd with elements := es, nElements := k } = g nd)
    (inv : K) (m : Mesh K) (k : Nat) :
    (forLoop (Mesh.initialiseElementsBody inv) m k).nodes.map g = m.nodes.map g := by
  induction k with
  | zero => simp [forLoop]
  | succ k ih => simp only [forLoop, initialiseElementsBody_nodes_map g hg, ih]

/-! ## The mesh before the element loop -/

theorem xyLoop_frame (m : Mesh K) (k : Nat) :
    (forLoop (fun i (m : Mesh K) =>
      { m with xyToIndex := m.xyToIndex.set i (List.replicate (uadd m.height 1) 0) }) m k).width
        = m.width ∧
    (forLoop (fun i (m : Mesh K) =>
      { m with xyToIndex := m.xyToIndex.set i (List.replicate (uadd m.height 1) 0) }) m k).height
        = m.height ∧
    (forLoop (fun i (m : Mesh K) =>
      { m with xyToIndex := m.xyToIndex.set i (List.replicate (uadd m.height 1) 0) }) m k).nNodes
        = m.nNodes ∧
    (forLoop (fun i (m : Mesh K) =>
      { m with xyToIndex := m.xyToIndex.set i (List.replicate (uadd m.height 1) 0) }) m
        k).nElements = m.nElements ∧
    (forLoop (fun i (m : Mesh K) =>
      { m with xyToIndex := m.xyToIndex.set i (List.replicate (uadd m.height 1) 0) }) m
        k).isPeriodic = m.isPeriodic ∧
    (forLoop (fun i (m : Mesh K) =>
      { m with xyToIndex := m.xyToIndex.set i (List.replicate (uadd m.height 1) 0) }) m
        k).elements = m.elements ∧
    (forLoop (fun i (m : Mesh K) =>
      { m with xyToIndex := m.xyToIndex.set i (List.replicate (uadd m.height 1) 0) }) m k).nodes
        = m.nodes := by
  induction k with
  | zero => simp [forLoop]
  | succ k ih => simpa only [forLoop] using ih

theorem construct_eq [Field K] (sqrtThree : K) (width_ height_ : Nat) (isPeriodic_ : Bool) :
    Mesh.construct sqrtThree width_ height_ isPeriodic_ =
      forLoop (Mesh.initialiseElementsBody (1 / sqrtThree))
        (Mesh.afterNodes width_ height_ isPeriodic_) (umul width_ height_) := by
  have h := initialiseNodes_loop_frame (K := K)
  have h' := xyLoop_frame (K := K)
  unfold Mesh.construct Mesh.afterNodes Mesh.initialiseElements Mesh.initialiseNodes
  simp only [h, h']

theorem afterNodes_frame [Field K] (width_ height_ : Nat) (isPeriodic_ : Bool) :
    (Mesh.afterNodes (K := K) width_ height_ isPeriodic_).width = width_ ∧
    (Mesh.afterNodes (K := K) width_ height_ isPeriodic_).height = height_ ∧
    (Mesh.afterNodes (K := K) width_ height_ isPeriodic_).nNodes
      = umul (uadd 1 width_) (uadd 1 height_) ∧
    (Mesh.afterNodes (K := K) width_ height_ isPeriodic_).nElements = umul width_ height_ ∧
    (Mesh.afterNodes (K := K) width_ height_ isPeriodic_).isPeriodic = isPeriodic_ ∧
    (Mesh.afterNodes (K := K) width_ height_ isPeriodic_).elements
      = List.replicate (umul width_ height_) Element.zero := by
  have h := initialiseNodes_loop_frame (K := K)
  have h' := xyLoop_frame (K := K)
  unfold Mesh.afterNodes
  simp only [h, h', and_self]

theorem afterNodes_nodes [Field K] (width_ height_ : Nat) (isPeriodic_ : Bool) (j : Nat)
    (hj : j < umul (uadd 1 width_) (uadd 1 height_)) :
    (Mesh.afterNodes (K := K) width_ height_ isPeriodic_).nodes[j]? =
      some (nodeStep width_ height_ (umul (uadd 1 width_) (uadd 1 height_)) isPeriodic_ j
        Node.zero) := by
  have h' := xyLoop_frame (K := K)
  unfold Mesh.afterNodes
  rw [initialiseNodes_loop_nodes]
  simp only [h', hj, if_true, List.getElem?_replicate, Option.map_some']

theorem afterNodes_nodes_length [Field K] (width_ height_ : Nat) (isPeriodic_ : Bool) :
    (Mesh.afterNodes (K := K) width_ height_ isPeriodic_).nodes.length =
      umul (uadd 1 width_) (uadd 1 height_) := by
  by_contra hne
  rcases Nat.lt_or_gt_of_ne hne with hlt | hgt
  · have h1 := afterNodes_nodes (K := K) width_ height_ isPeriodic_ _ hlt
    rw [List.getElem?_eq_none (le_refl _)] at h1
    exact Option.noConfusion h1
  · have h' := xyLoop_frame (K := K)
    have h2 := initialiseNodes_loop_nodes (K := K)
    have h3 : (Mesh.afterNodes (K := K) width_ height_ isPeriodic_).nodes[
        umul (uadd 1 width_) (uadd 1 height_)]? = none := by
      unfold Mesh.afterNodes
      rw [h2]
      simp [h']
    rw [List.getElem?_eq_none_iff] at h3
    omega

theorem construct_frame [Field K] (sqrtThree : K) (width_ height_ : Nat)
    (isPeriodic_ : Bool) :
    (Mesh.construct sqrtThree width_ height_ isPeriodic_).width = width_ ∧
    (Mesh.construct sqrtThree width_ height_ isPeriodic_).height = height_ ∧
    (Mesh.construct sqrtThree width_ height_ isPeriodic_).nNodes
      = umul (uadd 1 width_) (uadd 1 height_) ∧
    (Mesh.construct sqrtThree width_ height_ isPeriodic_).nElements = umul width_ height_ ∧
    (Mesh.construct sqrtThree width_ height_ isPeriodic_).isPeriodic = isPeriodic_ := by
  obtain ⟨h1, h2, h3, h4, h5, -⟩ := afterNodes_frame (K := K) width_ height_ isPeriodic_
  obtain ⟨g1, g2, g3, g4, g5⟩ := initialiseElements_loop_frame (1 / sqrtThree)
    (Mesh.afterNodes width_ height_ isPeriodic_) (umul width_ height_)
  rw [construct_eq]
  exact ⟨g1.trans h1, g2.trans h2, g3.trans h3, g4.trans h4, g5.trans h5⟩

theorem construct_nodes_length [Field K] (sqrtThree : K) (width_ height_ : Nat)
    (isPeriodic_ : Bool) :
    (Mesh.construct sqrtThree width_ height_ isPeriodic_).nodes.length =
      umul (uadd 1 width_) (uadd 1 height_) := by
  have h := initialiseElements_loop_nodes_map (fun _ : Node K => ()) (fun _ _ _ => rfl)
    (1 / sqrtThree) (Mesh.afterNodes width_ height_ isPeriodic_) (umul width_ height_)
  have h2 := congrArg List.length h
  simp only [List.length_map] at h2
  rw [construct_eq, h2, afterNodes_nodes_length]

/-- Coordinates, neighbours and boundary flag of node `j` of the constructed mesh: those
`initialiseNodes` computed. -/
theorem construct_node_geometry [Field K] (sqrtThree : K) (width_ height_ : Nat)
    (isPeriodic_ : Bool) (j : Nat) (hj : j < umul (uadd 1 width_) (uadd 1 height_)) :
    ∃ nd : Node K, (Mesh.construct sqrtThree width_ height_ isPeriodic_).nodes[j]? = some nd ∧
      nd.coord = ⟨((j % uadd width_ 1 : Nat) : K), ((j / uadd width_ 1 : Nat) : K)⟩ ∧
      nd.neighbours = neighbourUpdate width_ height_ (umul (uadd 1 width_) (uadd 1 height_))
        isPeriodic_ (j % uadd width_ 1) (j / uadd width_ 1) [0, 0, 0, 0] ∧
      nd.isDomain = decide (j % uadd width_ 1 = 0 ∨ j % uadd width_ 1 = width_ ∨
        j / uadd width_ 1 = 0 ∨ j / uadd width_ 1 = height_) := by
  have h := initialiseElements_loop_nodes_map (Node.geometry (K := K)) (fun _ _ _ => rfl)
    (1 / sqrtThree) (Mesh.afterNodes width_ height_ isPeriodic_) (umul width_ height_)
  have h2 := congrArg (fun l => l[j]?) h
  simp only [List.getElem?_map, afterNodes_nodes width_ height_ isPeriodic_ j hj,
    Option.map_some'] at h2
  rw [construct_eq]
  cases hnd : (forLoop (Mesh.initialiseElementsBody (1 / sqrtThree))
      (Mesh.afterNodes width_ height_ isPeriodic_) (umul width_ height_)).nodes[j]? with
  | none => rw [hnd] at h2; exact Option.noConfusion h2
  | some nd =>
    rw [hnd] at h2
    simp only [Option.map_some', Option.some.injEq, Node.geometry, nodeStep, Node.zero,
      Prod.mk.injEq] at h2
    exact ⟨nd, rfl, h2.1, h2.2.1, h2.2.2⟩

/-- The `neighbours` array `initialiseNeighbours` produces from a fresh node, slot by
slot. -/
theorem neighbourUpdate_zero (width height nNodes : Nat) (isPeriodic : Bool) (x y : Nat) :
    neighbourUpdate width height nNodes isPeriodic x y [0, 0, 0, 0] =
      [if isPeriodic = false ∧ x = 0 then nNodes
        else uadd (uadd (usub x 1) (uadd width 1) % uadd width 1) (umul y (uadd width 1)),
       if isPeriodic = false ∧ x ≠ 0 ∧ x = width then nNodes
        else uadd (uadd (uadd x 1) (uadd width 1) % uadd width 1) (umul y (uadd width 1)),
       if isPeriodic = false ∧ y = 0 then nNodes
        else uadd x (umul (uadd width 1) (uadd (usub y 1) (uadd width 1) % uadd width 1)),
       if isPeriodic = false ∧ y ≠ 0 ∧ y = height then nNodes
        else uadd x (umul (uadd width 1) (uadd (uadd y 1) (uadd width 1) % uadd width 1))] := by
  dsimp only [neighbourUpdate]
  generalize uadd (uadd (usub x 1) (uadd width 1) % uadd width 1) (umul y (uadd width 1)) = a
  generalize uadd (uadd (uadd x 1) (uadd width 1) % uadd width 1) (umul y (uadd width 1)) = b
  generalize uadd x (umul (uadd width 1) (uadd (usub y 1) (uadd width 1) % uadd width 1)) = c
  generalize uadd x (umul (uadd width 1) (uadd (uadd y 1) (uadd width 1) % uadd width 1)) = d
  cases isPeriodic
  · simp only [true_and, if_true, List.set_cons_zero, List.set_cons_succ]
    split_ifs <;> simp_all
  · simp only [List.set_cons_zero, List.set_cons_succ, Bool.true_eq_false, if_false, false_and]

/-! ## Neighbour wiring -/

/-- The four neighbour slots of node `j` of the constructed mesh. -/
theorem construct_neighbour [Field K] (sqrtThree : K) (width_ height_ : Nat)
    (isPeriodic_ : Bool) (j : Nat) (hj : j < umul (uadd 1 width_) (uadd 1 height_)) :
    (Mesh.construct sqrtThree width_ height_ isPeriodic_).neighbour j 0 =
      some (if isPeriodic_ = false ∧ j % uadd width_ 1 = 0
        then umul (uadd 1 width_) (uadd 1 height_)
        else uadd (uadd (usub (j % uadd width_ 1) 1) (uadd width_ 1) % uadd width_ 1)
          (umul (j / uadd width_ 1) (uadd width_ 1))) ∧
    (Mesh.construct sqrtThree width_ height_ isPeriodic_).neighbour j 1 =
      some (if isPeriodic_ = false ∧ j % uadd width_ 1 ≠ 0 ∧ j % uadd width_ 1 = width_
        then umul (uadd 1 width_) (uadd 1 height_)
        else uadd (uadd (uadd (j % uadd width_ 1) 1) (uadd width_ 1) % uadd width_ 1)
          (umul (j / uadd width_ 1) (uadd width_ 1))) ∧
    (Mesh.construct sqrtThree width_ height_ isPeriodic_).neighbour j 2 =
      some (if isPeriodic_ = false ∧ j / uadd width_ 1 = 0
        then umul (uadd 1 width_) (uadd 1 height_)
        else uadd (j % uadd width_ 1) (umul (uadd width_ 1)
          (uadd (usub (j / uadd width_ 1) 1) (uadd width_ 1) % uadd width_ 1))) ∧
    (Mesh.construct sqrtThree width_ height_ isPeriodic_).neighbour j 3 =
      some (if isPeriodic_ = false ∧ j / uadd width_ 1 ≠ 0 ∧ j / uadd width_ 1 = height_
        then umul (uadd 1 width_) (uadd 1 height_)
        else uadd (j % uadd width_ 1) (umul (uadd width_ 1)
          (uadd (uadd (j / uadd width_ 1) 1) (uadd width_ 1) % uadd width_ 1))) := by
  obtain ⟨nd, h1, -, h2, -⟩ :=
    construct_node_geometry sqrtThree width_ height_ isPeriodic_ j hj
  rw [neighbourUpdate_zero] at h2
  unfold Mesh.neighbour
  rw [h1]
  simp only [Option.some_bind, h2]
  exact ⟨rfl, rfl, rfl, rfl⟩

/-- Without overflow of the node count, the wrapped sums of the constructor are the
mathematical ones. -/
theorem nowrap_facts {width height : Nat} (hh : 0 < height)
    (hn : (width + 1) * (height + 1) < 4294967296) :
    uadd width 1 = width + 1 ∧ uadd 1 width = width + 1 ∧ uadd 1 height = height + 1 ∧
    umul (uadd 1 width) (uadd 1 height) = (width + 1) * (height + 1) ∧
    2 * (width + 1) < 4294967296 := by
  have h2 : (width + 1) * 2 ≤ (width + 1) * (height + 1) := Nat.mul_le_mul_left _ (by omega)
  have h3 : (width + 1) * 1 ≤ (width + 1) * (height + 1) := Nat.mul_le_mul_left _ (by omega)
  have h4 : 1 * (height + 1) ≤ (width + 1) * (height + 1) := Nat.mul_le_mul_right _ (by omega)
  have e1 : uadd width 1 = width + 1 := uadd_of_lt (by omega)
  have e2 : uadd 1 width = width + 1 := by rw [uadd_of_lt (by omega)]; omega
  have e3 : uadd 1 height = height + 1 := by rw [uadd_of_lt (by omega)]; omega
  refine ⟨e1, e2, e3, ?_, by omega⟩
  rw [e2, e3]
  exact umul_of_lt hn

/-- C1 (code defect): in the periodic mesh of width 2 and height 1 (6 nodes), the down
neighbour of node 0 is 6, which is `nNodes`, the sentinel, and not a valid node index. -/
theorem periodic_down_neighbour_is_sentinel [Field K] (sqrtThree : K) :
    (Mesh.construct sqrtThree 2 1 true).nNodes = 6 ∧
    (Mesh.construct sqrtThree 2 1 true).neighbour 0 2 = some 6 := by
  obtain ⟨-, -, hn, -, -⟩ := construct_frame sqrtThree 2 1 true
  obtain ⟨-, -, h2, -⟩ := construct_neighbour sqrtThree 2 1 true 0 (by decide)
  rw [hn, h2]
  exact ⟨by decide, by decide⟩

/-- C2 (code defect): the vertical wraparound is taken modulo the number of node columns,
not of node rows.  In the periodic mesh of width 2 and height 1 (`w = 3`, `h = 2`) the down
neighbour of node 0, at grid `(0, 0)`, is 6 and not `0 + 3 * ((0 - 1 + 2) mod 2) = 3`; in the
non-periodic mesh of width 1 and height 3 (`w = 2`, `h = 4`) the down neighbour of node 6, at
grid `(0, 3)`, is 0 and not `0 + 2 * ((3 - 1 + 4) mod 4) = 4`. -/
theorem vertical_wraparound_uses_width [Field K] (sqrtThree : K) :
    ((Mesh.construct sqrtThree 2 1 true).neighbour 0 2 = some 6 ∧
      (6 : Int) ≠ 0 + 3 * ((0 - 1 + 2) % 2)) ∧
    ((Mesh.construct sqrtThree 1 3 false).neighbour 6 2 = some 0 ∧
      (Mesh.construct sqrtThree 1 3 false).nNodes = 8 ∧
      (0 : Int) ≠ 0 + 2 * ((3 - 1 + 4) % 4)) := by
  obtain ⟨-, -, hn, -, -⟩ := construct_frame sqrtThree 1 3 false
  obtain ⟨-, -, h2, -⟩ := construct_neighbour sqrtThree 2 1 true 0 (by decide)
  obtain ⟨-, -, h3, -⟩ := construct_neighbour sqrtThree 1 3 false 6 (by decide)
  rw [hn, h2, h3]
  exact ⟨⟨by decide, by decide⟩, by decide, by decide, by decide⟩

/-- C3: in a non-periodic mesh with positive width and height, a node in the first column
(`x = 0`) has the sentinel `nNodes` as left neighbour, a node in the last column
(`x = width`) as right neighbour, a node in the first row (`y = 0`) as down neighbour and a
node in the last row (`y = height`) as up neighbour, where `(x, y)` is
`(j mod (width+1), j div (width+1))` for node `j`. -/
theorem nonperiodic_boundary_sentinel [Field K] (sqrtThree : K) (width height : Nat)
    (hw : 0 < width) (hh : 0 < height) (hw32 : width < 4294967296) (j : Nat)
    (hj : j < (Mesh.construct sqrtThree width height false).nNodes) :
    (j % (width + 1) = 0 →
      (Mesh.construct sqrtThree width height false).neighbour j 0 =
        some (Mesh.construct sqrtThree width height false).nNodes) ∧
    (j % (width + 1) = width →
      (Mesh.construct sqrtThree width height false).neighbour j 1 =
        some (Mesh.construct sqrtThree width height false).nNodes) ∧
    (j / (width + 1) = 0 →
      (Mesh.construct sqrtThree width height false).neighbour j 2 =
        some (Mesh.construct sqrtThree width height false).nNodes) ∧
    (j / (width + 1) = height →
      (Mesh.construct sqrtThree width height false).neighbour j 3 =
        some (Mesh.construct sqrtThree width height false).nNodes) := by
  obtain ⟨-, -, hn, -, -⟩ := construct_frame sqrtThree width height false
  rw [hn] at hj ⊢
  by_cases hov : width + 1 < 4294967296
  · have hW : uadd width 1 = width + 1 := uadd_of_lt hov
    obtain ⟨h0, h1, h2, h3⟩ := construct_neighbour sqrtThree width height false j hj
    rw [hW] at h0 h1 h2 h3
    refine ⟨fun hx => ?_, fun hx => ?_, fun hy => ?_, fun hy => ?_⟩
    · rw [h0, if_pos ⟨rfl, hx⟩]
    · rw [h1, if_pos ⟨rfl, by omega, hx⟩]
    · rw [h2, if_pos ⟨rfl, hy⟩]
    · rw [h3, if_pos ⟨rfl, by omega, hy⟩]
  · exfalso
    have hW : uadd 1 width = 0 := by
      have : width = 4294967295 := by omega
      subst this
      decide
    rw [hW] at hj
    simp [umul] at hj

/-- Witness for C3: the non-periodic mesh of width 2 and height 2, node 0. -/
theorem nonperiodic_boundary_sentinel_witness :
    (0 < 2 ∧ 0 < 2 ∧ 2 < 4294967296 ∧ 0 < (Mesh.construct sqrtThreeQ 2 2 false).nNodes) ∧
    ((0 % (2 + 1) = 0 →
      (Mesh.construct sqrtThreeQ 2 2 false).neighbour 0 0 =
        some (Mesh.construct sqrtThreeQ 2 2 false).nNodes) ∧
    (0 % (2 + 1) = 2 →
      (Mesh.construct sqrtThreeQ 2 2 false).neighbour 0 1 =
        some (Mesh.construct sqrtThreeQ 2 2 false).nNodes) ∧
    (0 / (2 + 1) = 0 →
      (Mesh.construct sqrtThreeQ 2 2 false).neighbour 0 2 =
        some (Mesh.construct sqrtThreeQ 2 2 false).nNodes) ∧
    (0 / (2 + 1) = 2 →
      (Mesh.construct sqrtThreeQ 2 2 false).neighbour 0 3 =
        some (Mesh.construct sqrtThreeQ 2 2 false).nNodes)) :=
  have hj : 0 < (Mesh.construct sqrtThreeQ 2 2 false).nNodes := by
    rw [(construct_frame sqrtThreeQ 2 2 false).2.2.1]; decide
  ⟨⟨by decide, by decide, by decide, hj⟩,
    nonperiodic_boundary_sentinel sqrtThreeQ 2 2 (by decide) (by decide) (by decide) 0 hj⟩

/-- Grid coordinates of a node index and the bounds that follow from the node count. -/
theorem grid_bounds {width height j : Nat} (hj : j < (width + 1) * (height + 1)) :
    j % (width + 1) < width + 1 ∧ j / (width + 1) < height + 1 ∧
    j / (width + 1) * (width + 1) ≤ j ∧
    j / (width + 1) * (width + 1) + (width + 1) ≤ (width + 1) * (height + 1) ∧
    j % (width + 1) + j / (width + 1) * (width + 1) = j := by
  have h1 : j % (width + 1) < width + 1 := Nat.mod_lt _ (by omega)
  have h2 : j / (width + 1) < height + 1 := Nat.div_lt_of_lt_mul hj
  have h3 : j / (width + 1) * (width + 1) ≤ j := Nat.div_mul_le_self _ _
  have h4 : (j / (width + 1) + 1) * (width + 1) ≤ (height + 1) * (width + 1) :=
    Nat.mul_le_mul_right _ (by omega)
  have h5 : j % (width + 1) + j / (width + 1) * (width + 1) = j := by
    rw [Nat.mul_comm]; exact Nat.mod_add_div _ _
  refine ⟨h1, h2, h3, ?_, h5⟩
  rw [Nat.add_mul, Nat.one_mul, Nat.mul_comm (height + 1)] at h4
  exact h4

/-- C4: without unsigned overflow, a left neighbour slot that was not replaced by the
sentinel holds `((x - 1 + w) mod w) + y*w` and a right neighbour slot that was not replaced
holds `((x + 1) mod w) + y*w`, as mathematical integers, where `w = width + 1` and
`(x, y) = (j mod w, j div w)`; the wraparound of `x - 1` at `x = 0` does not show. -/
theorem horizontal_neighbours [Field K] (sqrtThree : K) (width height : Nat)
    (isPeriodic : Bool) (_hw : 0 < width) (hh : 0 < height)
    (hn : (width + 1) * (height + 1) < 4294967296) (j : Nat)
    (hj : j < (width + 1) * (height + 1)) :
    (¬ (isPeriodic = false ∧ j % (width + 1) = 0) →
      ∃ v : Nat, (Mesh.construct sqrtThree width height isPeriodic).neighbour j 0 = some v ∧
        (v : Int) = (((j % (width + 1) : Nat) : Int) - 1 + ((width + 1 : Nat) : Int))
            % ((width + 1 : Nat) : Int)
          + ((j / (width + 1) : Nat) : Int) * ((width + 1 : Nat) : Int)) ∧
    (¬ (isPeriodic = false ∧ j % (width + 1) = width) →
      ∃ v : Nat, (Mesh.construct sqrtThree width height isPeriodic).neighbour j 1 = some v ∧
        (v : Int) = ((((j % (width + 1) : Nat) : Int) + 1) % ((width + 1 : Nat) : Int))
          + ((j / (width + 1) : Nat) : Int) * ((width + 1 : Nat) : Int)) := by
  obtain ⟨e1, e2, e3, e4, h2w⟩ := nowrap_facts hh hn
  obtain ⟨hx, hy, hyj, hyW, -⟩ := grid_bounds hj
  obtain ⟨h0, h1, -, -⟩ :=
    construct_neighbour sqrtThree width height isPeriodic j (by rw [e4]; exact hj)
  rw [e1] at h0 h1
  generalize j % (width + 1) = x at *
  generalize j / (width + 1) = y at *
  have hmul : umul y (width + 1) = y * (width + 1) := umul_of_lt (by omega)
  refine ⟨fun hnot => ?_, fun hnot => ?_⟩
  · rw [if_neg hnot, hmul] at h0
    have hs : uadd (usub x 1) (width + 1) = x + (width + 1) - 1 := by
      unfold uadd usub uintSize; omega
    rw [hs] at h0
    have hm : (x + (width + 1) - 1) % (width + 1) < width + 1 := Nat.mod_lt _ (by omega)
    rw [uadd_of_lt (by omega)] at h0
    refine ⟨_, h0, ?_⟩
    have hc : ((x + (width + 1) - 1 : Nat) : Int) = (x : Int) - 1 + ((width + 1 : Nat) : Int) := by
      omega
    rw [← hc]
    push_cast
    rfl
  · have hnot' : ¬ (isPeriodic = false ∧ x ≠ 0 ∧ x = width) := fun h => hnot ⟨h.1, h.2.2⟩
    rw [if_neg hnot', hmul] at h1
    have hs : uadd (uadd x 1) (width + 1) = (x + 1) + (width + 1) := by
      unfold uadd uintSize; omega
    rw [hs, Nat.add_mod_right] at h1
    have hm : (x + 1) % (width + 1) < width + 1 := Nat.mod_lt _ (by omega)
    rw [uadd_of_lt (by omega)] at h1
    refine ⟨_, h1, ?_⟩
    push_cast
    rfl

/-- Witness for C4: the periodic mesh of width 2 and height 2, node 0. -/
theorem horizontal_neighbours_witness :
    (0 < 2 ∧ 0 < 2 ∧ (2 + 1) * (2 + 1) < 4294967296 ∧ 0 < (2 + 1) * (2 + 1)) ∧
    ((¬ (true = false ∧ 0 % (2 + 1) = 0) →
      ∃ v : Nat, (Mesh.construct sqrtThreeQ 2 2 true).neighbour 0 0 = some v ∧
        (v : Int) = (((0 % (2 + 1) : Nat) : Int) - 1 + ((2 + 1 : Nat) : Int))
            % ((2 + 1 : Nat) : Int)
          + ((0 / (2 + 1) : Nat) : Int) * ((2 + 1 : Nat) : Int)) ∧
    (¬ (true = false ∧ 0 % (2 + 1) = 2) →
      ∃ v : Nat, (Mesh.construct sqrtThreeQ 2 2 true).neighbour 0 1 = some v ∧
        (v : Int) = ((((0 % (2 + 1) : Nat) : Int) + 1) % ((2 + 1 : Nat) : Int))
          + ((0 / (2 + 1) : Nat) : Int) * ((2 + 1 : Nat) : Int))) :=
  ⟨⟨by decide, by decide, by decide, by decide⟩,
    horizontal_neighbours sqrtThreeQ 2 2 true (by decide) (by decide) (by decide) 0
      (by decide)⟩

/-- C5, as stated, fails: in the periodic mesh of width 2 and height 2, the left neighbour
of node 0 is not the node at grid coordinate `(1, 0)`. -/
theorem node_zero_left_is_not_node_at_one_zero :
    ¬ ((Mesh.construct sqrtThreeQ 2 2 true).neighbour 0 0
          = (Mesh.construct sqrtThreeQ 2 2 true).nodeAt 1 0 ∧
        (Mesh.construct sqrtThreeQ 2 2 true).neighbour 0 0 ≠ some 9) := by
  set_option maxRecDepth 100000 in decide

/-- C5, amended: in the periodic mesh of width 2 and height 2 (9 nodes), the left neighbour
of node 0 is node 2, the node at grid coordinate `(2, 0)` (the last node column), whose
stored coordinates are `(2, 0)`; it is not the sentinel 9. -/
theorem node_zero_left_is_node_at_two_zero :
    (Mesh.construct sqrtThreeQ 2 2 true).nNodes = 9 ∧
    (Mesh.construct sqrtThreeQ 2 2 true).neighbour 0 0
      = (Mesh.construct sqrtThreeQ 2 2 true).nodeAt 2 0 ∧
    (Mesh.construct sqrtThreeQ 2 2 true).nodeAt 2 0 = some 2 ∧
    ((Mesh.construct sqrtThreeQ 2 2 true).nodes[2]?).map (fun nd => nd.coord)
      = some ⟨2, 0⟩ ∧
    (Mesh.construct sqrtThreeQ 2 2 true).neighbour 0 0
      ≠ some (Mesh.construct sqrtThreeQ 2 2 true).nNodes := by
  set_option maxRecDepth 100000 in decide

/-! ## Element layout -/

theorem connectLoop_elements (i : Nat) (m : Mesh K) (k : Nat) :
    (forLoop (Mesh.connectBody i) m k).elements = m.elements :=
  forLoop_preserves (Mesh.connectBody i) Mesh.elements (fun _ _ => rfl) m k

theorem initialiseElementsBody_elements [Field K] (inv : K) (i : Nat) (m : Mesh K) :
    (Mesh.initialiseElementsBody inv i m).elements =
      m.elements.modify (elementStep inv m.width i) i := by
  unfold Mesh.initialiseElementsBody
  simp only [connectLoop_elements]
  simp only [forLoop, Mesh.gaussBody, modifyElement_elements,
    modifyElement_width, List.modify_modify_eq, Function.comp_def]
  rfl

/-- After `k` iterations of the loop of `initialiseElements`, the first `k` elements hold
their final records and the others are untouched. -/
theorem initialiseElements_loop_elements [Field K] (inv : K) (m : Mesh K) (k j : Nat) :
    (forLoop (Mesh.initialiseElementsBody inv) m k).elements[j]? =
      if j < k then (m.elements[j]?).map (elementStep inv m.width j) else m.elements[j]? := by
  induction k with
  | zero => simp [forLoop]
  | succ k ih =>
    obtain ⟨h1, -, -, -, -⟩ := initialiseElements_loop_frame inv m k
    simp only [forLoop, initialiseElementsBody_elements, List.getElem?_modify, ih, h1]
    by_cases hjk : j < k
    · have : k ≠ j := by omega
      have h' : j < k + 1 := by omega
      simp [hjk, this, h']
    · by_cases hj : k = j
      · subst hj
        cases m.elements[k]? <;> simp
      · have h' : ¬ j < k + 1 := by omega
        cases m.elements[j]? <;> simp [hjk, hj, h']

theorem initialiseElementsBody_eq [Field K] (inv : K) (i : Nat) (m : Mesh K) :
    Mesh.initialiseElementsBody inv i m =
      forLoop (Mesh.connectBody i) (Mesh.elementWrites inv i m) 4 := rfl

theorem elementWrites_nodes [Field K] (inv : K) (i : Nat) (m : Mesh K) :
    (Mesh.elementWrites inv i m).nodes = m.nodes := by
  unfold Mesh.elementWrites
  simp only [modifyElement_nodes]
  exact forLoop_preserves (Mesh.gaussBody inv i) Mesh.nodes (fun _ _ => rfl) _ 4

theorem elementWrites_elements [Field K] (inv : K) (i : Nat) (m : Mesh K) :
    (Mesh.elementWrites inv i m).elements = m.elements.modify (elementStep inv m.width i) i := by
  rw [← initialiseElementsBody_elements, initialiseElementsBody_eq, connectLoop_elements]

theorem elementNode_connectBody (i j a b : Nat) (m : Mesh K) :
    (Mesh.connectBody i j m).elementNode a b = m.elementNode a b := rfl

theorem elementWrites_elementNode [Field K] (inv : K) (i : Nat) (m : Mesh K) (e : Element K)
    (he : m.elements[i]? = some e) (hlen : e.nodes.length = 4) (j : Nat) :
    (Mesh.elementWrites inv i m).elementNode i j = (corners m.width i).getD j 0 := by
  unfold Mesh.elementNode
  rw [elementWrites_elements, List.getElem?_modify, he]
  simp only [Option.map_eq_map, Option.map_some', if_true, elementStep, corners]
  obtain ⟨n0, n1, n2, n3, hn⟩ : ∃ n0 n1 n2 n3, e.nodes = [n0, n1, n2, n3] := by
    match h : e.nodes, hlen with
    | [n0, n1, n2, n3], _ => exact ⟨n0, n1, n2, n3, rfl⟩
  rw [hn]
  rfl

/-- The node vector after one iteration of `initialiseElements`. -/
theorem initialiseElementsBody_nodes [Field K] (inv : K) (i : Nat) (m : Mesh K)
    (e : Element K) (he : m.elements[i]? = some e) (hlen : e.nodes.length = 4) :
    (Mesh.initialiseElementsBody inv i m).nodes = connectAll i (corners m.width i) m.nodes := by
  rw [initialiseElementsBody_eq]
  simp only [forLoop, connectBody_nodes, elementNode_connectBody,
    elementWrites_elementNode inv i m e he hlen, elementWrites_nodes]
  rfl

theorem initialiseElements_loop_nodes [Field K] (inv : K) (m : Mesh K)
    (hel : ∀ j, j < m.elements.length → m.elements[j]? = some Element.zero) (k : Nat)
    (hk : k ≤ m.elements.length) :
    (forLoop (Mesh.initialiseElementsBody inv) m k).nodes = connectLoop m.width m.nodes k := by
  induction k with
  | zero => rfl
  | succ k ih =>
    have hk' : k < m.elements.length := by omega
    obtain ⟨h1, -, -, -, -⟩ := initialiseElements_loop_frame inv m k
    have he : (forLoop (Mesh.initialiseElementsBody inv) m k).elements[k]?
        = some Element.zero := by
      rw [initialiseElements_loop_elements, if_neg (by omega)]
      exact hel k hk'
    simp only [forLoop, connectLoop]
    rw [initialiseElementsBody_nodes inv k _ _ he rfl, h1, ih (by omega)]

/-- Grid coordinates of an element index and the bounds that follow from the element
count. -/
theorem element_bounds {width height e : Nat} (he : e < width * height) :
    e % width < width ∧ e / width < height ∧
    e / width * (width + 1) + (width + 1) ≤ height * (width + 1) ∧
    height * (width + 1) + (width + 1) = (width + 1) * (height + 1) := by
  have hw : 0 < width := by
    rcases Nat.eq_zero_or_pos width with h | h
    · subst h; simp at he
    · exact h
  have h1 : e % width < width := Nat.mod_lt _ hw
  have h2 : e / width < height := Nat.div_lt_of_lt_mul he
  have h3 : (e / width + 1) * (width + 1) ≤ height * (width + 1) :=
    Nat.mul_le_mul_right _ (by omega)
  refine ⟨h1, h2, ?_, ?_⟩
  · rw [Nat.add_mul, Nat.one_mul] at h3
    exact h3
  · rw [Nat.mul_comm (width + 1) (height + 1), Nat.add_mul, Nat.one_mul]

/-- Without overflow of the node count, the corner indices the code computes are the
mathematical ones. -/
theorem corners_eq {width height e : Nat} (hh : 0 < height)
    (hn : (width + 1) * (height + 1) < 4294967296) (he : e < width * height) :
    corners width e = cornerIndices width e := by
  obtain ⟨e1, -, -, -, h2w⟩ := nowrap_facts hh hn
  obtain ⟨hx, hy, hyW, hN⟩ := element_bounds he
  have hh1 : height + 1 ≤ (width + 1) * (height + 1) := Nat.le_mul_of_pos_left _ (by omega)
  unfold corners cornerIndices
  simp only [e1]
  have hs : (e / width + 1) * (width + 1) = e / width * (width + 1) + (width + 1) := by
    rw [Nat.add_mul, Nat.one_mul]
  rw [hs]
  generalize e % width = x at *
  generalize e / width = y at *
  have hy1 : uadd y 1 = y + 1 := uadd_of_lt (by omega)
  have hx1 : uadd x 1 = x + 1 := uadd_of_lt (by omega)
  have hm : umul y (width + 1) = y * (width + 1) := umul_of_lt (by omega)
  have hm1 : umul (y + 1) (width + 1) = y * (width + 1) + (width + 1) := by
    rw [umul_of_lt (by rw [hs]; omega), hs]
  rw [hy1, hx1, hm, hm1, uadd_of_lt (by omega), uadd_of_lt (by omega),
    uadd_of_lt (by omega), uadd_of_lt (by omega)]

/-- The bottom-left corner index `e mod width + (e div width) * (width+1)` is
`e + e div width`. -/
theorem cornerBase_eq (width e : Nat) :
    e % width + e / width * (width + 1) = e + e / width := by
  have h := Nat.mod_add_div e width
  rw [Nat.mul_add, Nat.mul_one, Nat.mul_comm]
  omega

theorem cornerBase_injective (width : Nat) :
    Function.Injective (fun e => e % width + e / width * (width + 1)) := by
  intro a b hab
  simp only [cornerBase_eq] at hab
  rcases Nat.lt_trichotomy a b with h | h | h
  · have := Nat.div_le_div_right (c := width) (Nat.le_of_lt h)
    omega
  · exact h
  · have := Nat.div_le_div_right (c := width) (Nat.le_of_lt h)
    omega

theorem touches_iff (width e n : Nat) :
    touches width e n = true ↔
      n = e % width + e / width * (width + 1) ∨
      n = e % width + e / width * (width + 1) + 1 ∨
      n = e % width + e / width * (width + 1) + (width + 1) + 1 ∨
      n = e % width + e / width * (width + 1) + (width + 1) := by
  have hs : (e / width + 1) * (width + 1) = e / width * (width + 1) + (width + 1) := by
    rw [Nat.add_mul, Nat.one_mul]
  unfold touches cornerIndices
  simp only [decide_eq_true_eq, List.mem_cons, List.mem_singleton, hs, List.mem_nil_iff,
    or_false]
  omega

/-- At most four elements have a given node as a corner. -/
theorem touching_length_le (width n k : Nat) : (touching width n k).length ≤ 4 := by
  have hnd : (touching width n k).Nodup := List.Nodup.filter _ (List.nodup_range k)
  have hmap := List.Nodup.map (cornerBase_injective width) hnd
  have hsub : (touching width n k).map (fun e => e % width + e / width * (width + 1))
      ⊆ [n, n - 1, n - (width + 1) - 1, n - (width + 1)] := by
    intro v hv
    simp only [touching, List.mem_map, List.mem_filter, touches_iff] at hv
    obtain ⟨e, ⟨-, ht⟩, rfl⟩ := hv
    simp only [List.mem_cons, List.mem_singleton, List.mem_nil_iff, or_false]
    omega
  have h := (List.subperm_of_subset hmap hsub).length_le
  simpa using h

theorem touching_succ (width n k : Nat) :
    touching width n (k + 1) =
      touching width n k ++ (if touches width k n = true then [k] else []) := by
  unfold touching
  rw [List.range_succ, List.filter_append]
  by_cases h : touches width k n = true <;> simp [h]

theorem cornerIndices_eq (width e : Nat) :
    cornerIndices width e =
      [e % width + e / width * (width + 1), e % width + e / width * (width + 1) + 1,
        e % width + e / width * (width + 1) + (width + 1) + 1,
        e % width + e / width * (width + 1) + (width + 1)] := by
  have hs : (e / width + 1) * (width + 1) = e / width * (width + 1) + (width + 1) := by
    rw [Nat.add_mul, Nat.one_mul]
  have e1 : e % width + 1 + e / width * (width + 1)
      = e % width + e / width * (width + 1) + 1 := by omega
  have e2 : e % width + 1 + (e / width * (width + 1) + (width + 1))
      = e % width + e / width * (width + 1) + (width + 1) + 1 := by omega
  have e3 : e % width + (e / width * (width + 1) + (width + 1))
      = e % width + e / width * (width + 1) + (width + 1) := by omega
  unfold cornerIndices
  rw [hs, e1, e2, e3]

/-- The reverse connectivity loop of one element appends the element to the record of a
node exactly when the node is one of its four corners. -/
theorem connectAll_getElem? (i c w : Nat) (ns : List (Node K)) (n : Nat) (nd : Node K)
    (hw : 0 < w) (h : ns[n]? = some nd) :
    (connectAll i [c, c + 1, c + (w + 1) + 1, c + (w + 1)] ns)[n]? =
      some (if n = c ∨ n = c + 1 ∨ n = c + (w + 1) + 1 ∨ n = c + (w + 1)
        then attach i nd else nd) := by
  simp only [connectAll, connect, List.getElem?_modify, h, List.getD_cons_zero,
    List.getD_cons_succ, Option.map_eq_map, Option.map_some', Option.some.injEq]
  by_cases h0 : c = n
  · subst h0
    have h1 : ¬ c + 1 = c := by omega
    have h2 : ¬ c + (w + 1) + 1 = c := by omega
    have h3 : ¬ c + (w + 1) = c := by omega
    simp only [h1, h2, h3, if_true, if_false, true_or]
    rfl
  · by_cases h1 : c + 1 = n
    · subst h1
      have h2 : ¬ c + (w + 1) + 1 = c + 1 := by omega
      have h3 : ¬ c + (w + 1) = c + 1 := by omega
      simp only [h0, h2, h3, if_true, if_false, true_or, or_true]
      rfl
    · by_cases h2 : c + (w + 1) + 1 = n
      · subst h2
        have h3 : ¬ c + (w + 1) = c + (w + 1) + 1 := by omega
        simp only [h0, h1, h3, if_true, if_false, true_or, or_true]
        rfl
      · by_cases h3 : c + (w + 1) = n
        · subst h3
          simp only [h0, h1, h2, if_true, if_false, or_true]
          rfl
        · have hne : ¬ (n = c ∨ n = c + 1 ∨ n = c + (w + 1) + 1 ∨ n = c + (w + 1)) := by
            omega
          simp only [h0, h1, h2, h3, hne, if_false]

theorem take_succ_set {α : Type} (l : List α) (k : Nat) (v : α) (hk : k < l.length) :
    (l.set k v).take (k + 1) = l.take k ++ [v] := by
  rw [List.take_succ, List.getElem?_set_self hk, List.set_take,
    List.set_eq_of_length_le (by simp)]
  rfl

/-- Invariant of the loop of `initialiseElements` on one node record: after `k`
iterations its element list is the list of the elements below `k` touching it. -/
theorem connectLoop_inv {width height : Nat} (hh : 0 < height)
    (hn : (width + 1) * (height + 1) < 4294967296) (ns : List (Node K)) (n : Nat)
    (nd0 : Node K) (h0 : ns[n]? = some nd0) (hl : nd0.elements.length = 4)
    (hz : nd0.nElements = 0) (k : Nat) (hk : k ≤ width * height) :
    ∃ nd : Node K, (connectLoop width ns k)[n]? = some nd ∧ nd.elements.length = 4 ∧
      nd.nElements = (touching width n k).length ∧
      nd.elements.take nd.nElements = touching width n k := by
  induction k with
  | zero =>
    refine ⟨nd0, h0, hl, ?_, ?_⟩
    · simp [touching, hz]
    · simp [touching, hz]
  | succ k ih =>
    obtain ⟨nd, h1, h2, h3, h4⟩ := ih (by omega)
    have hc := corners_eq hh hn (show k < width * height by omega)
    have hle := touching_length_le width n (k + 1)
    have hw : 0 < width := by
      rcases Nat.eq_zero_or_pos width with h | h
      · subst h; simp at hk
      · exact h
    simp only [connectLoop]
    rw [hc, cornerIndices_eq, connectAll_getElem? _ _ _ _ _ _ hw h1, touching_succ]
    rw [touching_succ] at hle
    by_cases ht : touches width k n = true
    · rw [if_pos ((touches_iff width k n).mp ht)]
      simp only [ht, if_true, List.length_append, List.length_singleton] at hle ⊢
      have hu : uadd nd.nElements 1 = nd.nElements + 1 := uadd_of_lt (by omega)
      refine ⟨attach k nd, rfl, ?_, ?_, ?_⟩
      · simp [attach, h2]
      · show uadd nd.nElements 1 = _
        rw [hu, h3]
      · simp only [attach, hu]
        rw [take_succ_set _ _ _ (by omega), h4]
    · rw [if_neg (fun h => ht ((touches_iff width k n).mpr h)), if_neg ht,
        List.append_nil]
      exact ⟨nd, rfl, h2, h3, h4⟩

/-! ## The constructed mesh -/

theorem afterNodes_elements_getElem? [Field K] (width_ height_ : Nat) (isPeriodic_ : Bool)
    (j : Nat) (hj : j < (Mesh.afterNodes (K := K) width_ height_ isPeriodic_).elements.length) :
    (Mesh.afterNodes (K := K) width_ height_ isPeriodic_).elements[j]? = some Element.zero := by
  obtain ⟨-, -, -, -, -, h6⟩ := afterNodes_frame (K := K) width_ height_ isPeriodic_
  rw [h6] at hj ⊢
  rw [List.length_replicate] at hj
  rw [List.getElem?_replicate, if_pos hj]

/-- The record of element `i` of the constructed mesh. -/
theorem construct_element [Field K] (sqrtThree : K) (width_ height_ : Nat)
    (isPeriodic_ : Bool) (i : Nat) (hi : i < umul width_ height_) :
    (Mesh.construct sqrtThree width_ height_ isPeriodic_).elements[i]? =
      some (elementStep (1 / sqrtThree) width_ i Element.zero) := by
  obtain ⟨h1, -, -, -, -, h6⟩ := afterNodes_frame (K := K) width_ height_ isPeriodic_
  rw [construct_eq, initialiseElements_loop_elements, if_pos hi, h1, h6,
    List.getElem?_replicate, if_pos hi]
  rfl

/-- The node vector of the constructed mesh is the one `initialiseNodes` built, run
through the reverse connectivity loops of all elements. -/
theorem construct_nodes [Field K] (sqrtThree : K) (width_ height_ : Nat)
    (isPeriodic_ : Bool) :
    (Mesh.construct sqrtThree width_ height_ isPeriodic_).nodes =
      connectLoop width_ (Mesh.afterNodes (K := K) width_ height_ isPeriodic_).nodes
        (umul width_ height_) := by
  obtain ⟨h1, -, -, -, -, h6⟩ := afterNodes_frame (K := K) width_ height_ isPeriodic_
  rw [construct_eq, initialiseElements_loop_nodes _ _
    (afterNodes_elements_getElem? width_ height_ isPeriodic_) _
    (by rw [h6, List.length_replicate]), h1]

theorem nElements_nowrap {width height : Nat}
    (hn : (width + 1) * (height + 1) < 4294967296) :
    umul width height = width * height := by
  apply umul_of_lt
  have h1 : width * height ≤ (width + 1) * (height + 1) :=
    Nat.mul_le_mul (by omega) (by omega)
  omega

/-- The element list of node `n` of the constructed mesh: its first `nElements` entries
are the elements that have `n` as a corner, in increasing order. -/
theorem construct_node_elements [Field K] (sqrtThree : K) (width height : Nat)
    (isPeriodic : Bool) (hh : 0 < height) (hn : (width + 1) * (height + 1) < 4294967296)
    (n : Nat) (hlt : n < (width + 1) * (height + 1)) :
    ∃ nd : Node K, (Mesh.construct sqrtThree width height isPeriodic).nodes[n]? = some nd ∧
      nd.elements.length = 4 ∧
      nd.nElements = (touching width n (width * height)).length ∧
      nd.elements.take nd.nElements = touching width n (width * height) := by
  obtain ⟨-, -, -, e4, -⟩ := nowrap_facts hh hn
  have h0 := afterNodes_nodes (K := K) width height isPeriodic n (by rw [e4]; exact hlt)
  rw [construct_nodes, nElements_nowrap hn]
  exact connectLoop_inv hh hn _ n _ h0 rfl rfl _ (le_refl _)

/-- The corner nodes stored for element `i` of the constructed mesh. -/
theorem construct_element_nodes [Field K] (sqrtThree : K) (width height : Nat)
    (isPeriodic : Bool) (hh : 0 < height) (hn : (width + 1) * (height + 1) < 4294967296)
    (i : Nat) (hi : i < width * height) :
    ((Mesh.construct sqrtThree width height isPeriodic).elements[i]?).map (fun e => e.nodes)
      = some (cornerIndices width i) := by
  have hc := corners_eq hh hn hi
  rw [construct_element sqrtThree width height isPeriodic i
    (by rw [nElements_nowrap hn]; exact hi)]
  simp only [Option.map_some', Option.some.injEq]
  exact hc

/-- C6: without unsigned overflow, element `i` at grid `(x, y) = (i mod width, i div width)`
stores the corner nodes `[x + y*w, x+1 + y*w, x+1 + (y+1)*w, x + (y+1)*w]` with
`w = width + 1`; the four indices are pairwise distinct and each is a valid node index. -/
theorem element_corner_nodes [Field K] (sqrtThree : K) (width height : Nat)
    (isPeriodic : Bool) (hw : 0 < width) (hh : 0 < height)
    (hn : (width + 1) * (height + 1) < 4294967296) (i : Nat)
    (hi : i < (Mesh.construct sqrtThree width height isPeriodic).nElements) :
    ((Mesh.construct sqrtThree width height isPeriodic).elements[i]?).map (fun e => e.nodes)
      = some [i % width + i / width * (width + 1), i % width + 1 + i / width * (width + 1),
          i % width + 1 + (i / width + 1) * (width + 1),
          i % width + (i / width + 1) * (width + 1)] ∧
    [i % width + i / width * (width + 1), i % width + 1 + i / width * (width + 1),
      i % width + 1 + (i / width + 1) * (width + 1),
      i % width + (i / width + 1) * (width + 1)].Pairwise (fun a b => a ≠ b) ∧
    ∀ c ∈ [i % width + i / width * (width + 1), i % width + 1 + i / width * (width + 1),
      i % width + 1 + (i / width + 1) * (width + 1),
      i % width + (i / width + 1) * (width + 1)],
      c < (Mesh.construct sqrtThree width height isPeriodic).nNodes := by
  obtain ⟨-, -, hN, hE, -⟩ := construct_frame sqrtThree width height isPeriodic
  obtain ⟨-, -, -, e4, -⟩ := nowrap_facts hh hn
  rw [hE] at hi
  have hi' : i < width * height := by rw [← nElements_nowrap hn]; exact hi
  obtain ⟨hx, hy, hyW, hNeq⟩ := element_bounds hi'
  have hs : (i / width + 1) * (width + 1) = i / width * (width + 1) + (width + 1) := by
    rw [Nat.add_mul, Nat.one_mul]
  refine ⟨?_, ?_, ?_⟩
  · exact construct_element_nodes sqrtThree width height isPeriodic hh hn i hi'
  · rw [hs]
    simp only [List.pairwise_cons, List.mem_cons, List.mem_singleton, List.not_mem_nil,
      forall_eq_or_imp, forall_eq, IsEmpty.forall_iff, implies_true, List.Pairwise.nil,
      and_true, ne_eq, List.mem_nil_iff]
    omega
  · rw [hN, e4, hs]
    intro c hcm
    simp only [List.mem_cons, List.mem_singleton, List.mem_nil_iff, or_false] at hcm
    omega

/-- Witness for C6: element 3 of the periodic mesh of width 2 and height 2. -/
theorem element_corner_nodes_witness :
    (0 < 2 ∧ 0 < 2 ∧ (2 + 1) * (2 + 1) < 4294967296 ∧
      3 < (Mesh.construct sqrtThreeQ 2 2 true).nElements) ∧
    (((Mesh.construct sqrtThreeQ 2 2 true).elements[3]?).map (fun e => e.nodes)
      = some [3 % 2 + 3 / 2 * (2 + 1), 3 % 2 + 1 + 3 / 2 * (2 + 1),
          3 % 2 + 1 + (3 / 2 + 1) * (2 + 1), 3 % 2 + (3 / 2 + 1) * (2 + 1)] ∧
    [3 % 2 + 3 / 2 * (2 + 1), 3 % 2 + 1 + 3 / 2 * (2 + 1),
      3 % 2 + 1 + (3 / 2 + 1) * (2 + 1), 3 % 2 + (3 / 2 + 1) * (2 + 1)].Pairwise
        (fun a b => a ≠ b) ∧
    ∀ c ∈ [3 % 2 + 3 / 2 * (2 + 1), 3 % 2 + 1 + 3 / 2 * (2 + 1),
      3 % 2 + 1 + (3 / 2 + 1) * (2 + 1), 3 % 2 + (3 / 2 + 1) * (2 + 1)],
      c < (Mesh.construct sqrtThreeQ 2 2 true).nNodes) :=
  have hi : 3 < (Mesh.construct sqrtThreeQ 2 2 true).nElements := by
    rw [(construct_frame sqrtThreeQ 2 2 true).2.2.2.1]; decide
  ⟨⟨by decide, by decide, by decide, hi⟩,
    element_corner_nodes sqrtThreeQ 2 2 true (by decide) (by decide) (by decide) 3 hi⟩

theorem add_mul_mod_div {a b w : Nat} (ha : a < w) :
    (a + b * w) % w = a ∧ (a + b * w) / w = b := by
  constructor
  · rw [Nat.add_mul_mod_self_right, Nat.mod_eq_of_lt ha]
  · rw [Nat.add_mul_div_right _ _ (by omega), Nat.div_eq_of_lt ha, Nat.zero_add]

/-- The stored coordinates of node `x + y*w` are `(x, y)`. -/
theorem construct_node_coord [Field K] (sqrtThree : K) (width height : Nat)
    (isPeriodic : Bool) (hh : 0 < height) (hn : (width + 1) * (height + 1) < 4294967296)
    (x y : Nat) (hx : x < width + 1) (hlt : x + y * (width + 1) < (width + 1) * (height + 1)) :
    ((Mesh.construct sqrtThree width height isPeriodic).nodes[x + y * (width + 1)]?).map
      (fun nd => nd.coord) = some ⟨(x : K), (y : K)⟩ := by
  obtain ⟨e1, -, -, e4, -⟩ := nowrap_facts hh hn
  obtain ⟨nd, h1, h2, -, -⟩ := construct_node_geometry sqrtThree width height isPeriodic
    (x + y * (width + 1)) (by rw [e4]; exact hlt)
  obtain ⟨hm, hd⟩ := add_mul_mod_div (b := y) hx
  rw [h1, Option.map_some', h2, e1, hm, hd]

/-! ## Reverse connectivity -/

theorem mem_touching {width n k e : Nat} :
    e ∈ touching width n k ↔ e < k ∧ n ∈ cornerIndices width e := by
  simp [touching, touches]

theorem sum_map_range (f : Nat → Nat) (N : Nat) :
    ((List.range N).map f).sum = Finset.sum (Finset.range N) f := by
  induction N with
  | zero => simp
  | succ N ih => rw [List.sum_range_succ, Finset.sum_range_succ, ih]

/-! ## Connectivity on every mesh the constructor builds

The element loop reads `nodes[elements[i].nodes[j]]` for every element `i` and corner `j`.
The lemmas of this section assume only that these reads are in range, which is what the
constructor needs to run; the element and node counts may have wrapped. -/

/-- If the top-left corner index of element `e` fits `unsigned int` and the four indices
the code stores for `e` are below `N`, the stored indices are the mathematical ones and the
largest of them, the top-right one, is below `N`. -/
theorem corners_of_fit {width N e : Nat} (hw : 0 < width) (hW : width + 1 < 4294967296)
    (hN : N < 4294967296)
    (hfit : e % width + (e / width + 1) * (width + 1) < 4294967296)
    (hR : ∀ c ∈ corners width e, c < N) :
    corners width e = cornerIndices width e ∧
      e % width + 1 + (e / width + 1) * (width + 1) < N := by
  have hx : e % width < width := Nat.mod_lt _ hw
  have e1 : uadd width 1 = width + 1 := uadd_of_lt hW
  have hs : (e / width + 1) * (width + 1) = e / width * (width + 1) + (width + 1) := by
    rw [Nat.add_mul, Nat.one_mul]
  have hy : e / width ≤ e / width * (width + 1) := Nat.le_mul_of_pos_right _ (by omega)
  unfold corners at hR ⊢
  unfold cornerIndices
  simp only [e1] at hR ⊢
  rw [hs] at hfit ⊢
  generalize e % width = x at *
  generalize e / width = y at *
  have hy1 : uadd y 1 = y + 1 := uadd_of_lt (by omega)
  have hx1 : uadd x 1 = x + 1 := uadd_of_lt (by omega)
  have hm : umul y (width + 1) = y * (width + 1) := umul_of_lt (by omega)
  have hm1 : umul (y + 1) (width + 1) = y * (width + 1) + (width + 1) := by
    rw [umul_of_lt (by rw [hs]; omega), hs]
  have ha : uadd x (y * (width + 1)) = x + y * (width + 1) := uadd_of_lt (by omega)
  have hb : uadd (x + 1) (y * (width + 1)) = x + 1 + y * (width + 1) :=
    uadd_of_lt (by omega)
  have hd : uadd x (y * (width + 1) + (width + 1)) = x + (y * (width + 1) + (width + 1)) :=
    uadd_of_lt (by omega)
  rw [hy1, hx1, hm, hm1, ha, hb, hd] at hR ⊢
  have h3 : x + (y * (width + 1) + (width + 1)) < N := hR _ (by simp)
  have hc : uadd (x + 1) (y * (width + 1) + (width + 1))
      = x + 1 + (y * (width + 1) + (width + 1)) := uadd_of_lt (by omega)
  rw [hc] at hR ⊢
  exact ⟨rfl, hR _ (by simp)⟩

/-- If every corner index the code stores for the elements below `E` is below `N`, none of
the index computations wraps: the stored indices are the mathematical ones. -/
theorem corners_nowrap {width N : Nat} (hw : 0 < width) (hW : width + 1 < 4294967296)
    (hN : N < 4294967296) (E : Nat)
    (hR : ∀ e, e < E → ∀ c ∈ corners width e, c < N) (e : Nat) :
    e < E → corners width e = cornerIndices width e ∧
      e % width + 1 + (e / width + 1) * (width + 1) < N := by
  induction e with
  | zero =>
    intro h0
    apply corners_of_fit hw hW hN _ (hR 0 h0)
    rw [Nat.zero_mod, Nat.zero_div]
    omega
  | succ e ih =>
    intro h
    obtain ⟨-, hlt⟩ := ih (by omega)
    apply corners_of_fit hw hW hN _ (hR _ h)
    have hb1 := cornerBase_eq width e
    have hb2 := cornerBase_eq width (e + 1)
    have hd : (e + 1) / width ≤ e / width + 1 := by
      have h1 := Nat.div_le_div_right (c := width) (show e + 1 ≤ e + width by omega)
      rwa [Nat.add_div_right _ hw] at h1
    rw [Nat.add_mul, Nat.one_mul] at hlt ⊢
    omega

/-- The read `elements[e].nodes[j]` of the constructed mesh is entry `j` of the list
`corners width e`. -/
theorem construct_cornerNode_corners [Field K] (sqrtThree : K) (width height : Nat)
    (isPeriodic : Bool) (e : Nat) (he : e < umul width height) (j : Nat) :
    (Mesh.construct sqrtThree width height isPeriodic).cornerNode e j
      = (corners width e)[j]? := by
  unfold Mesh.cornerNode
  rw [construct_element sqrtThree width height isPeriodic e he, Option.some_bind]
  rfl

/-- When every read `nodes[elements[i].nodes[j]]` of the element loop is in range, the
corner indices stored for the elements are the mathematical ones, the largest of them is a
valid node index, and `width + 1` does not wrap. -/
theorem construct_corner_facts [Field K] (sqrtThree : K) (width height : Nat)
    (isPeriodic : Bool) (hw : 0 < width) (hw32 : width < 4294967296)
    (hdef : ∀ i j : Nat, i < (Mesh.construct sqrtThree width height isPeriodic).nElements →
      j < 4 → ∃ c : Nat,
        (Mesh.construct sqrtThree width height isPeriodic).cornerNode i j = some c ∧
        c < (Mesh.construct sqrtThree width height isPeriodic).nNodes)
    (e : Nat) (he : e < umul width height) :
    corners width e = cornerIndices width e ∧
      e % width + 1 + (e / width + 1) * (width + 1) < umul (uadd 1 width) (uadd 1 height) ∧
      width + 1 < 4294967296 := by
  obtain ⟨-, -, hN, hE, -⟩ := construct_frame sqrtThree width height isPeriodic
  rw [hN, hE] at hdef
  have hR : ∀ i, i < umul width height → ∀ c ∈ corners width i,
      c < umul (uadd 1 width) (uadd 1 height) := by
    intro i hi c hc
    obtain ⟨j, hj, hjc⟩ := List.getElem_of_mem hc
    have hj4 : j < 4 := hj
    obtain ⟨c', h1, h2⟩ := hdef i j hi hj4
    rw [construct_cornerNode_corners sqrtThree width height isPeriodic i hi j,
      List.getElem?_eq_getElem hj, hjc] at h1
    rw [Option.some.inj h1]
    exact h2
  have hpos : 0 < umul (uadd 1 width) (uadd 1 height) := by
    have h0 : 0 < umul width height := by omega
    have := hR 0 h0 (uadd (0 % width) (umul (0 / width) (uadd width 1))) (by simp [corners])
    omega
  have hW : width + 1 < 4294967296 := by
    by_contra hge
    have hwe : width = 4294967295 := by omega
    rw [hwe] at hpos
    have hz : uadd 1 4294967295 = 0 := by decide
    rw [hz] at hpos
    simp [umul] at hpos
  have hNlt : umul (uadd 1 width) (uadd 1 height) < 4294967296 := by
    unfold umul uintSize
    exact Nat.mod_lt _ (by decide)
  obtain ⟨h1, h2⟩ := corners_nowrap hw hW hNlt (umul width height) hR e he
  exact ⟨h1, h2, hW⟩

/-- Invariant of the loop of `initialiseElements` on one node record, for any number `E`
of elements whose corner indices are computed without wraparound: after `k` iterations the
element list of the node is the list of the elements below `k` touching it. -/
theorem connectLoop_inv_of {width E : Nat} (hw : 0 < width)
    (hc : ∀ e, e < E → corners width e = cornerIndices width e) (ns : List (Node K))
    (n : Nat) (nd0 : Node K) (h0 : ns[n]? = some nd0) (hl : nd0.elements.length = 4)
    (hz : nd0.nElements = 0) (k : Nat) (hk : k ≤ E) :
    ∃ nd : Node K, (connectLoop width ns k)[n]? = some nd ∧ nd.elements.length = 4 ∧
      nd.nElements = (touching width n k).length ∧
      nd.elements.take nd.nElements = touching width n k := by
  induction k with
  | zero =>
    refine ⟨nd0, h0, hl, ?_, ?_⟩
    · simp [touching, hz]
    · simp [touching, hz]
  | succ k ih =>
    obtain ⟨nd, h1, h2, h3, h4⟩ := ih (by omega)
    have hle := touching_length_le width n (k + 1)
    simp only [connectLoop]
    rw [hc k (by omega), cornerIndices_eq, connectAll_getElem? _ _ _ _ _ _ hw h1,
      touching_succ]
    rw [touching_succ] at hle
    by_cases ht : touches width k n = true
    · rw [if_pos ((touches_iff width k n).mp ht)]
      simp only [ht, if_true, List.length_append, List.length_singleton] at hle ⊢
      have hu : uadd nd.nElements 1 = nd.nElements + 1 := uadd_of_lt (by omega)
      refine ⟨attach k nd, rfl, ?_, ?_, ?_⟩
      · simp [attach, h2]
      · show uadd nd.nElements 1 = _
        rw [hu, h3]
      · simp only [attach, hu]
        rw [take_succ_set _ _ _ (by omega), h4]
    · rw [if_neg (fun h => ht ((touches_iff width k n).mpr h)), if_neg ht,
        List.append_nil]
      exact ⟨nd, rfl, h2, h3, h4⟩

/-- The element list of node `n` of a mesh whose element loop reads `nodes` in range only:
its first `nElements` entries are the elements below the element count that have `n` as a
corner, in increasing order. -/
theorem construct_node_touching [Field K] (sqrtThree : K) (width height : Nat)
    (isPeriodic : Bool) (hw : 0 < width) (hw32 : width < 4294967296)
    (hdef : ∀ i j : Nat, i < (Mesh.construct sqrtThree width height isPeriodic).nElements →
      j < 4 → ∃ c : Nat,
        (Mesh.construct sqrtThree width height isPeriodic).cornerNode i j = some c ∧
        c < (Mesh.construct sqrtThree width height isPeriodic).nNodes)
    (n : Nat) (hlt : n < umul (uadd 1 width) (uadd 1 height)) :
    ∃ nd : Node K, (Mesh.construct sqrtThree width height isPeriodic).nodes[n]? = some nd ∧
      nd.elements.length = 4 ∧
      nd.nElements = (touching width n (umul width height)).length ∧
      nd.elements.take nd.nElements = touching width n (umul width height) := by
  have h0 := afterNodes_nodes (K := K) width height isPeriodic n hlt
  rw [construct_nodes]
  exact connectLoop_inv_of hw
    (fun e he => (construct_corner_facts sqrtThree width height isPeriodic hw hw32 hdef
      e he).1) _ n _ h0 rfl rfl _ (le_refl _)

/-- An element whose top-right corner index is below `N` has exactly four corner nodes
among the first `N` nodes. -/
theorem card_touches_of {width N e : Nat} (hw : 0 < width)
    (hlt : e % width + 1 + (e / width + 1) * (width + 1) < N) :
    ((Finset.range N).filter (fun n => touches width e n = true)).card = 4 := by
  rw [Nat.add_mul, Nat.one_mul] at hlt
  have hset : (Finset.range N).filter (fun n => touches width e n = true) =
      {e % width + e / width * (width + 1), e % width + e / width * (width + 1) + 1,
        e % width + e / width * (width + 1) + (width + 1) + 1,
        e % width + e / width * (width + 1) + (width + 1)} := by
    ext n
    simp only [Finset.mem_filter, Finset.mem_range, touches_iff, Finset.mem_insert,
      Finset.mem_singleton]
    omega
  rw [hset, Finset.card_insert_of_not_mem, Finset.card_insert_of_not_mem,
    Finset.card_insert_of_not_mem, Finset.card_singleton]
  · simp only [Finset.mem_singleton]
    omega
  · simp only [Finset.mem_insert, Finset.mem_singleton]
    omega
  · simp only [Finset.mem_insert, Finset.mem_singleton]
    omega

/-- The element lists of the first `N` nodes together have four entries per element, when
the corner indices of the elements are below `N`. -/
theorem touching_total_of (width N E : Nat) (hw : 0 < width)
    (hlt : ∀ e, e < E → e % width + 1 + (e / width + 1) * (width + 1) < N)
    (k : Nat) (hk : k ≤ E) :
    Finset.sum (Finset.range N) (fun n => (touching width n k).length) = 4 * k := by
  induction k with
  | zero => simp [touching]
  | succ k ih =>
    have h4 := card_touches_of hw (hlt k (by omega))
    rw [Finset.card_filter] at h4
    have hstep : ∀ n, (touching width n (k + 1)).length =
        (touching width n k).length + (if touches width k n = true then 1 else 0) := by
      intro n
      rw [touching_succ, List.length_append]
      by_cases ht : touches width k n = true
      · rw [if_pos ht, if_pos ht]; rfl
      · rw [if_neg ht, if_neg ht]; rfl
    simp only [hstep]
    rw [Finset.sum_add_distrib, ih (by omega), h4]
    omega

/-- Without overflow of the node count, every read `nodes[elements[i].nodes[j]]` of the
element loop is in range. -/
theorem corner_reads_in_range [Field K] (sqrtThree : K) (width height : Nat)
    (isPeriodic : Bool) (hh : 0 < height) (hn : (width + 1) * (height + 1) < 4294967296)
    (i j : Nat) (hi : i < (Mesh.construct sqrtThree width height isPeriodic).nElements)
    (hj : j < 4) :
    ∃ c : Nat, (Mesh.construct sqrtThree width height isPeriodic).cornerNode i j = some c ∧
      c < (Mesh.construct sqrtThree width height isPeriodic).nNodes := by
  obtain ⟨-, -, hN, hE, -⟩ := construct_frame sqrtThree width height isPeriodic
  obtain ⟨-, -, -, e4, -⟩ := nowrap_facts hh hn
  rw [hE] at hi
  have hi' : i < width * height := by rw [← nElements_nowrap hn]; exact hi
  obtain ⟨hx, hy, hyW, hNeq⟩ := element_bounds hi'
  have hs : (i / width + 1) * (width + 1) = i / width * (width + 1) + (width + 1) := by
    rw [Nat.add_mul, Nat.one_mul]
  rw [construct_cornerNode_corners sqrtThree width height isPeriodic i hi j,
    corners_eq hh hn hi', hN, e4, cornerIndices, hs]
  have hj' : j = 0 ∨ j = 1 ∨ j = 2 ∨ j = 3 := by omega
  rcases hj' with rfl | rfl | rfl | rfl <;>
    simp only [List.getElem?_cons_zero, List.getElem?_cons_succ] <;>
    exact ⟨_, rfl, by omega⟩

/-- In the mesh of width 65536 and height 65537, whose element count `65536*65537` wraps
to 65536 and whose node count wraps to 196610, every read `nodes[elements[i].nodes[j]]` of
the element loop is in range: the constructor builds this mesh. -/
theorem wrapped_corner_reads_in_range [Field K] (sqrtThree : K) (isPeriodic : Bool)
    (i j : Nat) (hi : i < (Mesh.construct sqrtThree 65536 65537 isPeriodic).nElements)
    (hj : j < 4) :
    ∃ c : Nat, (Mesh.construct sqrtThree 65536 65537 isPeriodic).cornerNode i j = some c ∧
      c < (Mesh.construct sqrtThree 65536 65537 isPeriodic).nNodes := by
  obtain ⟨-, -, hN, hE, -⟩ := construct_frame sqrtThree 65536 65537 isPeriodic
  have hEv : umul 65536 65537 = 65536 := by decide
  have hNv : umul (uadd 1 65536) (uadd 1 65537) = 196610 := by decide
  rw [hE] at hi
  rw [construct_cornerNode_corners sqrtThree 65536 65537 isPeriodic i hi j, hN, hNv]
  rw [hEv] at hi
  have hm : i % 65536 = i := Nat.mod_eq_of_lt hi
  have hd : i / 65536 = 0 := Nat.div_eq_of_lt hi
  have hw1 : uadd 65536 1 = 65537 := by decide
  have h01 : uadd 0 1 = 1 := by decide
  have hz : umul 0 65537 = 0 := by decide
  have h1 : umul 1 65537 = 65537 := by decide
  have hi1 : uadd i 1 = i + 1 := uadd_of_lt (by omega)
  have ha : uadd i 0 = i := uadd_of_lt (by omega)
  have hb : uadd (i + 1) 0 = i + 1 := uadd_of_lt (by omega)
  have hc : uadd (i + 1) 65537 = i + 1 + 65537 := uadd_of_lt (by omega)
  have hd' : uadd i 65537 = i + 65537 := uadd_of_lt (by omega)
  unfold corners
  simp only [hm, hd, hw1, h01, hz, h1, hi1, ha, hb, hc, hd']
  have hj' : j = 0 ∨ j = 1 ∨ j = 2 ∨ j = 3 := by omega
  rcases hj' with rfl | rfl | rfl | rfl <;>
    simp only [List.getElem?_cons_zero, List.getElem?_cons_succ] <;>
    exact ⟨_, rfl, by omega⟩

/-- The stored coordinates of node `x + y*w` are `(x, y)`, for any valid node index of
that form. -/
theorem construct_node_coord_of [Field K] (sqrtThree : K) (width height : Nat)
    (isPeriodic : Bool) (hW : width + 1 < 4294967296) (x y : Nat) (hx : x < width + 1)
    (hlt : x + y * (width + 1) < umul (uadd 1 width) (uadd 1 height)) :
    ((Mesh.construct sqrtThree width height isPeriodic).nodes[x + y * (width + 1)]?).map
      (fun nd => nd.coord) = some ⟨(x : K), (y : K)⟩ := by
  have e1 : uadd width 1 = width + 1 := uadd_of_lt hW
  obtain ⟨nd, h1, h2, -, -⟩ := construct_node_geometry sqrtThree width height isPeriodic
    (x + y * (width + 1)) hlt
  obtain ⟨hm, hd⟩ := add_mul_mod_div (b := y) hx
  rw [h1, Option.map_some', h2, e1, hm, hd]

/-- C7: in every mesh with positive width and height that the constructor builds, that is,
whose element loop reads `nodes[elements[i].nodes[j]]` in range only, the stored
coordinates of the corner nodes `nodes[0..3]` of an element with centre `(cx, cy)` are
`(cx-0.5, cy-0.5)`, `(cx+0.5, cy-0.5)`, `(cx+0.5, cy+0.5)`, `(cx-0.5, cy+0.5)`:
bottom-left, bottom-right, top-right, top-left of its unit cell; the centre of element `i`
is `(i mod width + 0.5, i div width + 0.5)`.  The element and node counts may have
wrapped. -/
theorem corner_node_coordinates [Field K] [CharZero K] (sqrtThree : K) (width height : Nat)
    (isPeriodic : Bool) (hw : 0 < width) (_hh : 0 < height) (hw32 : width < 4294967296)
    (hdef : ∀ i j : Nat, i < (Mesh.construct sqrtThree width height isPeriodic).nElements →
      j < 4 → ∃ c : Nat,
        (Mesh.construct sqrtThree width height isPeriodic).cornerNode i j = some c ∧
        c < (Mesh.construct sqrtThree width height isPeriodic).nNodes)
    (i : Nat) (hi : i < (Mesh.construct sqrtThree width height isPeriodic).nElements) :
    ∃ c : Coord K,
      (Mesh.construct sqrtThree width height isPeriodic).centre i = some c ∧
      c = ⟨((i % width : Nat) : K) + 0.5, ((i / width : Nat) : K) + 0.5⟩ ∧
      (Mesh.construct sqrtThree width height isPeriodic).cornerCoord i 0
        = some ⟨c.x - 0.5, c.y - 0.5⟩ ∧
      (Mesh.construct sqrtThree width height isPeriodic).cornerCoord i 1
        = some ⟨c.x + 0.5, c.y - 0.5⟩ ∧
      (Mesh.construct sqrtThree width height isPeriodic).cornerCoord i 2
        = some ⟨c.x + 0.5, c.y + 0.5⟩ ∧
      (Mesh.construct sqrtThree width height isPeriodic).cornerCoord i 3
        = some ⟨c.x - 0.5, c.y + 0.5⟩ := by
  obtain ⟨-, -, -, hE, -⟩ := construct_frame sqrtThree width height isPeriodic
  have hi' : i < umul width height := by rw [← hE]; exact hi
  obtain ⟨hc, hlt, hW⟩ :=
    construct_corner_facts sqrtThree width height isPeriodic hw hw32 hdef i hi'
  have hx : i % width < width := Nat.mod_lt _ hw
  have hel := construct_element sqrtThree width height isPeriodic i hi'
  have hnodes : (elementStep (1 / sqrtThree) width i (Element.zero (K := K))).nodes
      = cornerIndices width i := hc
  have hhalf : (0.5 : K) + 0.5 = 1 := by norm_num
  have hcoord := construct_node_coord_of sqrtThree width height isPeriodic hW
  have hs : (i / width + 1) * (width + 1) = i / width * (width + 1) + (width + 1) := by
    rw [Nat.add_mul, Nat.one_mul]
  rw [hs] at hlt
  refine ⟨⟨((i % width : Nat) : K) + 0.5, ((i / width : Nat) : K) + 0.5⟩, ?_, rfl, ?_, ?_, ?_, ?_⟩
  · unfold Mesh.centre
    rw [hel]
    rfl
  · unfold Mesh.cornerCoord
    rw [hel, Option.some_bind, hnodes]
    simp only [cornerIndices, List.getElem?_cons_zero, Option.some_bind]
    rw [hcoord _ _ (by omega) (by omega)]
    simp only [add_sub_cancel_right]
  · unfold Mesh.cornerCoord
    rw [hel, Option.some_bind, hnodes]
    simp only [cornerIndices, List.getElem?_cons_succ, List.getElem?_cons_zero,
      Option.some_bind]
    rw [hcoord _ _ (by omega) (by omega)]
    simp only [add_sub_cancel_right, add_assoc, hhalf, Nat.cast_add, Nat.cast_one]
  · unfold Mesh.cornerCoord
    rw [hel, Option.some_bind, hnodes]
    simp only [cornerIndices, List.getElem?_cons_succ, List.getElem?_cons_zero,
      Option.some_bind]
    rw [hcoord _ _ (by omega) (by rw [Nat.add_mul, Nat.one_mul]; omega)]
    simp only [add_assoc, hhalf, Nat.cast_add, Nat.cast_one]
  · unfold Mesh.cornerCoord
    rw [hel, Option.some_bind, hnodes]
    simp only [cornerIndices, List.getElem?_cons_succ, List.getElem?_cons_zero,
      Option.some_bind]
    rw [hcoord _ _ (by omega) (by rw [Nat.add_mul, Nat.one_mul]; omega)]
    simp only [add_sub_cancel_right, add_assoc, hhalf, Nat.cast_add, Nat.cast_one]

/-- Witness for C7: element 3 of the non-periodic mesh of width 2 and height 2, and element
65535 of the mesh of width 65536 and height 65537, whose element and node counts wrap. -/
theorem corner_node_coordinates_witness :
    ((0 < 2 ∧ 0 < 2 ∧ 2 < 4294967296 ∧
      (∀ i j : Nat, i < (Mesh.construct sqrtThreeQ 2 2 false).nElements → j < 4 →
        ∃ c : Nat, (Mesh.construct sqrtThreeQ 2 2 false).cornerNode i j = some c ∧
          c < (Mesh.construct sqrtThreeQ 2 2 false).nNodes) ∧
      3 < (Mesh.construct sqrtThreeQ 2 2 false).nElements) ∧
    ∃ c : Coord ℚ,
      (Mesh.construct sqrtThreeQ 2 2 false).centre 3 = some c ∧
      c = ⟨((3 % 2 : Nat) : ℚ) + 0.5, ((3 / 2 : Nat) : ℚ) + 0.5⟩ ∧
      (Mesh.construct sqrtThreeQ 2 2 false).cornerCoord 3 0 = some ⟨c.x - 0.5, c.y - 0.5⟩ ∧
      (Mesh.construct sqrtThreeQ 2 2 false).cornerCoord 3 1 = some ⟨c.x + 0.5, c.y - 0.5⟩ ∧
      (Mesh.construct sqrtThreeQ 2 2 false).cornerCoord 3 2 = some ⟨c.x + 0.5, c.y + 0.5⟩ ∧
      (Mesh.construct sqrtThreeQ 2 2 false).cornerCoord 3 3 = some ⟨c.x - 0.5, c.y + 0.5⟩) ∧
    ((0 < 65536 ∧ 0 < 65537 ∧ 65536 < 4294967296 ∧
      (∀ i j : Nat, i < (Mesh.construct sqrtThreeQ 65536 65537 false).nElements → j < 4 →
        ∃ c : Nat, (Mesh.construct sqrtThreeQ 65536 65537 false).cornerNode i j = some c ∧
          c < (Mesh.construct sqrtThreeQ 65536 65537 false).nNodes) ∧
      65535 < (Mesh.construct sqrtThreeQ 65536 65537 false).nElements) ∧
    ∃ c : Coord ℚ,
      (Mesh.construct sqrtThreeQ 65536 65537 false).centre 65535 = some c ∧
      c = ⟨((65535 % 65536 : Nat) : ℚ) + 0.5, ((65535 / 65536 : Nat) : ℚ) + 0.5⟩ ∧
      (Mesh.construct sqrtThreeQ 65536 65537 false).cornerCoord 65535 0
        = some ⟨c.x - 0.5, c.y - 0.5⟩ ∧
      (Mesh.construct sqrtThreeQ 65536 65537 false).cornerCoord 65535 1
        = some ⟨c.x + 0.5, c.y - 0.5⟩ ∧
      (Mesh.construct sqrtThreeQ 65536 65537 false).cornerCoord 65535 2
        = some ⟨c.x + 0.5, c.y + 0.5⟩ ∧
      (Mesh.construct sqrtThreeQ 65536 65537 false).cornerCoord 65535 3
        = some ⟨c.x - 0.5, c.y + 0.5⟩) :=
  have hi : 3 < (Mesh.construct sqrtThreeQ 2 2 false).nElements := by
    rw [(construct_frame sqrtThreeQ 2 2 false).2.2.2.1]; decide
  have hi' : 65535 < (Mesh.construct sqrtThreeQ 65536 65537 false).nElements := by
    rw [(construct_frame sqrtThreeQ 65536 65537 false).2.2.2.1]; decide
  ⟨⟨⟨by decide, by decide, by decide,
      corner_reads_in_range sqrtThreeQ 2 2 false (by decide) (by decide), hi⟩,
    corner_node_coordinates sqrtThreeQ 2 2 false (by decide) (by decide) (by decide)
      (corner_reads_in_range sqrtThreeQ 2 2 false (by decide) (by decide)) 3 hi⟩,
   ⟨⟨by decide, by decide, by decide, wrapped_corner_reads_in_range sqrtThreeQ false, hi'⟩,
    corner_node_coordinates sqrtThreeQ 65536 65537 false (by decide) (by decide) (by decide)
      (wrapped_corner_reads_in_range sqrtThreeQ false) 65535 hi'⟩⟩

/-- C8: in every mesh with positive width and height that the constructor builds, that is,
whose element loop reads `nodes[elements[i].nodes[j]]` in range only, node `n` lists
element `e` among its first `nElements` entries exactly when `n` is one of the four corner
nodes of `e`, and lists it at most once.  The element and node counts may have wrapped. -/
theorem reverse_connectivity [Field K] (sqrtThree : K) (width height : Nat)
    (isPeriodic : Bool) (hw : 0 < width) (_hh : 0 < height) (hw32 : width < 4294967296)
    (hdef : ∀ i j : Nat, i < (Mesh.construct sqrtThree width height isPeriodic).nElements →
      j < 4 → ∃ c : Nat,
        (Mesh.construct sqrtThree width height isPeriodic).cornerNode i j = some c ∧
        c < (Mesh.construct sqrtThree width height isPeriodic).nNodes)
    (n e : Nat)
    (hnlt : n < (Mesh.construct sqrtThree width height isPeriodic).nNodes)
    (he : e < (Mesh.construct sqrtThree width height isPeriodic).nElements) :
    ∃ l cs : List Nat,
      (Mesh.construct sqrtThree width height isPeriodic).nodeElements n = some l ∧
      ((Mesh.construct sqrtThree width height isPeriodic).elements[e]?).map (fun el => el.nodes)
        = some cs ∧
      cs.length = 4 ∧ (e ∈ l ↔ n ∈ cs) ∧ l.count e ≤ 1 := by
  obtain ⟨-, -, hN, hE, -⟩ := construct_frame sqrtThree width height isPeriodic
  have hnlt' : n < umul (uadd 1 width) (uadd 1 height) := by rw [← hN]; exact hnlt
  have he' : e < umul width height := by rw [← hE]; exact he
  obtain ⟨hc, -, -⟩ :=
    construct_corner_facts sqrtThree width height isPeriodic hw hw32 hdef e he'
  obtain ⟨nd, h1, -, -, h4⟩ :=
    construct_node_touching sqrtThree width height isPeriodic hw hw32 hdef n hnlt'
  refine ⟨touching width n (umul width height), cornerIndices width e, ?_, ?_, rfl, ?_, ?_⟩
  · unfold Mesh.nodeElements
    rw [h1, Option.map_some', h4]
  · rw [construct_element sqrtThree width height isPeriodic e he']
    simp only [Option.map_some', Option.some.injEq]
    exact hc
  · rw [mem_touching]
    exact ⟨fun h => h.2, fun h => ⟨he', h⟩⟩
  · exact List.nodup_iff_count_le_one.mp
      (List.Nodup.filter _ (List.nodup_range (umul width height))) e

/-- Witness for C8: node 4 and element 0 of the non-periodic mesh of width 2 and height 2,
and node 65538 and element 1 of the mesh of width 65536 and height 65537, whose element and
node counts wrap. -/
theorem reverse_connectivity_witness :
    ((0 < 2 ∧ 0 < 2 ∧ 2 < 4294967296 ∧
      (∀ i j : Nat, i < (Mesh.construct sqrtThreeQ 2 2 false).nElements → j < 4 →
        ∃ c : Nat, (Mesh.construct sqrtThreeQ 2 2 false).cornerNode i j = some c ∧
          c < (Mesh.construct sqrtThreeQ 2 2 false).nNodes) ∧
      4 < (Mesh.construct sqrtThreeQ 2 2 false).nNodes ∧
      0 < (Mesh.construct sqrtThreeQ 2 2 false).nElements) ∧
    ∃ l cs : List Nat,
      (Mesh.construct sqrtThreeQ 2 2 false).nodeElements 4 = some l ∧
      ((Mesh.construct sqrtThreeQ 2 2 false).elements[0]?).map (fun el => el.nodes)
        = some cs ∧
      cs.length = 4 ∧ (0 ∈ l ↔ 4 ∈ cs) ∧ l.count 0 ≤ 1) ∧
    ((0 < 65536 ∧ 0 < 65537 ∧ 65536 < 4294967296 ∧
      (∀ i j : Nat, i < (Mesh.construct sqrtThreeQ 65536 65537 false).nElements → j < 4 →
        ∃ c : Nat, (Mesh.construct sqrtThreeQ 65536 65537 false).cornerNode i j = some c ∧
          c < (Mesh.construct sqrtThreeQ 65536 65537 false).nNodes) ∧
      65538 < (Mesh.construct sqrtThreeQ 65536 65537 false).nNodes ∧
      1 < (Mesh.construct sqrtThreeQ 65536 65537 false).nElements) ∧
    ∃ l cs : List Nat,
      (Mesh.construct sqrtThreeQ 65536 65537 false).nodeElements 65538 = some l ∧
      ((Mesh.construct sqrtThreeQ 65536 65537 false).elements[1]?).map (fun el => el.nodes)
        = some cs ∧
      cs.length = 4 ∧ (1 ∈ l ↔ 65538 ∈ cs) ∧ l.count 1 ≤ 1) :=
  have hn : 4 < (Mesh.construct sqrtThreeQ 2 2 false).nNodes := by
    rw [(construct_frame sqrtThreeQ 2 2 false).2.2.1]; decide
  have he : 0 < (Mesh.construct sqrtThreeQ 2 2 false).nElements := by
    rw [(construct_frame sqrtThreeQ 2 2 false).2.2.2.1]; decide
  have hn' : 65538 < (Mesh.construct sqrtThreeQ 65536 65537 false).nNodes := by
    rw [(construct_frame sqrtThreeQ 65536 65537 false).2.2.1]; decide
  have he' : 1 < (Mesh.construct sqrtThreeQ 65536 65537 false).nElements := by
    rw [(construct_frame sqrtThreeQ 65536 65537 false).2.2.2.1]; decide
  ⟨⟨⟨by decide, by decide, by decide,
      corner_reads_in_range sqrtThreeQ 2 2 false (by decide) (by decide), hn, he⟩,
    reverse_connectivity sqrtThreeQ 2 2 false (by decide) (by decide) (by decide)
      (corner_reads_in_range sqrtThreeQ 2 2 false (by decide) (by decide)) 4 0 hn he⟩,
   ⟨⟨by decide, by decide, by decide, wrapped_corner_reads_in_range sqrtThreeQ false,
      hn', he'⟩,
    reverse_connectivity sqrtThreeQ 65536 65537 false (by decide) (by decide) (by decide)
      (wrapped_corner_reads_in_range sqrtThreeQ false) 65538 1 hn' he'⟩⟩

/-- C10: in every mesh with positive width and height that the constructor builds, that
is, whose element loop reads `nodes[elements[i].nodes[j]]` in range only, the first
`nElements` entries of the element list of every node are in strictly increasing order of
element index.  The element and node counts may have wrapped. -/
theorem node_elements_increasing [Field K] (sqrtThree : K) (width height : Nat)
    (isPeriodic : Bool) (hw : 0 < width) (_hh : 0 < height) (hw32 : width < 4294967296)
    (hdef : ∀ i j : Nat, i < (Mesh.construct sqrtThree width height isPeriodic).nElements →
      j < 4 → ∃ c : Nat,
        (Mesh.construct sqrtThree width height isPeriodic).cornerNode i j = some c ∧
        c < (Mesh.construct sqrtThree width height isPeriodic).nNodes)
    (n : Nat)
    (hnlt : n < (Mesh.construct sqrtThree width height isPeriodic).nNodes) :
    ∃ l : List Nat,
      (Mesh.construct sqrtThree width height isPeriodic).nodeElements n = some l ∧
      l.Pairwise (fun a b => a < b) := by
  obtain ⟨-, -, hN, -, -⟩ := construct_frame sqrtThree width height isPeriodic
  have hnlt' : n < umul (uadd 1 width) (uadd 1 height) := by rw [← hN]; exact hnlt
  obtain ⟨nd, h1, -, -, h4⟩ :=
    construct_node_touching sqrtThree width height isPeriodic hw hw32 hdef n hnlt'
  refine ⟨touching width n (umul width height), ?_,
    List.Pairwise.filter _ (List.pairwise_lt_range (umul width height))⟩
  unfold Mesh.nodeElements
  rw [h1, Option.map_some', h4]

/-- Witness for C10: node 4 of the non-periodic mesh of width 2 and height 2, and node
65538 of the mesh of width 65536 and height 65537, whose element and node counts wrap. -/
theorem node_elements_increasing_witness :
    ((0 < 2 ∧ 0 < 2 ∧ 2 < 4294967296 ∧
      (∀ i j : Nat, i < (Mesh.construct sqrtThreeQ 2 2 false).nElements → j < 4 →
        ∃ c : Nat, (Mesh.construct sqrtThreeQ 2 2 false).cornerNode i j = some c ∧
          c < (Mesh.construct sqrtThreeQ 2 2 false).nNodes) ∧
      4 < (Mesh.construct sqrtThreeQ 2 2 false).nNodes) ∧
    ∃ l : List Nat,
      (Mesh.construct sqrtThreeQ 2 2 false).nodeElements 4 = some l ∧
      l.Pairwise (fun a b => a < b)) ∧
    ((0 < 65536 ∧ 0 < 65537 ∧ 65536 < 4294967296 ∧
      (∀ i j : Nat, i < (Mesh.construct sqrtThreeQ 65536 65537 false).nElements → j < 4 →
        ∃ c : Nat, (Mesh.construct sqrtThreeQ 65536 65537 false).cornerNode i j = some c ∧
          c < (Mesh.construct sqrtThreeQ 65536 65537 false).nNodes) ∧
      65538 < (Mesh.construct sqrtThreeQ 65536 65537 false).nNodes) ∧
    ∃ l : List Nat,
      (Mesh.construct sqrtThreeQ 65536 65537 false).nodeElements 65538 = some l ∧
      l.Pairwise (fun a b => a < b)) :=
  have hn : 4 < (Mesh.construct sqrtThreeQ 2 2 false).nNodes := by
    rw [(construct_frame sqrtThreeQ 2 2 false).2.2.1]; decide
  have hn' : 65538 < (Mesh.construct sqrtThreeQ 65536 65537 false).nNodes := by
    rw [(construct_frame sqrtThreeQ 65536 65537 false).2.2.1]; decide
  ⟨⟨⟨by decide, by decide, by decide,
      corner_reads_in_range sqrtThreeQ 2 2 false (by decide) (by decide), hn⟩,
    node_elements_increasing sqrtThreeQ 2 2 false (by decide) (by decide) (by decide)
      (corner_reads_in_range sqrtThreeQ 2 2 false (by decide) (by decide)) 4 hn⟩,
   ⟨⟨by decide, by decide, by decide, wrapped_corner_reads_in_range sqrtThreeQ false, hn'⟩,
    node_elements_increasing sqrtThreeQ 65536 65537 false (by decide) (by decide)
      (by decide) (wrapped_corner_reads_in_range sqrtThreeQ false) 65538 hn'⟩⟩

/-- C9: in every mesh with positive width and height that the constructor builds, that is,
whose element loop reads `nodes[elements[i].nodes[j]]` in range only, periodic or not, the
element counts `nElements` of all nodes sum to four times the number of elements.  The
element and node counts may have wrapped. -/
theorem sum_node_element_counts [Field K] (sqrtThree : K) (width height : Nat)
    (isPeriodic : Bool) (hw : 0 < width) (_hh : 0 < height) (hw32 : width < 4294967296)
    (hdef : ∀ i j : Nat, i < (Mesh.construct sqrtThree width height isPeriodic).nElements →
      j < 4 → ∃ c : Nat,
        (Mesh.construct sqrtThree width height isPeriodic).cornerNode i j = some c ∧
        c < (Mesh.construct sqrtThree width height isPeriodic).nNodes) :
    ((Mesh.construct sqrtThree width height isPeriodic).nodes.map
      (fun nd => nd.nElements)).sum
      = 4 * (Mesh.construct sqrtThree width height isPeriodic).nElements := by
  obtain ⟨-, -, -, hE, -⟩ := construct_frame sqrtThree width height isPeriodic
  have hlen := construct_nodes_length sqrtThree width height isPeriodic
  have hmap : (Mesh.construct sqrtThree width height isPeriodic).nodes.map
      (fun nd => nd.nElements) =
      (List.range (umul (uadd 1 width) (uadd 1 height))).map
        (fun n => (touching width n (umul width height)).length) := by
    apply List.ext_getElem?
    intro n
    rw [List.getElem?_map, List.getElem?_map]
    by_cases hlt : n < umul (uadd 1 width) (uadd 1 height)
    · obtain ⟨nd, h1, -, h3, -⟩ :=
        construct_node_touching sqrtThree width height isPeriodic hw hw32 hdef n hlt
      rw [h1, List.getElem?_range hlt, Option.map_some', Option.map_some', h3]
    · rw [List.getElem?_eq_none (by omega), List.getElem?_eq_none (by simp; omega)]
      rfl
  rw [hmap, sum_map_range, touching_total_of width _ (umul width height) hw
    (fun e he => (construct_corner_facts sqrtThree width height isPeriodic hw hw32 hdef
      e he).2.1) _ (le_refl _), hE]

/-- Witness for C9: the periodic mesh of width 2 and height 1, and the mesh of width 65536
and height 65537, whose element and node counts wrap. -/
theorem sum_node_element_counts_witness :
    ((0 < 2 ∧ 0 < 1 ∧ 2 < 4294967296 ∧
      (∀ i j : Nat, i < (Mesh.construct sqrtThreeQ 2 1 true).nElements → j < 4 →
        ∃ c : Nat, (Mesh.construct sqrtThreeQ 2 1 true).cornerNode i j = some c ∧
          c < (Mesh.construct sqrtThreeQ 2 1 true).nNodes)) ∧
    ((Mesh.construct sqrtThreeQ 2 1 true).nodes.map (fun nd => nd.nElements)).sum
      = 4 * (Mesh.construct sqrtThreeQ 2 1 true).nElements) ∧
    ((0 < 65536 ∧ 0 < 65537 ∧ 65536 < 4294967296 ∧
      (∀ i j : Nat, i < (Mesh.construct sqrtThreeQ 65536 65537 false).nElements → j < 4 →
        ∃ c : Nat, (Mesh.construct sqrtThreeQ 65536 65537 false).cornerNode i j = some c ∧
          c < (Mesh.construct sqrtThreeQ 65536 65537 false).nNodes)) ∧
    ((Mesh.construct sqrtThreeQ 65536 65537 false).nodes.map (fun nd => nd.nElements)).sum
      = 4 * (Mesh.construct sqrtThreeQ 65536 65537 false).nElements) :=
  ⟨⟨⟨by decide, by decide, by decide,
      corner_reads_in_range sqrtThreeQ 2 1 true (by decide) (by decide)⟩,
    sum_node_element_counts sqrtThreeQ 2 1 true (by decide) (by decide) (by decide)
      (corner_reads_in_range sqrtThreeQ 2 1 true (by decide) (by decide))⟩,
   ⟨⟨by decide, by decide, by decide, wrapped_corner_reads_in_range sqrtThreeQ false⟩,
    sum_node_element_counts sqrtThreeQ 65536 65537 false (by decide) (by decide)
      (by decide) (wrapped_corner_reads_in_range sqrtThreeQ false)⟩⟩

/-! ## Sizes -/

theorem construct_elements_length [Field K] (sqrtThree : K) (width_ height_ : Nat)
    (isPeriodic_ : Bool) :
    (Mesh.construct sqrtThree width_ height_ isPeriodic_).elements.length =
      umul width_ height_ := by
  obtain ⟨-, -, -, -, -, h6⟩ := afterNodes_frame (K := K) width_ height_ isPeriodic_
  rw [construct_eq]
  have h := forLoop_preserves (Mesh.initialiseElementsBody (1 / sqrtThree))
    (fun m : Mesh K => m.elements.length)
    (fun i s => by
      show (Mesh.initialiseElementsBody (1 / sqrtThree) i s).elements.length = s.elements.length
      rw [initialiseElementsBody_elements, List.length_modify])
    (Mesh.afterNodes width_ height_ isPeriodic_) (umul width_ height_)
  simp only at h
  rw [h, h6, List.length_replicate]

/-- C15: for positive width and height whose node count fits `unsigned int`, periodic or
not, the constructed mesh has `nElements == width*height` and
`nNodes == (width+1)*(height+1)`, and its element and node vectors have exactly `nElements`
and `nNodes` entries. -/
theorem mesh_sizes [Field K] (sqrtThree : K) (width height : Nat) (isPeriodic : Bool)
    (_hw : 0 < width) (hh : 0 < height) (hn : (width + 1) * (height + 1) < 4294967296) :
    (Mesh.construct sqrtThree width height isPeriodic).nElements = width * height ∧
    (Mesh.construct sqrtThree width height isPeriodic).nNodes = (width + 1) * (height + 1) ∧
    (Mesh.construct sqrtThree width height isPeriodic).elements.length
      = (Mesh.construct sqrtThree width height isPeriodic).nElements ∧
    (Mesh.construct sqrtThree width height isPeriodic).nodes.length
      = (Mesh.construct sqrtThree width height isPeriodic).nNodes := by
  obtain ⟨-, -, hN, hE, -⟩ := construct_frame sqrtThree width height isPeriodic
  obtain ⟨-, -, -, e4, -⟩ := nowrap_facts hh hn
  rw [hN, hE, e4, nElements_nowrap hn, construct_elements_length, construct_nodes_length, e4,
    nElements_nowrap hn]
  exact ⟨rfl, rfl, rfl, rfl⟩

/-- Witness for C15: the periodic mesh of width 2 and height 3. -/
theorem mesh_sizes_witness :
    (0 < 2 ∧ 0 < 3 ∧ (2 + 1) * (3 + 1) < 4294967296) ∧
    ((Mesh.construct sqrtThreeQ 2 3 true).nElements = 2 * 3 ∧
    (Mesh.construct sqrtThreeQ 2 3 true).nNodes = (2 + 1) * (3 + 1) ∧
    (Mesh.construct sqrtThreeQ 2 3 true).elements.length
      = (Mesh.construct sqrtThreeQ 2 3 true).nElements ∧
    (Mesh.construct sqrtThreeQ 2 3 true).nodes.length
      = (Mesh.construct sqrtThreeQ 2 3 true).nNodes) :=
  ⟨⟨by decide, by decide, by decide⟩,
    mesh_sizes sqrtThreeQ 2 3 true (by decide) (by decide) (by decide)⟩

/-! ## Boundary flag -/

/-- The wrapped column count is the true one unless the mesh has no nodes. -/
theorem uadd_width_one {width height j : Nat} (hw32 : width < 4294967296)
    (hj : j < umul (uadd 1 width) (uadd 1 height)) : uadd width 1 = width + 1 := by
  by_cases hov : width + 1 < 4294967296
  · exact uadd_of_lt hov
  · exfalso
    have hW : uadd 1 width = 0 := by
      have : width = 4294967295 := by omega
      subst this
      decide
    rw [hW] at hj
    simp [umul] at hj

/-- C16: node `i` at grid `(x, y) = (i mod (width+1), i div (width+1))` has `isDomain` set
exactly when `x == 0`, `x == width`, `y == 0` or `y == height`, and the flag is the same in
the periodic and the non-periodic mesh of the same width and height. -/
theorem domain_flag [Field K] (sqrtThree : K) (width height : Nat) (isPeriodic : Bool)
    (_hw : 0 < width) (_hh : 0 < height) (hw32 : width < 4294967296) (i : Nat)
    (hi : i < (Mesh.construct sqrtThree width height isPeriodic).nNodes) :
    (∃ b : Bool, (Mesh.construct sqrtThree width height isPeriodic).nodeIsDomain i = some b ∧
      (b = true ↔ (i % (width + 1) = 0 ∨ i % (width + 1) = width ∨
        i / (width + 1) = 0 ∨ i / (width + 1) = height))) ∧
    (Mesh.construct sqrtThree width height true).nodeIsDomain i
      = (Mesh.construct sqrtThree width height false).nodeIsDomain i := by
  obtain ⟨-, -, hN, -, -⟩ := construct_frame sqrtThree width height isPeriodic
  rw [hN] at hi
  have hW := uadd_width_one hw32 hi
  obtain ⟨nd, h1, -, -, h2⟩ := construct_node_geometry sqrtThree width height isPeriodic i hi
  obtain ⟨ndT, t1, -, -, t2⟩ := construct_node_geometry sqrtThree width height true i hi
  obtain ⟨ndF, f1, -, -, f2⟩ := construct_node_geometry sqrtThree width height false i hi
  rw [hW] at h2 t2 f2
  unfold Mesh.nodeIsDomain
  rw [h1, t1, f1]
  simp only [Option.map_some', Option.some.injEq]
  refine ⟨⟨_, rfl, ?_⟩, ?_⟩
  · rw [h2, decide_eq_true_iff]
  · rw [t2, f2]

/-- Witness for C16: node 4 of the meshes of width 2 and height 2. -/
theorem domain_flag_witness :
    (0 < 2 ∧ 0 < 2 ∧ 2 < 4294967296 ∧ 4 < (Mesh.construct sqrtThreeQ 2 2 true).nNodes) ∧
    ((∃ b : Bool, (Mesh.construct sqrtThreeQ 2 2 true).nodeIsDomain 4 = some b ∧
      (b = true ↔ (4 % (2 + 1) = 0 ∨ 4 % (2 + 1) = 2 ∨
        4 / (2 + 1) = 0 ∨ 4 / (2 + 1) = 2))) ∧
    (Mesh.construct sqrtThreeQ 2 2 true).nodeIsDomain 4
      = (Mesh.construct sqrtThreeQ 2 2 false).nodeIsDomain 4) :=
  have hi : 4 < (Mesh.construct sqrtThreeQ 2 2 true).nNodes := by
    rw [(construct_frame sqrtThreeQ 2 2 true).2.2.1]; decide
  ⟨⟨by decide, by decide, by decide, hi⟩,
    domain_flag sqrtThreeQ 2 2 true (by decide) (by decide) (by decide) 4 hi⟩

/-! ## Neighbour links -/

/-- C19 (code defect): neighbour links are not mutually inverse in the vertical
direction.  In the periodic mesh of width 2 and height 1 (6 nodes) the down neighbour of
node 1 is 7: it is not the sentinel 6 and not a node index.  In the non-periodic mesh of
width 1 and height 3 (8 nodes) the down neighbour of node 6 is node 0, whose up neighbour
is node 2 and not node 6. -/
theorem vertical_links_not_inverse [Field K] (sqrtThree : K) :
    ((Mesh.construct sqrtThree 2 1 true).nNodes = 6 ∧
      (Mesh.construct sqrtThree 2 1 true).neighbour 1 2 = some 7) ∧
    ((Mesh.construct sqrtThree 1 3 false).nNodes = 8 ∧
      (Mesh.construct sqrtThree 1 3 false).neighbour 6 2 = some 0 ∧
      (Mesh.construct sqrtThree 1 3 false).neighbour 0 3 = some 2) := by
  obtain ⟨-, -, hn, -, -⟩ := construct_frame sqrtThree 2 1 true
  obtain ⟨-, -, hn', -, -⟩ := construct_frame sqrtThree 1 3 false
  obtain ⟨-, -, h2, -⟩ := construct_neighbour sqrtThree 2 1 true 1 (by decide)
  obtain ⟨-, -, h3, -⟩ := construct_neighbour sqrtThree 1 3 false 6 (by decide)
  obtain ⟨-, -, -, h4⟩ := construct_neighbour sqrtThree 1 3 false 0 (by decide)
  rw [hn, hn', h2, h3, h4]
  exact ⟨⟨by decide, by decide⟩, by decide, by decide, by decide⟩

/-- C20: in a non-periodic mesh with positive width and height and no overflow of the node
count, every neighbour slot of every node holds either the sentinel `nNodes` or a node
index below `nNodes`, and it holds the sentinel only when the node lies on the matching
domain edge (left: `x == 0`, right: `x == width`, down: `y == 0`, up: `y == height`), where
`(x, y) = (j mod (width+1), j div (width+1))`. -/
theorem nonperiodic_slots_in_range [Field K] (sqrtThree : K) (width height : Nat)
    (hw : 0 < width) (hh : 0 < height) (hn : (width + 1) * (height + 1) < 4294967296)
    (j : Nat) (hj : j < (Mesh.construct sqrtThree width height false).nNodes) :
    (∃ v : Nat, (Mesh.construct sqrtThree width height false).neighbour j 0 = some v ∧
      (v = (Mesh.construct sqrtThree width height false).nNodes ∨
        v < (Mesh.construct sqrtThree width height false).nNodes) ∧
      (v = (Mesh.construct sqrtThree width height false).nNodes → j % (width + 1) = 0)) ∧
    (∃ v : Nat, (Mesh.construct sqrtThree width height false).neighbour j 1 = some v ∧
      (v = (Mesh.construct sqrtThree width height false).nNodes ∨
        v < (Mesh.construct sqrtThree width height false).nNodes) ∧
      (v = (Mesh.construct sqrtThree width height false).nNodes → j % (width + 1) = width)) ∧
    (∃ v : Nat, (Mesh.construct sqrtThree width height false).neighbour j 2 = some v ∧
      (v = (Mesh.construct sqrtThree width height false).nNodes ∨
        v < (Mesh.construct sqrtThree width height false).nNodes) ∧
      (v = (Mesh.construct sqrtThree width height false).nNodes → j / (width + 1) = 0)) ∧
    (∃ v : Nat, (Mesh.construct sqrtThree width height false).neighbour j 3 = some v ∧
      (v = (Mesh.construct sqrtThree width height false).nNodes ∨
        v < (Mesh.construct sqrtThree width height false).nNodes) ∧
      (v = (Mesh.construct sqrtThree width height false).nNodes →
        j / (width + 1) = height)) := by
  obtain ⟨-, -, hN, -, -⟩ := construct_frame sqrtThree width height false
  obtain ⟨e1, e2, e3, e4, h2w⟩ := nowrap_facts hh hn
  rw [hN] at hj ⊢
  obtain ⟨h0, h1, h2, h3⟩ := construct_neighbour sqrtThree width height false j hj
  rw [e4] at hj h0 h1 h2 h3 ⊢
  rw [e1] at h0 h1 h2 h3
  obtain ⟨hx, hy, hyj, hyW, hxy⟩ := grid_bounds hj
  have hsum : width + 1 + (height + 1) ≤ (width + 1) * (height + 1) + 1 := by
    have : (width + 1) * (height + 1)
        = width * height + width + height + 1 := by ring
    have : 0 ≤ width * height := Nat.zero_le _
    omega
  generalize j % (width + 1) = x at *
  generalize j / (width + 1) = y at *
  have hmul : umul y (width + 1) = y * (width + 1) := umul_of_lt (by omega)
  refine ⟨?_, ?_, ?_, ?_⟩
  · by_cases hx0 : x = 0
    · exact ⟨_, h0, by rw [if_pos ⟨rfl, hx0⟩]; exact Or.inl rfl, fun _ => hx0⟩
    · have hnot : ¬ (false = false ∧ x = 0) := fun h => hx0 h.2
      rw [if_neg hnot, hmul] at h0
      have hs : uadd (usub x 1) (width + 1) = x + (width + 1) - 1 := by
        unfold uadd usub uintSize; omega
      have hm : (x + (width + 1) - 1) % (width + 1) = x - 1 := by
        have : x + (width + 1) - 1 = (x - 1) + (width + 1) := by omega
        rw [this, Nat.add_mod_right, Nat.mod_eq_of_lt (by omega)]
      rw [hs, hm, uadd_of_lt (by omega)] at h0
      exact ⟨_, h0, Or.inr (by omega), fun h => by omega⟩
  · by_cases hxw : x = width
    · have hx0 : x ≠ 0 := by omega
      exact ⟨_, h1, by rw [if_pos ⟨rfl, hx0, hxw⟩]; exact Or.inl rfl, fun _ => hxw⟩
    · have hnot : ¬ (false = false ∧ x ≠ 0 ∧ x = width) := fun h => hxw h.2.2
      rw [if_neg hnot, hmul] at h1
      have hs : uadd (uadd x 1) (width + 1) = (x + 1) + (width + 1) := by
        unfold uadd uintSize; omega
      rw [hs, Nat.add_mod_right, Nat.mod_eq_of_lt (by omega), uadd_of_lt (by omega)] at h1
      exact ⟨_, h1, Or.inr (by omega), fun h => by omega⟩
  · by_cases hy0 : y = 0
    · exact ⟨_, h2, by rw [if_pos ⟨rfl, hy0⟩]; exact Or.inl rfl, fun _ => hy0⟩
    · have hnot : ¬ (false = false ∧ y = 0) := fun h => hy0 h.2
      rw [if_neg hnot] at h2
      have hs : uadd (usub y 1) (width + 1) = (y - 1) + (width + 1) := by
        unfold uadd usub uintSize; omega
      rw [hs, Nat.add_mod_right] at h2
      have hr1 : (y - 1) % (width + 1) ≤ y - 1 := Nat.mod_le _ _
      have hr2 : (width + 1) * ((y - 1) % (width + 1) + 1) ≤ (width + 1) * y :=
        Nat.mul_le_mul_left _ (by omega)
      rw [Nat.mul_succ, Nat.mul_comm (width + 1) y] at hr2
      rw [umul_of_lt (by omega), uadd_of_lt (by omega)] at h2
      exact ⟨_, h2, Or.inr (by omega), fun h => by omega⟩
  · by_cases hyh : y = height
    · have hy0 : y ≠ 0 := by omega
      exact ⟨_, h3, by rw [if_pos ⟨rfl, hy0, hyh⟩]; exact Or.inl rfl, fun _ => hyh⟩
    · have hnot : ¬ (false = false ∧ y ≠ 0 ∧ y = height) := fun h => hyh h.2.2
      rw [if_neg hnot] at h3
      have hs : uadd (uadd y 1) (width + 1) = (y + 1) + (width + 1) := by
        unfold uadd uintSize; omega
      rw [hs, Nat.add_mod_right] at h3
      have hr1 : (y + 1) % (width + 1) ≤ y + 1 := Nat.mod_le _ _
      have hr2 : (width + 1) * ((y + 1) % (width + 1) + 1) ≤ (width + 1) * (height + 1) :=
        Nat.mul_le_mul_left _ (by omega)
      rw [Nat.mul_succ] at hr2
      rw [umul_of_lt (by omega), uadd_of_lt (by omega)] at h3
      exact ⟨_, h3, Or.inr (by omega), fun h => by omega⟩

/-- Witness for C20: node 4, the interior node of the non-periodic mesh of width 2 and
height 2. -/
theorem nonperiodic_slots_in_range_witness :
    (∃ v : Nat, (Mesh.construct sqrtThreeQ 2 2 false).neighbour 4 0 = some v ∧
      (v = (Mesh.construct sqrtThreeQ 2 2 false).nNodes ∨
        v < (Mesh.construct sqrtThreeQ 2 2 false).nNodes) ∧
      (v = (Mesh.construct sqrtThreeQ 2 2 false).nNodes → 4 % (2 + 1) = 0)) ∧
    (∃ v : Nat, (Mesh.construct sqrtThreeQ 2 2 false).neighbour 4 1 = some v ∧
      (v = (Mesh.construct sqrtThreeQ 2 2 false).nNodes ∨
        v < (Mesh.construct sqrtThreeQ 2 2 false).nNodes) ∧
      (v = (Mesh.construct sqrtThreeQ 2 2 false).nNodes → 4 % (2 + 1) = 2)) ∧
    (∃ v : Nat, (Mesh.construct sqrtThreeQ 2 2 false).neighbour 4 2 = some v ∧
      (v = (Mesh.construct sqrtThreeQ 2 2 false).nNodes ∨
        v < (Mesh.construct sqrtThreeQ 2 2 false).nNodes) ∧
      (v = (Mesh.construct sqrtThreeQ 2 2 false).nNodes → 4 / (2 + 1) = 0)) ∧
    (∃ v : Nat, (Mesh.construct sqrtThreeQ 2 2 false).neighbour 4 3 = some v ∧
      (v = (Mesh.construct sqrtThreeQ 2 2 false).nNodes ∨
        v < (Mesh.construct sqrtThreeQ 2 2 false).nNodes) ∧
      (v = (Mesh.construct sqrtThreeQ 2 2 false).nNodes → 4 / (2 + 1) = 2)) :=
  nonperiodic_slots_in_range sqrtThreeQ 2 2 (by decide) (by decide) (by decide) 4
    (by rw [(construct_frame sqrtThreeQ 2 2 false).2.2.1]; decide)

/-! ## Spatial queries -/

theorem floorToUnsigned_of_bounds [LinearOrderedField K] [FloorRing K]
    (r : K) (b : Nat) (h0 : 0 ≤ r) (hb : r < (b : K))
    (hb32 : b ≤ 4294967296) :
    ∃ f : Nat, floorToUnsigned r = some f ∧ (f : Int) = Int.floor r ∧ f < b ∧
      (f : K) ≤ r ∧ r < (f : K) + 1 := by
  have h1 : 0 ≤ Int.floor r := Int.floor_nonneg.mpr h0
  have h2 : Int.floor r < (b : Int) := by
    rw [Int.floor_lt]
    exact_mod_cast hb
  have h3 : ((Int.floor r).toNat : Int) = Int.floor r := Int.toNat_of_nonneg h1
  refine ⟨(Int.floor r).toNat, ?_, h3, by omega, ?_, ?_⟩
  · unfold floorToUnsigned
    rw [if_pos ⟨h1, by omega⟩]
  · have : (((Int.floor r).toNat : Int) : K) = ((Int.floor r : Int) : K) := by rw [h3]
    rw [Int.cast_natCast] at this
    rw [this]
    exact Int.floor_le r
  · have : (((Int.floor r).toNat : Int) : K) = ((Int.floor r : Int) : K) := by rw [h3]
    rw [Int.cast_natCast] at this
    rw [this]
    exact Int.lt_floor_add_one r

theorem half_add_half [LinearOrderedField K] : (0.5 : K) + 0.5 = 1 := by norm_num

/-- The index `getElement` returns for a point of the half-open rectangle
`[0, width) x [0, height)`. -/
theorem getElement_eq [LinearOrderedField K] [FloorRing K] (m : Mesh K) (width height : Nat)
    (hm : m.width = width) (hE : width * height < 4294967296) (x y : K)
    (hx0 : 0 ≤ x) (hxw : x < (width : K)) (hy0 : 0 ≤ y) (hyh : y < (height : K)) :
    ∃ fx fy : Nat, m.getElement x y = some (fx + fy * width) ∧
      (fx : Int) = Int.floor x ∧ (fy : Int) = Int.floor y ∧ fx < width ∧ fy < height ∧
      fx + fy * width < width * height ∧
      (fx : K) ≤ x ∧ x < (fx : K) + 1 ∧ (fy : K) ≤ y ∧ y < (fy : K) + 1 := by
  have hwpos : 0 < width := by
    rcases Nat.eq_zero_or_pos width with h | h
    · subst h; simp at hxw; exact absurd hxw (not_lt.mpr hx0)
    · exact h
  have hhpos : 0 < height := by
    rcases Nat.eq_zero_or_pos height with h | h
    · subst h; simp at hyh; exact absurd hyh (not_lt.mpr hy0)
    · exact h
  have hw32 : width ≤ 4294967296 := by
    have : width * 1 ≤ width * height := Nat.mul_le_mul_left _ hhpos
    omega
  have hh32 : height ≤ 4294967296 := by
    have : 1 * height ≤ width * height := Nat.mul_le_mul_right _ hwpos
    omega
  obtain ⟨fx, hfx, hfxi, hfxw, hfx1, hfx2⟩ := floorToUnsigned_of_bounds x width hx0 hxw hw32
  obtain ⟨fy, hfy, hfyi, hfyh, hfy1, hfy2⟩ := floorToUnsigned_of_bounds y height hy0 hyh hh32
  have hlt : fx + fy * width < width * height := by
    have h1 : (fy + 1) * width ≤ height * width := Nat.mul_le_mul_right _ (by omega)
    rw [Nat.add_mul, Nat.one_mul, Nat.mul_comm height] at h1
    omega
  refine ⟨fx, fy, ?_, hfxi, hfyi, hfxw, hfyh, hlt, hfx1, hfx2, hfy1, hfy2⟩
  unfold Mesh.getElement
  rw [hfx, hfy, hm]
  simp only
  rw [umul_of_lt (by omega), uadd_of_lt (by omega), Nat.add_comm]

/-- C11, amended: with exact real coordinates, in a mesh with positive width and height
and no unsigned overflow, `getElement(x, y)` of a point with `0 <= x < width` and
`0 <= y < height` returns `floor(y)*width + floor(x)`; this is a valid element index, the
centre of that element is `(floor(x)+0.5, floor(y)+0.5)`, and the point lies in its unit
cell. -/
theorem getElement_in_range [LinearOrderedField K] [FloorRing K]
    (sqrtThree : K) (width height : Nat) (isPeriodic : Bool)
    (_hw : 0 < width) (_hh : 0 < height) (hn : (width + 1) * (height + 1) < 4294967296)
    (x y : K) (hx0 : 0 ≤ x) (hxw : x < (width : K)) (hy0 : 0 ≤ y) (hyh : y < (height : K)) :
    ∃ e : Nat, (Mesh.construct sqrtThree width height isPeriodic).getElement x y = some e ∧
      (e : Int) = Int.floor y * (width : Int) + Int.floor x ∧
      e < (Mesh.construct sqrtThree width height isPeriodic).nElements ∧
      ∃ c : Coord K, (Mesh.construct sqrtThree width height isPeriodic).centre e = some c ∧
        c = ⟨(Int.floor x : K) + 0.5, (Int.floor y : K) + 0.5⟩ ∧
        c.x - 0.5 ≤ x ∧ x < c.x + 0.5 ∧ c.y - 0.5 ≤ y ∧ y < c.y + 0.5 := by
  obtain ⟨hW, -, -, hE, -⟩ := construct_frame sqrtThree width height isPeriodic
  have hEn := nElements_nowrap hn
  obtain ⟨fx, fy, hget, hfx, hfy, hfxw, hfyh, hlt, hx1, hx2, hy1, hy2⟩ :=
    getElement_eq (Mesh.construct sqrtThree width height isPeriodic) width height hW
      (by rw [← hEn]; unfold umul uintSize; exact Nat.mod_lt _ (by decide))
      x y hx0 hxw hy0 hyh
  have hcx : (Int.floor x : K) = (fx : K) := by rw [← hfx, Int.cast_natCast]
  have hcy : (Int.floor y : K) = (fy : K) := by rw [← hfy, Int.cast_natCast]
  obtain ⟨hmod, hdiv⟩ := add_mul_mod_div (b := fy) hfxw
  refine ⟨fx + fy * width, hget, ?_, by rw [hE, hEn]; exact hlt, ?_⟩
  · rw [← hfx, ← hfy]
    push_cast
    ring
  · refine ⟨⟨(Int.floor x : K) + 0.5, (Int.floor y : K) + 0.5⟩, ?_, rfl, ?_, ?_, ?_, ?_⟩
    · unfold Mesh.centre
      rw [construct_element sqrtThree width height isPeriodic _ (by rw [hEn]; exact hlt)]
      simp only [Option.map_some', elementStep, hmod, hdiv, hcx, hcy]
    · simp only [add_sub_cancel_right, hcx]; exact hx1
    · simp only [add_assoc, half_add_half, hcx]; exact hx2
    · simp only [add_sub_cancel_right, hcy]; exact hy1
    · simp only [add_assoc, half_add_half, hcy]; exact hy2

/-- Witness for C11: the point `(3/2, 1/2)` in the periodic mesh of width 2 and height
2. -/
theorem getElement_in_range_witness :
    (0 < 2 ∧ 0 < 2 ∧ (2 + 1) * (2 + 1) < 4294967296 ∧
      (0 : ℚ) ≤ 3 / 2 ∧ (3 / 2 : ℚ) < ((2 : Nat) : ℚ) ∧
      (0 : ℚ) ≤ 1 / 2 ∧ (1 / 2 : ℚ) < ((2 : Nat) : ℚ)) ∧
    ∃ e : Nat, (Mesh.construct sqrtThreeQ 2 2 true).getElement (3 / 2) (1 / 2) = some e ∧
      (e : Int) = Int.floor (1 / 2 : ℚ) * ((2 : Nat) : Int) + Int.floor (3 / 2 : ℚ) ∧
      e < (Mesh.construct sqrtThreeQ 2 2 true).nElements ∧
      ∃ c : Coord ℚ, (Mesh.construct sqrtThreeQ 2 2 true).centre e = some c ∧
        c = ⟨(Int.floor (3 / 2 : ℚ) : ℚ) + 0.5, (Int.floor (1 / 2 : ℚ) : ℚ) + 0.5⟩ ∧
        c.x - 0.5 ≤ 3 / 2 ∧ 3 / 2 < c.x + 0.5 ∧ c.y - 0.5 ≤ 1 / 2 ∧ 1 / 2 < c.y + 0.5 :=
  ⟨⟨by decide, by decide, by decide, by norm_num, by norm_num, by norm_num, by norm_num⟩,
    getElement_in_range sqrtThreeQ 2 2 true (by decide) (by decide) (by decide)
      (3 / 2) (1 / 2) (by norm_num) (by norm_num) (by norm_num) (by norm_num)⟩

/-- C11, as stated, fails when `width*height` overflows: the mesh of width 65536 and height
65536 has `nElements == 0` (the product `2^32` wraps), `getElement(0, 0)` returns 0, and 0
is not a valid element index. -/
theorem getElement_overflow_not_in_range :
    (0 < 65536 ∧ (0 : ℚ) ≤ 0 ∧ (0 : ℚ) < ((65536 : Nat) : ℚ)) ∧
    (Mesh.construct sqrtThreeQ 65536 65536 true).nElements = 0 ∧
    (Mesh.construct sqrtThreeQ 65536 65536 true).getElement 0 0 = some 0 ∧
    ¬ ∃ e : Nat, (Mesh.construct sqrtThreeQ 65536 65536 true).getElement 0 0 = some e ∧
      e < (Mesh.construct sqrtThreeQ 65536 65536 true).nElements := by
  obtain ⟨hW, -, -, hE, -⟩ := construct_frame sqrtThreeQ 65536 65536 true
  have h0 : umul 65536 65536 = 0 := by decide
  have hf : floorToUnsigned (0 : ℚ) = some 0 := by
    unfold floorToUnsigned
    rw [Int.floor_zero]
    rfl
  have hg : (Mesh.construct sqrtThreeQ 65536 65536 true).getElement 0 0 = some 0 := by
    unfold Mesh.getElement
    rw [hf, hW]
    rfl
  refine ⟨⟨by decide, le_refl _, by norm_num⟩, by rw [hE, h0], hg, ?_⟩
  rintro ⟨e, -, he⟩
  rw [hE, h0] at he
  exact Nat.not_lt_zero _ he

/-- The entries `elements[e].nodes[0..3]` of the constructed mesh, read one by one. -/
theorem construct_cornerNode [Field K] (sqrtThree : K) (width height : Nat) (isPeriodic : Bool)
    (hh : 0 < height) (hn : (width + 1) * (height + 1) < 4294967296) (e : Nat)
    (he : e < width * height) :
    (Mesh.construct sqrtThree width height isPeriodic).cornerNode e 0
      = some (e % width + e / width * (width + 1)) ∧
    (Mesh.construct sqrtThree width height isPeriodic).cornerNode e 1
      = some (e % width + 1 + e / width * (width + 1)) ∧
    (Mesh.construct sqrtThree width height isPeriodic).cornerNode e 2
      = some (e % width + 1 + (e / width + 1) * (width + 1)) ∧
    (Mesh.construct sqrtThree width height isPeriodic).cornerNode e 3
      = some (e % width + (e / width + 1) * (width + 1)) := by
  have h := construct_element_nodes sqrtThree width height isPeriodic hh hn e he
  unfold Mesh.cornerNode
  cases hel : (Mesh.construct sqrtThree width height isPeriodic).elements[e]? with
  | none => rw [hel] at h; exact Option.noConfusion h
  | some el =>
    rw [hel] at h
    simp only [Option.map_some', Option.some.injEq] at h
    simp only [Option.some_bind, h, cornerIndices]
    exact ⟨rfl, rfl, rfl, rfl⟩

/-- The node `getClosestNode` returns for a point of the half-open rectangle
`[0, width) x [0, height)`: the corner of the cell `(fx, fy)` of the point selected by the
two comparisons with 0.5. -/
theorem getClosestNode_eq [LinearOrderedField K] [FloorRing K]
    (sqrtThree : K) (width height : Nat) (isPeriodic : Bool)
    (hh : 0 < height) (hn : (width + 1) * (height + 1) < 4294967296)
    (x y : K) (hx0 : 0 ≤ x) (hxw : x < (width : K)) (hy0 : 0 ≤ y) (hyh : y < (height : K)) :
    ∃ fx fy : Nat, (fx : Int) = Int.floor x ∧ (fy : Int) = Int.floor y ∧
      fx < width ∧ fy < height ∧
      (Mesh.construct sqrtThree width height isPeriodic).getElement x y
        = some (fx + fy * width) ∧
      (Mesh.construct sqrtThree width height isPeriodic).getClosestNode x y =
        some ((fx + if x - (fx : K) < 0.5 then 0 else 1)
          + (fy + if y - (fy : K) < 0.5 then 0 else 1) * (width + 1)) ∧
      (Mesh.construct sqrtThree width height isPeriodic).getClosestNode x y =
        (Mesh.construct sqrtThree width height isPeriodic).cornerNode (fx + fy * width)
          (if x - (fx : K) < 0.5 then (if y - (fy : K) < 0.5 then 0 else 3)
            else (if y - (fy : K) < 0.5 then 1 else 2)) := by
  obtain ⟨hW, -, -, hE, -⟩ := construct_frame sqrtThree width height isPeriodic
  have hEn := nElements_nowrap hn
  obtain ⟨fx, fy, hget, hfx, hfy, hfxw, hfyh, hlt, -, -, -, -⟩ :=
    getElement_eq (Mesh.construct sqrtThree width height isPeriodic) width height hW
      (by rw [← hEn]; unfold umul uintSize; exact Nat.mod_lt _ (by decide))
      x y hx0 hxw hy0 hyh
  have hcx : (Int.floor x : K) = (fx : K) := by rw [← hfx, Int.cast_natCast]
  have hcy : (Int.floor y : K) = (fy : K) := by rw [← hfy, Int.cast_natCast]
  obtain ⟨hmod, hdiv⟩ := add_mul_mod_div (b := fy) hfxw
  obtain ⟨c0, c1, c2, c3⟩ :=
    construct_cornerNode sqrtThree width height isPeriodic hh hn _ hlt
  rw [hmod, hdiv] at c0 c1 c2 c3
  refine ⟨fx, fy, hfx, hfy, hfxw, hfyh, hget, ?_, ?_⟩
  · unfold Mesh.getClosestNode
    rw [hget]
    simp only [hcx, hcy]
    by_cases h1 : x - (fx : K) < 0.5 <;> by_cases h2 : y - (fy : K) < 0.5 <;>
      simp only [h1, h2, if_true, if_false, c0, c1, c2, c3, Nat.add_zero]
  · unfold Mesh.getClosestNode
    rw [hget]
    simp only [hcx, hcy]
    by_cases h1 : x - (fx : K) < 0.5 <;> by_cases h2 : y - (fy : K) < 0.5 <;>
      simp only [h1, h2, if_true, if_false]

/-- C12, amended: with exact real coordinates, in a mesh with positive width and height
and no unsigned overflow, for every query point of the half-open rectangle
`[0, width) x [0, height)`, `getElement(x, y)` is a valid element index and
`getClosestNode(x, y)` returns one of the four entries `elements[getElement(x, y)].nodes`. -/
theorem closest_node_is_corner [LinearOrderedField K] [FloorRing K]
    (sqrtThree : K) (width height : Nat) (isPeriodic : Bool)
    (_hw : 0 < width) (hh : 0 < height) (hn : (width + 1) * (height + 1) < 4294967296)
    (x y : K) (hx0 : 0 ≤ x) (hxw : x < (width : K)) (hy0 : 0 ≤ y) (hyh : y < (height : K)) :
    ∃ e r : Nat, ∃ cs : List Nat,
      (Mesh.construct sqrtThree width height isPeriodic).getElement x y = some e ∧
      e < (Mesh.construct sqrtThree width height isPeriodic).nElements ∧
      (Mesh.construct sqrtThree width height isPeriodic).getClosestNode x y = some r ∧
      ((Mesh.construct sqrtThree width height isPeriodic).elements[e]?).map
        (fun el => el.nodes) = some cs ∧
      cs.length = 4 ∧ r ∈ cs := by
  obtain ⟨-, -, -, hE, -⟩ := construct_frame sqrtThree width height isPeriodic
  have hEn := nElements_nowrap hn
  obtain ⟨fx, fy, -, -, hfxw, hfyh, hget, hnode, -⟩ :=
    getClosestNode_eq sqrtThree width height isPeriodic hh hn x y hx0 hxw hy0 hyh
  have hlt : fx + fy * width < width * height := by
    have h1 : (fy + 1) * width ≤ height * width := Nat.mul_le_mul_right _ (by omega)
    rw [Nat.add_mul, Nat.one_mul, Nat.mul_comm height] at h1
    omega
  obtain ⟨hmod, hdiv⟩ := add_mul_mod_div (b := fy) hfxw
  have hcs := construct_element_nodes sqrtThree width height isPeriodic hh hn _ hlt
  refine ⟨_, _, _, hget, by rw [hE, hEn]; exact hlt, hnode, hcs, rfl, ?_⟩
  simp only [cornerIndices, hmod, hdiv, List.mem_cons, List.mem_singleton, List.mem_nil_iff,
    or_false]
  have hs : (fy + 1) * (width + 1) = fy * (width + 1) + (width + 1) := by
    rw [Nat.add_mul, Nat.one_mul]
  by_cases h1 : x - (fx : K) < 0.5 <;> by_cases h2 : y - (fy : K) < 0.5 <;>
    simp only [h1, h2, if_true, if_false, Nat.add_zero, hs, true_or, or_true]

/-- C14, amended: with exact real coordinates, for a query point with `x >= 0` and
`y >= height` whose index `floor(y)*width + floor(x)` fits `unsigned int`, `getElement(x, y)`
returns `floor(y)*width + floor(x)`, which is at least `nElements`. -/
theorem getElement_above_range [LinearOrderedField K] [FloorRing K]
    (sqrtThree : K) (width height : Nat) (isPeriodic : Bool)
    (hw : 0 < width) (_hh : 0 < height) (x y : K) (hx0 : 0 ≤ x) (hy : (height : K) ≤ y)
    (hfit : Int.floor y * (width : Int) + Int.floor x < 4294967296) :
    ∃ e : Nat, (Mesh.construct sqrtThree width height isPeriodic).getElement x y = some e ∧
      (e : Int) = Int.floor y * (width : Int) + Int.floor x ∧
      (Mesh.construct sqrtThree width height isPeriodic).nElements ≤ e := by
  obtain ⟨hW, -, -, hE, -⟩ := construct_frame sqrtThree width height isPeriodic
  have hfx0 : 0 ≤ Int.floor x := Int.floor_nonneg.mpr hx0
  have hfyh : (height : Int) ≤ Int.floor y := by
    rw [Int.le_floor]
    exact_mod_cast hy
  obtain ⟨fx, hfx⟩ := Int.eq_ofNat_of_zero_le hfx0
  obtain ⟨fy, hfy⟩ := Int.eq_ofNat_of_zero_le (le_trans (Int.natCast_nonneg height) hfyh)
  rw [hfx, hfy] at hfit
  rw [hfy] at hfyh
  have hfit' : fy * width + fx < 4294967296 := by exact_mod_cast hfit
  have hfyh' : height ≤ fy := by exact_mod_cast hfyh
  have h1 : height * width ≤ fy * width := Nat.mul_le_mul_right _ hfyh'
  have h2 : fy * 1 ≤ fy * width := Nat.mul_le_mul_left _ hw
  have hux : floorToUnsigned x = some fx := by
    unfold floorToUnsigned
    rw [hfx, if_pos ⟨by omega, by omega⟩]
    rfl
  have huy : floorToUnsigned y = some fy := by
    unfold floorToUnsigned
    rw [hfy, if_pos ⟨by omega, by omega⟩]
    rfl
  have hle : umul width height ≤ width * height := by
    unfold umul; exact Nat.mod_le _ _
  refine ⟨fy * width + fx, ?_, ?_, ?_⟩
  · unfold Mesh.getElement
    rw [hux, huy, hW]
    simp only
    rw [umul_of_lt (by omega), uadd_of_lt (by omega)]
  · rw [hfx, hfy]
    push_cast
    rfl
  · rw [hE, Nat.mul_comm height width] at *
    omega

/-- Witness for C12: the point `(3/2, 1/2)` in the periodic mesh of width 2 and height
2. -/
theorem closest_node_is_corner_witness :
    (0 < 2 ∧ 0 < 2 ∧ (2 + 1) * (2 + 1) < 4294967296 ∧
      (0 : ℚ) ≤ 3 / 2 ∧ (3 / 2 : ℚ) < ((2 : Nat) : ℚ) ∧
      (0 : ℚ) ≤ 1 / 2 ∧ (1 / 2 : ℚ) < ((2 : Nat) : ℚ)) ∧
    ∃ e r : Nat, ∃ cs : List Nat,
      (Mesh.construct sqrtThreeQ 2 2 true).getElement (3 / 2) (1 / 2) = some e ∧
      e < (Mesh.construct sqrtThreeQ 2 2 true).nElements ∧
      (Mesh.construct sqrtThreeQ 2 2 true).getClosestNode (3 / 2) (1 / 2) = some r ∧
      ((Mesh.construct sqrtThreeQ 2 2 true).elements[e]?).map (fun el => el.nodes)
        = some cs ∧
      cs.length = 4 ∧ r ∈ cs :=
  ⟨⟨by decide, by decide, by decide, by norm_num, by norm_num, by norm_num, by norm_num⟩,
    closest_node_is_corner sqrtThreeQ 2 2 true (by decide) (by decide) (by decide)
      (3 / 2) (1 / 2) (by norm_num) (by norm_num) (by norm_num) (by norm_num)⟩

theorem floorToUnsigned_natCast [LinearOrderedField K] [FloorRing K] (n : Nat)
    (hn : n < 4294967296) : floorToUnsigned ((n : Nat) : K) = some n := by
  unfold floorToUnsigned
  rw [Int.floor_natCast, if_pos ⟨by omega, by omega⟩]
  rfl

/-- C12, as stated, fails on the closed upper edge: in the mesh of width 2 and height 2
(4 elements) the point `(0, 2)` lies in `[0, 2] x [0, 2]`, `getElement(0, 2)` returns 4,
which is not a valid element index, and `getClosestNode(0, 2)` reads `elements[4]`, out of
range.  It also fails when `width*height` overflows: for width 65536 and height 65536,
`nElements == 0` and `getElement(0, 0)` returns 0. -/
theorem closed_rectangle_not_in_range :
    (((0 : ℚ) ≤ ((0 : Nat) : ℚ) ∧ (((0 : Nat) : ℚ)) ≤ ((2 : Nat) : ℚ) ∧
        (0 : ℚ) ≤ ((2 : Nat) : ℚ) ∧ ((2 : Nat) : ℚ) ≤ ((2 : Nat) : ℚ)) ∧
      (Mesh.construct sqrtThreeQ 2 2 false).nElements = 4 ∧
      (Mesh.construct sqrtThreeQ 2 2 false).getElement ((0 : Nat) : ℚ) ((2 : Nat) : ℚ)
        = some 4 ∧
      (Mesh.construct sqrtThreeQ 2 2 false).getClosestNode ((0 : Nat) : ℚ) ((2 : Nat) : ℚ)
        = none ∧
      ¬ ∃ e : Nat,
        (Mesh.construct sqrtThreeQ 2 2 false).getElement ((0 : Nat) : ℚ) ((2 : Nat) : ℚ)
          = some e ∧
        e < (Mesh.construct sqrtThreeQ 2 2 false).nElements) ∧
    ((Mesh.construct sqrtThreeQ 65536 65536 false).nElements = 0 ∧
      (Mesh.construct sqrtThreeQ 65536 65536 false).getElement ((0 : Nat) : ℚ)
        ((0 : Nat) : ℚ) = some 0) := by
  obtain ⟨hW, -, -, hE, -⟩ := construct_frame sqrtThreeQ 2 2 false
  obtain ⟨hW', -, -, hE', -⟩ := construct_frame sqrtThreeQ 65536 65536 false
  have hlen := construct_elements_length sqrtThreeQ 2 2 false
  have h4 : umul 2 2 = 4 := by decide
  have h0 : umul 65536 65536 = 0 := by decide
  have hg : (Mesh.construct sqrtThreeQ 2 2 false).getElement ((0 : Nat) : ℚ)
      ((2 : Nat) : ℚ) = some 4 := by
    unfold Mesh.getElement
    rw [floorToUnsigned_natCast 0 (by decide), floorToUnsigned_natCast 2 (by decide), hW]
    rfl
  have hg' : (Mesh.construct sqrtThreeQ 65536 65536 false).getElement ((0 : Nat) : ℚ)
      ((0 : Nat) : ℚ) = some 0 := by
    unfold Mesh.getElement
    rw [floorToUnsigned_natCast 0 (by decide), hW']
    rfl
  have hnone : (Mesh.construct sqrtThreeQ 2 2 false).elements[4]? = none := by
    rw [List.getElem?_eq_none_iff, hlen, h4]
  refine ⟨⟨⟨by norm_num, by norm_num, by norm_num, le_refl _⟩, by rw [hE, h4], hg, ?_, ?_⟩,
    by rw [hE', h0], hg'⟩
  · unfold Mesh.getClosestNode
    rw [hg]
    simp only [Mesh.cornerNode, hnone, Option.none_bind, ite_self]
  · rintro ⟨e, he1, he2⟩
    rw [hg] at he1
    rw [hE, h4] at he2
    cases he1
    exact absurd he2 (by decide)

/-- Witness for C14: the point `(0, 2)` and the mesh of width 2 and height 2. -/
theorem getElement_above_range_witness :
    (0 < 2 ∧ 0 < 2 ∧ (0 : ℚ) ≤ ((0 : Nat) : ℚ) ∧ ((2 : Nat) : ℚ) ≤ ((2 : Nat) : ℚ) ∧
      Int.floor (((2 : Nat) : ℚ)) * ((2 : Nat) : Int) + Int.floor (((0 : Nat) : ℚ))
        < 4294967296) ∧
    ∃ e : Nat, (Mesh.construct sqrtThreeQ 2 2 true).getElement ((0 : Nat) : ℚ)
        ((2 : Nat) : ℚ) = some e ∧
      (e : Int) = Int.floor (((2 : Nat) : ℚ)) * ((2 : Nat) : Int)
        + Int.floor (((0 : Nat) : ℚ)) ∧
      (Mesh.construct sqrtThreeQ 2 2 true).nElements ≤ e :=
  have hfit : Int.floor (((2 : Nat) : ℚ)) * ((2 : Nat) : Int) + Int.floor (((0 : Nat) : ℚ))
      < 4294967296 := by
    rw [Int.floor_natCast, Int.floor_natCast]; decide
  ⟨⟨by decide, by decide, by norm_num, le_refl _, hfit⟩,
    getElement_above_range sqrtThreeQ 2 2 true (by decide) (by decide) ((0 : Nat) : ℚ)
      ((2 : Nat) : ℚ) (by norm_num) (le_refl _) hfit⟩

/-- C14, as stated, fails: in the mesh of width 2 and height 2 (4 elements) the point
`(5/2, 0)` lies outside `[0, 2] x [0, 2]`, yet `getElement(5/2, 0)` returns 2, a valid
element index. -/
theorem outside_point_valid_index :
    (((2 : Nat) : ℚ) < 5 / 2) ∧
    (Mesh.construct sqrtThreeQ 2 2 false).nElements = 4 ∧
    (Mesh.construct sqrtThreeQ 2 2 false).getElement (5 / 2) ((0 : Nat) : ℚ) = some 2 ∧
    ¬ ∃ e : Nat,
      (Mesh.construct sqrtThreeQ 2 2 false).getElement (5 / 2) ((0 : Nat) : ℚ) = some e ∧
      (Mesh.construct sqrtThreeQ 2 2 false).nElements ≤ e := by
  obtain ⟨hW, -, -, hE, -⟩ := construct_frame sqrtThreeQ 2 2 false
  have h4 : umul 2 2 = 4 := by decide
  have hfl : Int.floor (5 / 2 : ℚ) = 2 := by
    rw [Int.floor_eq_iff]
    constructor <;> norm_num
  have hu : floorToUnsigned (5 / 2 : ℚ) = some 2 := by
    unfold floorToUnsigned
    rw [hfl]
    rfl
  have hg : (Mesh.construct sqrtThreeQ 2 2 false).getElement (5 / 2) ((0 : Nat) : ℚ)
      = some 2 := by
    unfold Mesh.getElement
    rw [hu, floorToUnsigned_natCast 0 (by decide), hW]
    rfl
  refine ⟨by norm_num, by rw [hE, h4], hg, ?_⟩
  rintro ⟨e, he1, he2⟩
  rw [hg] at he1
  rw [hE, h4] at he2
  cases he1
  exact absurd he2 (by decide)

/-- No integer is strictly closer to `x` than `floor(x + 1/2)`. -/
theorem sq_sub_round_le [LinearOrderedField K] [FloorRing K] (x : K) (m : Int) :
    (x - ((Int.floor (x + 1 / 2) : Int) : K)) ^ 2 ≤ (x - (m : K)) ^ 2 := by
  have h1 : ((Int.floor (x + 1 / 2) : Int) : K) ≤ x + 1 / 2 := Int.floor_le _
  have h2 : x + 1 / 2 < ((Int.floor (x + 1 / 2) : Int) : K) + 1 := Int.lt_floor_add_one _
  rcases lt_trichotomy m (Int.floor (x + 1 / 2)) with h | h | h
  · have h3 : m + 1 ≤ Int.floor (x + 1 / 2) := h
    have h4 : ((m + 1 : Int) : K) ≤ ((Int.floor (x + 1 / 2) : Int) : K) := by exact_mod_cast h3
    push_cast at h4
    nlinarith
  · rw [h]
  · have h3 : Int.floor (x + 1 / 2) + 1 ≤ m := h
    have h4 : ((Int.floor (x + 1 / 2) + 1 : Int) : K) ≤ ((m : Int) : K) := by exact_mod_cast h3
    push_cast at h4
    nlinarith

theorem round_of_floor [LinearOrderedField K] [FloorRing K]
    (x : K) (fx : Nat) (h1 : (fx : K) ≤ x) (h2 : x < (fx : K) + 1) :
    ((fx + if x - (fx : K) < 0.5 then 0 else 1 : Nat) : Int) = Int.floor (x + 1 / 2) := by
  have hhalf : (0.5 : K) = 1 / 2 := by norm_num
  symm
  rw [Int.floor_eq_iff]
  by_cases h : x - (fx : K) < 0.5
  · rw [if_pos h]
    rw [hhalf] at h
    push_cast
    constructor <;> linarith
  · rw [if_neg h]
    rw [hhalf, not_lt] at h
    push_cast
    constructor <;> linarith

/-- C13, amended: with exact real coordinates, in a mesh with positive width and height
whose node count fits `unsigned int`, `getClosestNode(x, y)` of a point with
`0 <= x < width` and `0 <= y < height` returns the node with grid coordinate
`(floor(x + 1/2), floor(y + 1/2))`
(an offset of exactly 0.5 resolves to the right or top node), and no node of the mesh is
strictly closer to `(x, y)`: the squared Euclidean distance to any node is at least the
one to the returned node. -/
theorem closest_node_is_nearest [LinearOrderedField K] [FloorRing K]
    (sqrtThree : K) (width height : Nat) (isPeriodic : Bool)
    (_hw : 0 < width) (hh : 0 < height) (hn : (width + 1) * (height + 1) < 4294967296)
    (x y : K) (hx0 : 0 ≤ x) (hxw : x < (width : K)) (hy0 : 0 ≤ y) (hyh : y < (height : K)) :
    ∃ rx ry : Nat, (rx : Int) = Int.floor (x + 1 / 2) ∧ (ry : Int) = Int.floor (y + 1 / 2) ∧
      (Mesh.construct sqrtThree width height isPeriodic).getClosestNode x y
        = some (rx + ry * (width + 1)) ∧
      ((Mesh.construct sqrtThree width height isPeriodic).nodes[rx + ry * (width + 1)]?).map
        (fun nd => nd.coord) = some ⟨(rx : K), (ry : K)⟩ ∧
      ∀ (n : Nat) (nd : Node K),
        (Mesh.construct sqrtThree width height isPeriodic).nodes[n]? = some nd →
        (x - (rx : K)) ^ 2 + (y - (ry : K)) ^ 2
          ≤ (x - nd.coord.x) ^ 2 + (y - nd.coord.y) ^ 2 := by
  obtain ⟨e1, -, -, e4, -⟩ := nowrap_facts hh hn
  obtain ⟨fx, fy, hfx, hfy, hfxw, hfyh, -, hnode, -⟩ :=
    getClosestNode_eq sqrtThree width height isPeriodic hh hn x y hx0 hxw hy0 hyh
  have hcx : (fx : K) = (Int.floor x : K) := by rw [← hfx, Int.cast_natCast]
  have hcy : (fy : K) = (Int.floor y : K) := by rw [← hfy, Int.cast_natCast]
  have hx1 : (fx : K) ≤ x := by rw [hcx]; exact Int.floor_le x
  have hx2 : x < (fx : K) + 1 := by rw [hcx]; exact Int.lt_floor_add_one x
  have hy1 : (fy : K) ≤ y := by rw [hcy]; exact Int.floor_le y
  have hy2 : y < (fy : K) + 1 := by rw [hcy]; exact Int.lt_floor_add_one y
  have hrx := round_of_floor x fx hx1 hx2
  have hry := round_of_floor y fy hy1 hy2
  have hrxle : (fx + if x - (fx : K) < 0.5 then 0 else 1) < width + 1 := by
    split_ifs <;> omega
  have hryle : (fy + if y - (fy : K) < 0.5 then 0 else 1) < height + 1 := by
    split_ifs <;> omega
  generalize (fx + if x - (fx : K) < 0.5 then 0 else 1) = rx at *
  generalize (fy + if y - (fy : K) < 0.5 then 0 else 1) = ry at *
  have hlt : rx + ry * (width + 1) < (width + 1) * (height + 1) := by
    have h1 : (ry + 1) * (width + 1) ≤ (height + 1) * (width + 1) :=
      Nat.mul_le_mul_right _ (by omega)
    rw [Nat.add_mul, Nat.one_mul, Nat.mul_comm (height + 1)] at h1
    omega
  refine ⟨rx, ry, hrx, hry, hnode,
    construct_node_coord sqrtThree width height isPeriodic hh hn rx ry hrxle hlt, ?_⟩
  intro n nd hnd
  have hnlt : n < umul (uadd 1 width) (uadd 1 height) := by
    rw [← construct_nodes_length sqrtThree width height isPeriodic]
    by_contra hge
    rw [List.getElem?_eq_none (by omega)] at hnd
    exact Option.noConfusion hnd
  obtain ⟨nd', h1, h2, -, -⟩ :=
    construct_node_geometry sqrtThree width height isPeriodic n hnlt
  rw [hnd] at h1
  cases h1
  rw [h2]
  have hX := sq_sub_round_le x ((n % uadd width 1 : Nat) : Int)
  have hY := sq_sub_round_le y ((n / uadd width 1 : Nat) : Int)
  rw [← hrx, Int.cast_natCast, Int.cast_natCast] at hX
  rw [← hry, Int.cast_natCast, Int.cast_natCast] at hY
  exact add_le_add hX hY

/-- Witness for C13: the point `(3/2, 1/2)` in the periodic mesh of width 2 and height
2. -/
theorem closest_node_is_nearest_witness :
    (0 < 2 ∧ 0 < 2 ∧ (2 + 1) * (2 + 1) < 4294967296 ∧
      (0 : ℚ) ≤ 3 / 2 ∧ (3 / 2 : ℚ) < ((2 : Nat) : ℚ) ∧
      (0 : ℚ) ≤ 1 / 2 ∧ (1 / 2 : ℚ) < ((2 : Nat) : ℚ)) ∧
    ∃ rx ry : Nat, (rx : Int) = Int.floor ((3 / 2 : ℚ) + 1 / 2) ∧
      (ry : Int) = Int.floor ((1 / 2 : ℚ) + 1 / 2) ∧
      (Mesh.construct sqrtThreeQ 2 2 true).getClosestNode (3 / 2) (1 / 2)
        = some (rx + ry * (2 + 1)) ∧
      ((Mesh.construct sqrtThreeQ 2 2 true).nodes[rx + ry * (2 + 1)]?).map
        (fun nd => nd.coord) = some ⟨(rx : ℚ), (ry : ℚ)⟩ ∧
      ∀ (n : Nat) (nd : Node ℚ),
        (Mesh.construct sqrtThreeQ 2 2 true).nodes[n]? = some nd →
        ((3 / 2 : ℚ) - (rx : ℚ)) ^ 2 + ((1 / 2 : ℚ) - (ry : ℚ)) ^ 2
          ≤ ((3 / 2 : ℚ) - nd.coord.x) ^ 2 + ((1 / 2 : ℚ) - nd.coord.y) ^ 2 :=
  ⟨⟨by decide, by decide, by decide, by norm_num, by norm_num, by norm_num, by norm_num⟩,
    closest_node_is_nearest sqrtThreeQ 2 2 true (by decide) (by decide) (by decide)
      (3 / 2) (1 / 2) (by norm_num) (by norm_num) (by norm_num) (by norm_num)⟩

/-- C13, as stated, fails when `width*height` overflows.  The mesh of width 65536 and
height 65537 has `nElements == 65536` and `nNodes == 196610`.  For the point
`(1/2, 65536 + 1/2)`, which satisfies `0 <= x < width` and `0 <= y < height`,
`getElement` computes `65536*65536 + 0`, which wraps to 0, and `getClosestNode` returns
`elements[0].nodes[2] == 65538`, the node stored at grid `(1, 1)`, whereas
`floor(y + 1/2) == 65537`. -/
theorem closest_node_overflow :
    ((0 : ℚ) ≤ 1 / 2 ∧ (1 / 2 : ℚ) < ((65536 : Nat) : ℚ) ∧
      (0 : ℚ) ≤ 131073 / 2 ∧ (131073 / 2 : ℚ) < ((65537 : Nat) : ℚ)) ∧
    (Mesh.construct sqrtThreeQ 65536 65537 false).nElements = 65536 ∧
    (Mesh.construct sqrtThreeQ 65536 65537 false).nNodes = 196610 ∧
    (Mesh.construct sqrtThreeQ 65536 65537 false).getElement (1 / 2) (131073 / 2) = some 0 ∧
    (Mesh.construct sqrtThreeQ 65536 65537 false).getClosestNode (1 / 2) (131073 / 2)
      = some 65538 ∧
    ((Mesh.construct sqrtThreeQ 65536 65537 false).nodes[65538]?).map (fun nd => nd.coord)
      = some ⟨((1 : Nat) : ℚ), ((1 : Nat) : ℚ)⟩ ∧
    Int.floor ((1 / 2 : ℚ) + 1 / 2) = 1 ∧ Int.floor ((131073 / 2 : ℚ) + 1 / 2) = 65537 := by
  obtain ⟨hW, -, hN, hE, -⟩ := construct_frame sqrtThreeQ 65536 65537 false
  have hEv : umul 65536 65537 = 65536 := by decide
  have hNv : umul (uadd 1 65536) (uadd 1 65537) = 196610 := by decide
  have hfx : Int.floor (1 / 2 : ℚ) = 0 := by
    rw [Int.floor_eq_iff]; constructor <;> norm_num
  have hfy : Int.floor (131073 / 2 : ℚ) = 65536 := by
    rw [Int.floor_eq_iff]; constructor <;> norm_num
  have hux : floorToUnsigned (1 / 2 : ℚ) = some 0 := by
    unfold floorToUnsigned; rw [hfx]; rfl
  have huy : floorToUnsigned (131073 / 2 : ℚ) = some 65536 := by
    unfold floorToUnsigned; rw [hfy]; rfl
  have hidx : uadd (umul 65536 65536) 0 = 0 := by decide
  have hg : (Mesh.construct sqrtThreeQ 65536 65537 false).getElement (1 / 2) (131073 / 2)
      = some 0 := by
    unfold Mesh.getElement
    rw [hux, huy, hW]
    simp only [hidx]
  have hel := construct_element sqrtThreeQ 65536 65537 false 0 (by rw [hEv]; decide)
  have hc2 : (Mesh.construct sqrtThreeQ 65536 65537 false).cornerNode 0 2 = some 65538 := by
    unfold Mesh.cornerNode
    rw [hel]
    have hv : uadd (uadd (0 % 65536) 1) (umul (uadd (0 / 65536) 1) (uadd 65536 1)) = 65538 := by
      decide
    simp only [Option.some_bind, elementStep, Element.zero, List.set_cons_zero,
      List.set_cons_succ, List.getElem?_cons_succ, List.getElem?_cons_zero, hv]
  obtain ⟨nd, hnd, hcoord, -, -⟩ := construct_node_geometry sqrtThreeQ 65536 65537 false 65538
    (by rw [hNv]; decide)
  have hm : 65538 % uadd 65536 1 = 1 := by decide
  have hd : 65538 / uadd 65536 1 = 1 := by decide
  rw [hm, hd] at hcoord
  refine ⟨⟨by norm_num, by norm_num, by norm_num, by norm_num⟩, by rw [hE, hEv],
    by rw [hN, hNv], hg, ?_, ?_, ?_, ?_⟩
  · unfold Mesh.getClosestNode
    rw [hg]
    simp only [hfx, hfy]
    rw [if_neg (by norm_num), if_neg (by norm_num)]
    exact hc2
  · rw [hnd, Option.map_some', hcoord]
  · rw [Int.floor_eq_iff]; constructor <;> norm_num
  · rw [Int.floor_eq_iff]; constructor <;> norm_num

/-! ## Gauss points -/

/-- The Gauss points stored for element `i` of the constructed mesh. -/
theorem construct_gaussPoints [Field K] (sqrtThree : K) (width_ height_ : Nat)
    (isPeriodic_ : Bool) (i : Nat) (hi : i < umul width_ height_) :
    ((Mesh.construct sqrtThree width_ height_ isPeriodic_).elements[i]?).map
      (fun e => e.gaussPoints) =
      some [⟨((i % width_ : Nat) : K) + 0.5 + 1 / sqrtThree * 0.5 * (-1),
              ((i / width_ : Nat) : K) + 0.5 + 1 / sqrtThree * 0.5 * (-1)⟩,
            ⟨((i % width_ : Nat) : K) + 0.5 + 1 / sqrtThree * 0.5 * 1,
              ((i / width_ : Nat) : K) + 0.5 + 1 / sqrtThree * 0.5 * (-1)⟩,
            ⟨((i % width_ : Nat) : K) + 0.5 + 1 / sqrtThree * 0.5 * 1,
              ((i / width_ : Nat) : K) + 0.5 + 1 / sqrtThree * 0.5 * 1⟩,
            ⟨((i % width_ : Nat) : K) + 0.5 + 1 / sqrtThree * 0.5 * (-1),
              ((i / width_ : Nat) : K) + 0.5 + 1 / sqrtThree * 0.5 * 1⟩] := by
  rw [construct_element sqrtThree width_ height_ isPeriodic_ i hi]
  simp only [Option.map_some', elementStep, gaussStep, Element.zero, nodeCoord, nodeCoords,
    List.modify_zero_cons, List.modify_succ_cons, List.getD_cons_zero, List.getD_cons_succ]

/-- The centre stored for element `i` of the constructed mesh. -/
theorem construct_centre [Field K] (sqrtThree : K) (width_ height_ : Nat)
    (isPeriodic_ : Bool) (i : Nat) (hi : i < umul width_ height_) :
    (Mesh.construct sqrtThree width_ height_ isPeriodic_).centre i =
      some ⟨((i % width_ : Nat) : K) + 0.5, ((i / width_ : Nat) : K) + 0.5⟩ := by
  unfold Mesh.centre
  rw [construct_element sqrtThree width_ height_ isPeriodic_ i hi]
  rfl

theorem gauss_offset_bounds : 0 < 1 / Real.sqrt 3 * (0.5 : ℝ) ∧
    1 / Real.sqrt 3 * (0.5 : ℝ) < 0.5 := by
  have h1 : (1 : ℝ) < Real.sqrt 3 := by
    rw [Real.lt_sqrt (by norm_num)]
    norm_num
  have h0 : (0 : ℝ) < Real.sqrt 3 := by linarith
  have h2 : 1 / Real.sqrt 3 < 1 := by
    rw [div_lt_one h0]
    exact h1
  have h3 : 0 < 1 / Real.sqrt 3 := by positivity
  constructor
  · positivity
  · nlinarith

/-- C17: with exact real arithmetic and offset `0.5/sqrt(3)`, the four Gauss points of
element `i` at grid `(x, y) = (i mod width, i div width)` lie strictly inside its unit cell
(`x < gx < x+1`, `y < gy < y+1`), Gauss point `j` lies in the quadrant of corner `j`
relative to the centre (sign pattern `(-1,-1)`, `(1,-1)`, `(1,1)`, `(-1,1)`), and
`gaussPoints[0] + gaussPoints[2] == gaussPoints[1] + gaussPoints[3] == 2 * centre`. -/
theorem gauss_points_in_cell (width height : Nat) (isPeriodic : Bool)
    (_hw : 0 < width) (_hh : 0 < height) (i : Nat)
    (hi : i < (Mesh.construct (Real.sqrt 3) width height isPeriodic).nElements) :
    ∃ c g0 g1 g2 g3 : Coord ℝ,
      (Mesh.construct (Real.sqrt 3) width height isPeriodic).centre i = some c ∧
      ((Mesh.construct (Real.sqrt 3) width height isPeriodic).elements[i]?).map
        (fun e => e.gaussPoints) = some [g0, g1, g2, g3] ∧
      (∀ g ∈ [g0, g1, g2, g3],
        ((i % width : Nat) : ℝ) < g.x ∧ g.x < ((i % width : Nat) : ℝ) + 1 ∧
        ((i / width : Nat) : ℝ) < g.y ∧ g.y < ((i / width : Nat) : ℝ) + 1) ∧
      (g0.x < c.x ∧ g0.y < c.y) ∧ (c.x < g1.x ∧ g1.y < c.y) ∧
      (c.x < g2.x ∧ c.y < g2.y) ∧ (g3.x < c.x ∧ c.y < g3.y) ∧
      (g0.x + g2.x = 2 * c.x ∧ g0.y + g2.y = 2 * c.y) ∧
      (g1.x + g3.x = 2 * c.x ∧ g1.y + g3.y = 2 * c.y) := by
  obtain ⟨-, -, -, hE, -⟩ := construct_frame (Real.sqrt 3) width height isPeriodic
  rw [hE] at hi
  obtain ⟨hpos, hlt⟩ := gauss_offset_bounds
  have hhalf : (0.5 : ℝ) + 0.5 = 1 := by norm_num
  refine ⟨_, _, _, _, _, construct_centre _ width height isPeriodic i hi,
    construct_gaussPoints _ width height isPeriodic i hi, ?_, ?_, ?_, ?_, ?_, ?_, ?_⟩
  · intro g hg
    simp only [List.mem_cons, List.mem_singleton, List.mem_nil_iff, or_false] at hg
    rcases hg with rfl | rfl | rfl | rfl <;>
      refine ⟨?_, ?_, ?_, ?_⟩ <;> simp only <;> linarith
  all_goals constructor <;> simp only <;> linarith

/-- Witness for C17: element 3 of the periodic mesh of width 2 and height 2. -/
theorem gauss_points_in_cell_witness :
    (0 < 2 ∧ 0 < 2 ∧ 3 < (Mesh.construct (Real.sqrt 3) 2 2 true).nElements) ∧
    ∃ c g0 g1 g2 g3 : Coord ℝ,
      (Mesh.construct (Real.sqrt 3) 2 2 true).centre 3 = some c ∧
      ((Mesh.construct (Real.sqrt 3) 2 2 true).elements[3]?).map
        (fun e => e.gaussPoints) = some [g0, g1, g2, g3] ∧
      (∀ g ∈ [g0, g1, g2, g3],
        ((3 % 2 : Nat) : ℝ) < g.x ∧ g.x < ((3 % 2 : Nat) : ℝ) + 1 ∧
        ((3 / 2 : Nat) : ℝ) < g.y ∧ g.y < ((3 / 2 : Nat) : ℝ) + 1) ∧
      (g0.x < c.x ∧ g0.y < c.y) ∧ (c.x < g1.x ∧ g1.y < c.y) ∧
      (c.x < g2.x ∧ c.y < g2.y) ∧ (g3.x < c.x ∧ c.y < g3.y) ∧
      (g0.x + g2.x = 2 * c.x ∧ g0.y + g2.y = 2 * c.y) ∧
      (g1.x + g3.x = 2 * c.x ∧ g1.y + g3.y = 2 * c.y) :=
  have hi : 3 < (Mesh.construct (Real.sqrt 3) 2 2 true).nElements := by
    rw [(construct_frame (Real.sqrt 3) 2 2 true).2.2.2.1]; decide
  ⟨⟨by decide, by decide, hi⟩,
    gauss_points_in_cell 2 2 true (by decide) (by decide) 3 hi⟩

/-! ## Element counts by node position -/

/-- Node `n` is a corner of element `e` exactly when the grid coordinate of `n` is the one
of `e` shifted by `(0,0)`, `(1,0)`, `(1,1)` or `(0,1)`. -/
theorem touches_grid {width e n : Nat} (hw : 0 < width) :
    touches width e n = true ↔
      (n % (width + 1) = e % width ∧ n / (width + 1) = e / width) ∨
      (n % (width + 1) = e % width + 1 ∧ n / (width + 1) = e / width) ∨
      (n % (width + 1) = e % width + 1 ∧ n / (width + 1) = e / width + 1) ∨
      (n % (width + 1) = e % width ∧ n / (width + 1) = e / width + 1) := by
  have hx : e % width < width := Nat.mod_lt _ hw
  have hn : n % (width + 1) + n / (width + 1) * (width + 1) = n := by
    rw [Nat.mul_comm]; exact Nat.mod_add_div _ _
  have hs : (e / width + 1) * (width + 1) = e / width * (width + 1) + (width + 1) := by
    rw [Nat.add_mul, Nat.one_mul]
  obtain ⟨a0, b0⟩ := add_mul_mod_div (a := e % width) (b := e / width) (w := width + 1)
    (by omega)
  obtain ⟨a1, b1⟩ := add_mul_mod_div (a := e % width + 1) (b := e / width) (w := width + 1)
    (by omega)
  obtain ⟨a2, b2⟩ := add_mul_mod_div (a := e % width + 1) (b := e / width + 1)
    (w := width + 1) (by omega)
  obtain ⟨a3, b3⟩ := add_mul_mod_div (a := e % width) (b := e / width + 1) (w := width + 1)
    (by omega)
  rw [touches_iff]
  constructor
  · rintro (h | h | h | h)
    · left; rw [h]; exact ⟨a0, b0⟩
    · right; left
      have : n = e % width + 1 + e / width * (width + 1) := by omega
      rw [this]; exact ⟨a1, b1⟩
    · right; right; left
      have : n = e % width + 1 + (e / width + 1) * (width + 1) := by omega
      rw [this]; exact ⟨a2, b2⟩
    · right; right; right
      have : n = e % width + (e / width + 1) * (width + 1) := by omega
      rw [this]; exact ⟨a3, b3⟩
  · rintro (⟨h1, h2⟩ | ⟨h1, h2⟩ | ⟨h1, h2⟩ | ⟨h1, h2⟩)
    · left; rw [← hn, h1, h2]
    · right; left; rw [← hn, h1, h2]; omega
    · right; right; left; rw [← hn, h1, h2, hs]; omega
    · right; right; right; rw [← hn, h1, h2, hs]; omega

/-- Exactly one element has a given grid coordinate inside the element grid, none
outside. -/
theorem cell_count (width height a b : Nat) (c : Prop) [Decidable c] :
    Finset.sum (Finset.range (width * height))
      (fun e => if c ∧ e % width = a ∧ e / width = b then 1 else 0)
      = if c ∧ a < width ∧ b < height then 1 else 0 := by
  rw [← Finset.card_filter]
  by_cases h : c ∧ a < width ∧ b < height
  · obtain ⟨hc, ha, hb⟩ := h
    rw [if_pos ⟨hc, ha, hb⟩]
    have hset : (Finset.range (width * height)).filter
        (fun e => c ∧ e % width = a ∧ e / width = b) = {a + b * width} := by
      ext e
      simp only [Finset.mem_filter, Finset.mem_range, Finset.mem_singleton]
      constructor
      · rintro ⟨-, -, h1, h2⟩
        have := Nat.mod_add_div e width
        rw [h1, h2, Nat.mul_comm] at this
        exact this.symm
      · rintro rfl
        obtain ⟨h1, h2⟩ := add_mul_mod_div (b := b) ha
        refine ⟨?_, hc, h1, h2⟩
        have h3 : (b + 1) * width ≤ height * width := Nat.mul_le_mul_right _ (by omega)
        rw [Nat.add_mul, Nat.one_mul, Nat.mul_comm height] at h3
        omega
    rw [hset, Finset.card_singleton]
  · rw [if_neg h]
    rw [Finset.card_eq_zero, Finset.filter_eq_empty_iff]
    intro e he ⟨hc, h1, h2⟩
    rw [Finset.mem_range] at he
    apply h
    have hw : 0 < width := by
      rcases Nat.eq_zero_or_pos width with h0 | h0
      · subst h0; simp at he
      · exact h0
    refine ⟨hc, ?_, ?_⟩
    · rw [← h1]; exact Nat.mod_lt _ hw
    · rw [← h2]; exact Nat.div_lt_of_lt_mul he

theorem touching_length_eq_sum (width n k : Nat) :
    (touching width n k).length =
      Finset.sum (Finset.range k) (fun e => if touches width e n = true then 1 else 0) := by
  induction k with
  | zero => simp [touching]
  | succ k ih =>
    rw [Finset.sum_range_succ, ← ih, touching_succ, List.length_append]
    by_cases ht : touches width k n = true
    · rw [if_pos ht, if_pos ht]; rfl
    · rw [if_neg ht, if_neg ht]; rfl

/-- The number of elements touching the node at grid `(x, y)`: one for each of the cells
`(x, y)`, `(x-1, y)`, `(x-1, y-1)`, `(x, y-1)` that lies in the element grid. -/
theorem touching_count (width height n : Nat) (hw : 0 < width) :
    (touching width n (width * height)).length =
      (if n % (width + 1) < width ∧ n / (width + 1) < height then 1 else 0) +
      (if 1 ≤ n % (width + 1) ∧ n % (width + 1) - 1 < width ∧ n / (width + 1) < height
        then 1 else 0) +
      (if (1 ≤ n % (width + 1) ∧ 1 ≤ n / (width + 1)) ∧ n % (width + 1) - 1 < width ∧
        n / (width + 1) - 1 < height then 1 else 0) +
      (if 1 ≤ n / (width + 1) ∧ n % (width + 1) < width ∧ n / (width + 1) - 1 < height
        then 1 else 0) := by
  rw [touching_length_eq_sum]
  have hpt : ∀ e, (if touches width e n = true then 1 else 0) =
      (if True ∧ e % width = n % (width + 1) ∧ e / width = n / (width + 1) then 1 else 0) +
      (if 1 ≤ n % (width + 1) ∧ e % width = n % (width + 1) - 1 ∧
        e / width = n / (width + 1) then 1 else 0) +
      (if (1 ≤ n % (width + 1) ∧ 1 ≤ n / (width + 1)) ∧ e % width = n % (width + 1) - 1 ∧
        e / width = n / (width + 1) - 1 then 1 else 0) +
      (if 1 ≤ n / (width + 1) ∧ e % width = n % (width + 1) ∧
        e / width = n / (width + 1) - 1 then 1 else 0) := by
    intro e
    have hg := touches_grid (e := e) (n := n) hw
    generalize n % (width + 1) = x at *
    generalize n / (width + 1) = y at *
    generalize e % width = ex at *
    generalize e / width = ey at *
    by_cases ht : touches width e n = true
    · rw [if_pos ht]
      rcases hg.mp ht with ⟨h1, h2⟩ | ⟨h1, h2⟩ | ⟨h1, h2⟩ | ⟨h1, h2⟩
      · rw [if_pos ⟨trivial, h1.symm, h2.symm⟩, if_neg (by omega), if_neg (by omega),
          if_neg (by omega)]
      · rw [if_neg (by omega), if_pos (by omega), if_neg (by omega), if_neg (by omega)]
      · rw [if_neg (by omega), if_neg (by omega), if_pos (by omega), if_neg (by omega)]
      · rw [if_neg (by omega), if_neg (by omega), if_neg (by omega), if_pos (by omega)]
    · rw [if_neg ht]
      have hnot : ¬ ((x = ex ∧ y = ey) ∨ (x = ex + 1 ∧ y = ey) ∨ (x = ex + 1 ∧ y = ey + 1) ∨
          (x = ex ∧ y = ey + 1)) := fun h => ht (hg.mpr h)
      rw [if_neg (by omega), if_neg (by omega), if_neg (by omega), if_neg (by omega)]
  simp only [hpt]
  rw [Finset.sum_add_distrib, Finset.sum_add_distrib, Finset.sum_add_distrib,
    cell_count, cell_count, cell_count, cell_count]
  simp only [true_and]

/-- Four iterations of the reverse connectivity loop complete the iteration of
`initialiseElements`. -/
theorem beforeConnect_four [Field K] (sqrtThree : K) (width_ height_ : Nat)
    (isPeriodic_ : Bool) (e : Nat) :
    Mesh.beforeConnect sqrtThree width_ height_ isPeriodic_ e 4 =
      forLoop (Mesh.initialiseElementsBody (1 / sqrtThree))
        (Mesh.afterNodes width_ height_ isPeriodic_) (e + 1) := by
  have h : forLoop (Mesh.initialiseElementsBody (1 / sqrtThree))
      (Mesh.afterNodes width_ height_ isPeriodic_) (e + 1) =
      Mesh.initialiseElementsBody (1 / sqrtThree) e
        (forLoop (Mesh.initialiseElementsBody (1 / sqrtThree))
          (Mesh.afterNodes width_ height_ isPeriodic_) e) := by rw [forLoop]
  rw [h, initialiseElementsBody_eq, Mesh.beforeConnect]

theorem connectLoop_elementNode (i a b : Nat) (m : Mesh K) (k : Nat) :
    (forLoop (Mesh.connectBody i) m k).elementNode a b = m.elementNode a b := by
  induction k with
  | zero => rfl
  | succ k ih => rw [forLoop, elementNode_connectBody, ih]

/-- A node that is not among the corners connected so far is unchanged. -/
theorem connectLoop_nodes_getElem?_of_ne (i : Nat) (m : Mesh K) (k c : Nat)
    (hne : ∀ j, j < k → m.elementNode i j ≠ c) :
    (forLoop (Mesh.connectBody i) m k).nodes[c]? = m.nodes[c]? := by
  induction k with
  | zero => rfl
  | succ k ih =>
    rw [forLoop, connectBody_nodes, connectLoop_elementNode,
      List.getElem?_modify_ne _ _ (hne k (by omega)), ih (fun j hj => hne j (by omega))]

/-- Every write `nodes[node].elements[nodes[node].nElements] = i` of the constructor uses
an index below 4. -/
theorem writeIndex_lt_four [Field K] (sqrtThree : K) (width height : Nat)
    (isPeriodic : Bool) (hh : 0 < height) (hn : (width + 1) * (height + 1) < 4294967296)
    (e j : Nat) (he : e < width * height) (hj : j < 4) :
    ∃ k : Nat, (Mesh.beforeConnect sqrtThree width height isPeriodic e j).writeIndex e j
      = some k ∧ k < 4 := by
  obtain ⟨h1, -, -, -, -, h6⟩ := afterNodes_frame (K := K) width height isPeriodic
  obtain ⟨-, -, -, e4, -⟩ := nowrap_facts hh hn
  have hEn := nElements_nowrap hn
  obtain ⟨hx, hy, hyW, hNeq⟩ := element_bounds he
  have hw : 0 < width := by omega
  -- the state after `e` iterations
  have hfr := initialiseElements_loop_frame (1 / sqrtThree)
    (Mesh.afterNodes width height isPeriodic) e
  have hel : (forLoop (Mesh.initialiseElementsBody (1 / sqrtThree))
      (Mesh.afterNodes width height isPeriodic) e).elements[e]? = some Element.zero := by
    rw [initialiseElements_loop_elements, if_neg (by omega)]
    exact afterNodes_elements_getElem? width height isPeriodic e
      (by rw [h6, List.length_replicate, hEn]; exact he)
  have hnodes : (forLoop (Mesh.initialiseElementsBody (1 / sqrtThree))
      (Mesh.afterNodes width height isPeriodic) e).nodes
        = connectLoop width (Mesh.afterNodes (K := K) width height isPeriodic).nodes e := by
    rw [initialiseElements_loop_nodes _ _
      (afterNodes_elements_getElem? width height isPeriodic) _
      (by rw [h6, List.length_replicate, hEn]; omega), h1]
  have hnode : ∀ i, (Mesh.elementWrites (1 / sqrtThree) e
      (forLoop (Mesh.initialiseElementsBody (1 / sqrtThree))
        (Mesh.afterNodes width height isPeriodic) e)).elementNode e i
        = (cornerIndices width e).getD i 0 := by
    intro i
    rw [elementWrites_elementNode _ _ _ _ hel rfl, hfr.1, h1, corners_eq hh hn he]
  -- the corner written through
  have hcj : ∃ c, (cornerIndices width e).getD j 0 = c ∧ touches width e c = true ∧
      c < (width + 1) * (height + 1) ∧
      ∀ i, i < j → (cornerIndices width e).getD i 0 ≠ c := by
    refine ⟨_, rfl, ?_, ?_, ?_⟩
    · rw [touches_iff, cornerIndices_eq]
      interval_cases j <;> simp
    · rw [cornerIndices_eq]
      interval_cases j <;> simp <;> omega
    · intro i hi
      rw [cornerIndices_eq]
      interval_cases j <;> interval_cases i <;> simp <;> omega
  obtain ⟨c, hc, htouch, hclt, hdist⟩ := hcj
  have h0 := afterNodes_nodes (K := K) width height isPeriodic c (by rw [e4]; exact hclt)
  obtain ⟨nd, g1, -, g3, -⟩ := connectLoop_inv hh hn _ c _ h0 rfl rfl e (by omega)
  have hle := touching_length_le width c (e + 1)
  rw [touching_succ, if_pos htouch, List.length_append, List.length_singleton] at hle
  refine ⟨nd.nElements, ?_, by omega⟩
  unfold Mesh.writeIndex Mesh.beforeConnect
  rw [connectLoop_elementNode, hnode, hc,
    connectLoop_nodes_getElem?_of_ne _ _ _ _ (fun i hi => by rw [hnode]; exact hdist i hi),
    elementWrites_nodes, hnodes, g1]
  rfl

theorem connectLoop_zero (width : Nat) (ns : List (Node K)) :
    connectLoop width ns 0 = ns := rfl

/-- C18, amended: in a mesh with positive width and height and no unsigned overflow,
periodic or not, the node at grid `(x, y) = (n mod (width+1), n div (width+1))` has
`nElements == 4` when it is interior (`0 < x < width` and `0 < y < height`), 1 when it is
one of the four domain corners and 2 when it is any other boundary node; the count never
exceeds 4, and every write `nodes[node].elements[nodes[node].nElements] = i` of the
constructor uses an index below 4. -/
theorem node_element_counts [Field K] (sqrtThree : K) (width height : Nat)
    (isPeriodic : Bool) (hw : 0 < width) (hh : 0 < height)
    (hn : (width + 1) * (height + 1) < 4294967296) :
    (∀ n : Nat, n < (Mesh.construct sqrtThree width height isPeriodic).nNodes →
      ∃ k : Nat, (Mesh.construct sqrtThree width height isPeriodic).nodeElementCount n
          = some k ∧
        ((0 < n % (width + 1) ∧ n % (width + 1) < width ∧
          0 < n / (width + 1) ∧ n / (width + 1) < height) → k = 4) ∧
        (((n % (width + 1) = 0 ∨ n % (width + 1) = width) ∧
          (n / (width + 1) = 0 ∨ n / (width + 1) = height)) → k = 1) ∧
        ((¬ (0 < n % (width + 1) ∧ n % (width + 1) < width ∧
            0 < n / (width + 1) ∧ n / (width + 1) < height) ∧
          ¬ ((n % (width + 1) = 0 ∨ n % (width + 1) = width) ∧
            (n / (width + 1) = 0 ∨ n / (width + 1) = height))) → k = 2) ∧
        k ≤ 4) ∧
    (∀ e j : Nat, e < (Mesh.construct sqrtThree width height isPeriodic).nElements → j < 4 →
      ∃ i : Nat, (Mesh.beforeConnect sqrtThree width height isPeriodic e j).writeIndex e j
        = some i ∧ i < 4) := by
  obtain ⟨-, -, hN, hE, -⟩ := construct_frame sqrtThree width height isPeriodic
  obtain ⟨-, -, -, e4, -⟩ := nowrap_facts hh hn
  constructor
  · intro n hnlt
    rw [hN, e4] at hnlt
    obtain ⟨nd, h1, -, h3, -⟩ :=
      construct_node_elements sqrtThree width height isPeriodic hh hn n hnlt
    obtain ⟨hx, hy, -, -, -⟩ := grid_bounds hnlt
    have hcount := touching_count width height n hw
    have hle := touching_length_le width n (width * height)
    rw [← h3] at hcount hle
    refine ⟨nd.nElements, ?_, ?_, ?_, ?_, hle⟩
    · unfold Mesh.nodeElementCount
      rw [h1]
      rfl
    all_goals
      generalize n % (width + 1) = x at *
      generalize n / (width + 1) = y at *
      intro hcase
      rw [hcount]
      split_ifs <;> omega
  · intro e j he hj
    rw [hE, nElements_nowrap hn] at he
    exact writeIndex_lt_four sqrtThree width height isPeriodic hh hn e j he hj

/-- Witness for C18: the non-periodic mesh of width 2 and height 2. -/
theorem node_element_counts_witness :
    (0 < 2 ∧ 0 < 2 ∧ (2 + 1) * (2 + 1) < 4294967296) ∧
    ((∀ n : Nat, n < (Mesh.construct sqrtThreeQ 2 2 false).nNodes →
      ∃ k : Nat, (Mesh.construct sqrtThreeQ 2 2 false).nodeElementCount n = some k ∧
        ((0 < n % (2 + 1) ∧ n % (2 + 1) < 2 ∧ 0 < n / (2 + 1) ∧ n / (2 + 1) < 2) → k = 4) ∧
        (((n % (2 + 1) = 0 ∨ n % (2 + 1) = 2) ∧ (n / (2 + 1) = 0 ∨ n / (2 + 1) = 2)) →
          k = 1) ∧
        ((¬ (0 < n % (2 + 1) ∧ n % (2 + 1) < 2 ∧ 0 < n / (2 + 1) ∧ n / (2 + 1) < 2) ∧
          ¬ ((n % (2 + 1) = 0 ∨ n % (2 + 1) = 2) ∧ (n / (2 + 1) = 0 ∨ n / (2 + 1) = 2))) →
          k = 2) ∧
        k ≤ 4) ∧
    (∀ e j : Nat, e < (Mesh.construct sqrtThreeQ 2 2 false).nElements → j < 4 →
      ∃ i : Nat, (Mesh.beforeConnect sqrtThreeQ 2 2 false e j).writeIndex e j = some i ∧
        i < 4)) :=
  ⟨⟨by decide, by decide, by decide⟩,
    node_element_counts sqrtThreeQ 2 2 false (by decide) (by decide) (by decide)⟩

/-- C18, as stated, fails when `width*height` overflows: the mesh of width 65536 and height
65536 has `nElements == 0` (the product `2^32` wraps) and 131073 nodes; its node 65538 lies
at grid `(1, 1)`, an interior position, and has `nElements == 0`, not 4. -/
theorem interior_node_count_overflow :
    (0 < 65538 % (65536 + 1) ∧ 65538 % (65536 + 1) < 65536 ∧
      0 < 65538 / (65536 + 1) ∧ 65538 / (65536 + 1) < 65536) ∧
    (Mesh.construct sqrtThreeQ 65536 65536 false).nElements = 0 ∧
    65538 < (Mesh.construct sqrtThreeQ 65536 65536 false).nNodes ∧
    (Mesh.construct sqrtThreeQ 65536 65536 false).nodeElementCount 65538 = some 0 ∧
    (Mesh.construct sqrtThreeQ 65536 65536 false).nodeElementCount 65538 ≠ some 4 := by
  obtain ⟨-, -, hN, hE, -⟩ := construct_frame sqrtThreeQ 65536 65536 false
  have h0 : umul 65536 65536 = 0 := by decide
  have hNv : umul (uadd 1 65536) (uadd 1 65536) = 131073 := by decide
  have hcount : (Mesh.construct sqrtThreeQ 65536 65536 false).nodeElementCount 65538
      = some 0 := by
    unfold Mesh.nodeElementCount
    rw [construct_nodes, h0, connectLoop_zero,
      afterNodes_nodes 65536 65536 false 65538 (by rw [hNv]; decide), Option.map_some']
    rfl
  refine ⟨by decide, by rw [hE, h0], by rw [hN, hNv]; decide, hcount, ?_⟩
  rw [hcount]
  decide

end lsm

